import Mathlib

/-! Bandmap spot store of tlf (`src/bandmap.c`)

Shallow embedding of the spot store kept in the global list `allspots` and of
the two operations that mutate it, `bandmap_addspot` and `bandmap_age`,
together with the mode classifier `freq2mode`, the snapshot reader
`bmdata_read_file`, the filtered view (`filter_spots`, `bandmap_lookup`,
`bandmap_next`) and the window computation of `bandmap_show`.

Conventions of the embedding

* The `GList` of spot pointers is a Lean `List`.  Where the C code keeps a
  pointer into the list (`found`), the list is a list of `Cell`s, each cell
  carrying its spot and a flag telling whether `found` designates it.
* The field `freq` of a spot is an `int` in whole Hertz (a natural number
  here).  The frequency handed to `bandmap_addspot` and `freq2mode` is a
  `freq_t`, which can carry a fraction of a Hertz (`bm_add` passes
  `atof(...) * 1000`); it is held exactly, as a fraction of natural numbers.
  The declarations of `freq_t` and of the `spot` structure live in headers
  that are not part of the sources at hand.
* Everything the file reaches through other modules (band plan, country
  data, worked list, configuration) is gathered in the records `Env` and
  `ShowEnv`.
* The center frequency and the frequency handed to `bandmap_next` are taken in
  whole Hertz.  Against the integer frequency of a spot a comparison `<=` or
  `>` with a fractional value agrees with the one with its whole Hertz, and
  the comparison `<` of the downward search with the one with the next whole
  number, so the whole numbers cover what the code does with a fraction.
* Where the C code subtracts `unsigned int` values the subtraction is `usub`,
  which wraps around; sums of array sizes stay far below `2 ^ 32`.
* `pthread_mutex_lock`/`unlock` bracket each operation as a whole, so an
  operation is a function from the list before to the list after.
-/

namespace Bandmap

/-! ## Data model -/

/-- The `spot` structure of `bandmap.h`, with the fields used by `bandmap.c`
(`copy_spot` lists all of them). -/
structure spot where
  call : String
  freq : Nat
  mode : Int
  band : Int
  node : Char
  timeout : Nat
  dupe : Int
  cqzone : Int
  ctynr : Int
  pfx : String
  deriving DecidableEq

/-- The macro `TOLERANCE` of `bandmap.c`. -/
def TOLERANCE : Nat := 100

/-- The macro `DISTANCE(x, y)` of `bandmap.c`: `x < y ? y - x : x - y`, on whole
Hertz. -/
def DISTANCE (x y : Nat) : Nat := if x < y then y - x else x - y

/-- The type `freq_t` of `tlf.h`, a header that is not among the sources.  `bm_add`
hands `atof(...) * 1000` to `bandmap_addspot`, so a value of the type can have a
fractional part.  A value is held exactly, as the fraction `num / den` of two
natural numbers; a frequency below zero belongs to no band. -/
structure freq_t where
  num : Nat
  den : Nat
  den_pos : 0 < den

/-- The conversion of an `int` to `freq_t`, as the C code applies it to the field
`freq` of a spot and to integer constants in a comparison with a `freq_t`. -/
def freq_t.ofNat (n : Nat) : freq_t := ⟨n, 1, Nat.one_pos⟩

/-- The conversion of a `freq_t` to `int`, as the C code applies it when the value
is assigned to the field `freq` of a spot: the fractional part is discarded. -/
def freq_t.toNat (f : freq_t) : Nat := f.num / f.den

/-- The least whole number of Hertz that is not below the value. -/
def freq_t.ceil (f : freq_t) : Nat := (f.num + (f.den - 1)) / f.den

/-- A whole number of Hertz written as a numeral. -/
instance (n : Nat) : OfNat freq_t n := ⟨freq_t.ofNat n⟩

/-- The comparison `x < y` of two `freq_t` values. -/
instance : LT freq_t := ⟨fun x y => x.num * y.den < y.num * x.den⟩

/-- The comparison `x <= y` of two `freq_t` values. -/
instance : LE freq_t := ⟨fun x y => x.num * y.den ≤ y.num * x.den⟩

instance (x y : freq_t) : Decidable (x < y) := Nat.decLt (x.num * y.den) (y.num * x.den)

instance (x y : freq_t) : Decidable (x ≤ y) := Nat.decLe (x.num * y.den) (y.num * x.den)

/-- The difference `x - y` of two `freq_t` values, of which `y` is not the larger
one. -/
def freq_t.sub (x y : freq_t) : freq_t :=
  ⟨x.num * y.den - y.num * x.den, x.den * y.den, Nat.mul_pos x.den_pos y.den_pos⟩

/-- The frequency of `n` Hertz and a half. -/
def freq_t.half (n : Nat) : freq_t := ⟨2 * n + 1, 2, Nat.succ_pos 1⟩

/-- The macro `DISTANCE(x, y)` of `bandmap.c`, `x < y ? y - x : x - y`, where one
of the arguments is a `freq_t` and the arithmetic is that of `freq_t`. -/
def freq_t.DISTANCE (x y : freq_t) : freq_t := if x < y then y.sub x else x.sub y

/-- Modelled from the spec: the mode constant `CWMODE` of `tlf.h`, a header that
is not among the sources; the three mode constants are distinct small integers. -/
def CWMODE : Int := 0

/-- Modelled from the spec: the mode constant `SSBMODE` of `tlf.h`. -/
def SSBMODE : Int := 1

/-- Modelled from the spec: the mode constant `DIGIMODE` of `tlf.h`. -/
def DIGIMODE : Int := 2

/-- What `bandmap_addspot` and `freq2mode` read from the rest of the program:
the configured lifetime `SPOT_NEW` (`bm_config.livetime`), the band plan
(`freq2band`, `BANDINDEX_OOB`, `cwcorner`, `ssbcorner`), the country data
(`getctynr`, `dxcc_by_index`), the contest kind (`CONTEST_IS(CQWW)`), the worked
list (`lookup_worked`, `worked[i].exchange`), the initial exchange list
`main_ie_list` as (call, exchange) pairs, and the C library function `atoi`. -/
structure Env where
  SPOT_NEW : Nat
  freq2band : freq_t → Int
  BANDINDEX_OOB : Int
  cwcorner : Int → Nat
  ssbcorner : Int → Nat
  getctynr : String → Int
  dxcc_cq : Int → Int
  dxcc_pfx : Int → String
  contest_is_cqww : Bool
  lookup_worked : String → Int
  worked_exchange : Int → String
  main_ie_list : List (String × String)
  atoi : String → Int

/-- A cell of the doubly linked list while `bandmap_addspot` runs: the spot it
points to and whether it is the cell the local variable `found` points to. -/
structure Cell where
  data : spot
  isFound : Bool
  deriving DecidableEq

/-- A cell that `found` does not point to. -/
def other (s : spot) : Cell := ⟨s, false⟩

/-- The cell that `found` points to. -/
def target (s : spot) : Cell := ⟨s, true⟩

/-! ## Mode classification -/

/-- `freq2mode` (bandmap.c 219-226). -/
def freq2mode (E : Env) (freq : freq_t) (band : Int) : Int :=
  if freq ≤ freq_t.ofNat (E.cwcorner band) then CWMODE
  else if freq < freq_t.ofNat (E.ssbcorner band) then DIGIMODE
  else SSBMODE

/-! ## GLib list primitives used by the store -/

/-- `cmp_freq` (bandmap.c 264-271). -/
def cmp_freq (a b : spot) : Int :=
  if a.freq < b.freq then -1
  else if a.freq > b.freq then 1
  else 0

/-- `cmp_freq` applied to the spots of two list cells. -/
def cmp_cell (a b : Cell) : Int := cmp_freq a.data b.data

/-- `g_list_insert_sorted` of GLib: the list is walked while the comparison of
the new element with the current one is positive, and the new element is linked
in before the first element for which it is not (or at the end). -/
def g_list_insert_sorted {α : Type} (cmp : α → α → Int) : List α → α → List α
  | [], x => [x]
  | y :: l, x => if cmp x y > 0 then y :: g_list_insert_sorted cmp l x else x :: y :: l

/-- `g_list_sort` of GLib, documented as a stable sort.  The stable sorted
arrangement of a list is unique; it is computed here by inserting the elements
from the back, each before the first element that does not compare below it. -/
def g_list_sort {α : Type} (cmp : α → α → Int) (l : List α) : List α :=
  l.foldr (fun x acc => g_list_insert_sorted cmp acc x) []

/-! ## `bandmap_addspot` -/

/-- The search loop of `bandmap_addspot` (bandmap.c 320-330): the first cell
whose spot has the given call (`cmp_call`, i.e. string equality) and the given
band and mode.  Returns the spots before it, the spot itself and the spots after
it, or `none` when the loop ends with `found == NULL`. -/
def find_spot (call : String) (band mode : Int) :
    List spot → Option (List spot × spot × List spot)
  | [] => none
  | s :: rest =>
    if s.call = call ∧ s.band = band ∧ s.mode = mode then some ([], s, rest)
    else
      match find_spot call band mode rest with
      | some (pre, x, post) => some (s :: pre, x, post)
      | none => none

/-- The exchange remembered for a call under CQWW (bandmap.c 355-375): the one of
the worked list when the call is in it, else the one of the first entry of
`main_ie_list` with that call; `none` stands for `lastexch == NULL`. -/
def last_exchange (E : Env) (call : String) : Option String :=
  if E.contest_is_cqww then
    if E.lookup_worked call ≥ 0 then some (E.worked_exchange (E.lookup_worked call))
    else (E.main_ie_list.find? (fun ie => call == ie.1)).map (fun ie => ie.2)
  else none

/-- The new entry prepared by `bandmap_addspot` when the call is not yet in the
list on that band and mode (bandmap.c 346-389); the assignment
`entry->freq = freq` converts the `freq_t` to the `int` of the field. -/
def new_entry (E : Env) (call : String) (freq : freq_t) (band mode : Int) (node : Char) :
    spot :=
  let dxccindex := E.getctynr call
  if dxccindex > 0 then
    { call := call, freq := freq.toNat, mode := mode, band := band, node := node,
      timeout := E.SPOT_NEW, dupe := 0,
      cqzone := (match last_exchange E call with
                 | some lastexch => E.atoi lastexch
                 | none => E.dxcc_cq dxccindex),
      ctynr := dxccindex, pfx := E.dxcc_pfx dxccindex }
  else
    { call := call, freq := freq.toNat, mode := mode, band := band, node := node,
      timeout := E.SPOT_NEW, dupe := 0, cqzone := 0, ctynr := 0, pfx := "" }

/-- First neighbour check (bandmap.c 397-403) on the cells in front of `found`:
`found->prev` is the last of them; it is unlinked when its frequency is less than
`TOLERANCE` away from `freq`, the frequency as it came in. -/
def drop_prev (freq : freq_t) (before : List Cell) : List Cell :=
  match before.getLast? with
  | some p =>
    if freq_t.DISTANCE (freq_t.ofNat p.data.freq) freq < freq_t.ofNat TOLERANCE
    then before.dropLast else before
  | none => before

/-- Second neighbour check (bandmap.c 404-410) on the cells behind `found`:
`found->next` is the first of them; it is unlinked when its frequency is less
than `TOLERANCE` away from `freq`, the frequency as it came in. -/
def drop_next (freq : freq_t) (after : List Cell) : List Cell :=
  match after with
  | n :: rest =>
    if freq_t.DISTANCE (freq_t.ofNat n.data.freq) freq < freq_t.ofNat TOLERANCE
    then rest else n :: rest
  | [] => []

/-- The neighbour cleanup at the end of `bandmap_addspot` (bandmap.c 395-410):
the list is split at the cell `found` points to, and the two checks are applied
to its predecessor and to its successor. -/
def drop_neighbours (freq : freq_t) (cells : List Cell) : List Cell :=
  match cells.span (fun c => !c.isFound) with
  | (before, f :: after) => drop_prev freq before ++ f :: drop_next freq after
  | (_, []) => cells

/-- The list as `bandmap_addspot` leaves it before the neighbour cleanup
(bandmap.c 336-393), with the cell of `found` marked.  The stored frequency is
compared with the frequency as it came in; the assignment to the field keeps its
whole Hertz. -/
def touch (E : Env) (allspots : List spot) (call : String) (freq : freq_t) (band mode : Int)
    (node : Char) : List Cell :=
  match find_spot call band mode allspots with
  | some (pre, old, post) =>
    let upd : spot := { old with timeout := E.SPOT_NEW, node := node }
    if freq_t.DISTANCE (freq_t.ofNat old.freq) freq > freq_t.ofNat TOLERANCE then
      g_list_sort cmp_cell
        (pre.map other ++ target { upd with freq := freq.toNat } :: post.map other)
    else
      pre.map other ++ target upd :: post.map other
  | none =>
    g_list_insert_sorted cmp_cell (allspots.map other)
      (target (new_entry E call freq band mode node))

/-- `bandmap_addspot` (bandmap.c 285-414) as a function on the list `allspots`. -/
def bandmap_addspot (E : Env) (allspots : List spot) (call : String) (freq : freq_t)
    (node : Char) : List spot :=
  if freq > freq_t.ofNat 30000000 then allspots
  else if E.freq2band freq = E.BANDINDEX_OOB then allspots
  else
    let band := E.freq2band freq
    let mode := freq2mode E freq band
    (drop_neighbours freq (touch E allspots call freq band mode node)).map Cell.data

/-! ## `bandmap_age` -/

/-- `bandmap_age` (bandmap.c 417-443): every spot with a non-zero timeout has it
decremented, and every spot whose timeout is then zero is unlinked. -/
def bandmap_age : List spot → List spot
  | [] => []
  | data :: list =>
    let t := if data.timeout ≠ 0 then data.timeout - 1 else data.timeout
    if t = 0 then bandmap_age list
    else { data with timeout := t } :: bandmap_age list

/-! ## A concrete setting for the scenarios -/

/-- A band plan with the single band 20 m (index 5, 14.000-14.350 MHz, CW up to
14.070 MHz, SSB from 14.100 MHz), out-of-band index 10, a lifetime of 900 ticks,
no country data and no contest. -/
def scenarioEnv : Env where
  SPOT_NEW := 900
  freq2band := fun f =>
    if freq_t.ofNat 14000000 ≤ f ∧ f ≤ freq_t.ofNat 14350000 then 5 else 10
  BANDINDEX_OOB := 10
  cwcorner := fun _ => 14070000
  ssbcorner := fun _ => 14100000
  getctynr := fun _ => 0
  dxcc_cq := fun _ => 0
  dxcc_pfx := fun _ => ""
  contest_is_cqww := false
  lookup_worked := fun _ => -1
  worked_exchange := fun _ => ""
  main_ie_list := []
  atoi := fun _ => 0

/-- A spot as `bandmap_addspot` creates it in `scenarioEnv`, with a given
remaining lifetime. -/
def scenarioSpot (call : String) (freq : Nat) (timeout : Nat) : spot :=
  { call := call, freq := freq, mode := CWMODE, band := 5, node := ' ',
    timeout := timeout, dupe := 0, cqzone := 0, ctynr := 0, pfx := "" }


/-! ## The record that `bandmap_addspot` touches -/

/-- The spot `found` points to when the neighbour cleanup starts: the refreshed
record (with the whole Hertz of the incoming frequency when it moved by more than
`TOLERANCE`), or the newly created entry. -/
def touched (E : Env) (allspots : List spot) (call : String) (freq : freq_t)
    (band mode : Int) (node : Char) : spot :=
  match find_spot call band mode allspots with
  | some (_, old, _) =>
    { old with timeout := E.SPOT_NEW, node := node,
               freq := if freq_t.DISTANCE (freq_t.ofNat old.freq) freq > freq_t.ofNat TOLERANCE
                 then freq.toNat else old.freq }
  | none => new_entry E call freq band mode node

/-- The records of the store other than the one the search loop found. -/
def untouched (allspots : List spot) (call : String) (band mode : Int) : List spot :=
  match find_spot call band mode allspots with
  | some (pre, _, post) => pre ++ post
  | none => allspots

/-- What `k` aging ticks make of a record: its timeout reduced by `k` when more
than `k` ticks were left, nothing otherwise. -/
def decay (k : Nat) (r : spot) : Option spot :=
  if k < r.timeout then some { r with timeout := r.timeout - k } else none

/-- The refresh of an existing record (bandmap.c 337-342): timeout and node are
set, and the frequency is set when it differs from the incoming one by more than
`TOLERANCE`. -/
def refreshed (E : Env) (old : spot) (freq : freq_t) (node : Char) : spot :=
  { old with timeout := E.SPOT_NEW, node := node,
             freq := if freq_t.DISTANCE (freq_t.ofNat old.freq) freq > freq_t.ofNat TOLERANCE
               then freq.toNat else old.freq }

/-! ## Predicates on the store -/

/-- The store yields frequencies in non-decreasing order. -/
abbrev sortedByFreq (l : List spot) : Prop := l.Pairwise (fun a b => a.freq ≤ b.freq)

/-- Two spots share call, band and mode. -/
abbrev sameKey (a b : spot) : Prop := a.call = b.call ∧ a.band = b.band ∧ a.mode = b.mode

/-- No two records of the store share (call, band, mode). -/
abbrev uniqueKey (l : List spot) : Prop := l.Pairwise (fun a b => ¬ sameKey a b)

/-- Any two records of the store are at least `TOLERANCE` apart in frequency. -/
abbrev apart (l : List spot) : Prop := l.Pairwise (fun a b => TOLERANCE ≤ DISTANCE a.freq b.freq)

/-- The store states that can be reached from the empty store by
`bandmap_addspot` and `bandmap_age`, in any setting. -/
inductive Reachable : List spot → Prop
  | empty : Reachable []
  | addspot (E : Env) (s : List spot) (call : String) (freq : freq_t) (node : Char) :
      Reachable s → Reachable (bandmap_addspot E s call freq node)
  | age (s : List spot) : Reachable s → Reachable (bandmap_age s)

/-! ## Reading the snapshot file (`bmdata_read_file`) -/

/-- `isspace` of the C library (C locale), used by the numeric conversions of
`sscanf`. -/
def isspace (c : Char) : Bool :=
  c = ' ' || c = '\t' || c = '\n' || c = '\x0b' || c = '\x0c' || c = '\r'

/-- The results of the successive calls `fgets(line, size, fp)` on a file with the
given text, until end of file: each call returns the characters up to and
including the next newline, but at most `size - 1` of them.  `cur` holds the
characters already read by the call in progress. -/
def fgets_all (size : Nat) : List Char → List Char → List (List Char)
  | [], cur => if cur = [] then [] else [cur]
  | c :: rest, cur =>
    if c = '\n' ∨ (cur ++ [c]).length + 1 ≥ size then (cur ++ [c]) :: fgets_all size rest []
    else fgets_all size rest (cur ++ [c])

/-- The tokens that `strtok(line, delim)` followed by `strtok(NULL, delim)`
returns until it returns `NULL`: the maximal non-empty runs of characters other
than the delimiter.  `cur` holds the token in progress. -/
def strtok_all (delim : Char) : List Char → List Char → List (List Char)
  | [], cur => if cur = [] then [] else [cur]
  | c :: rest, cur =>
    if c = delim then
      (if cur = [] then strtok_all delim rest [] else cur :: strtok_all delim rest [])
    else strtok_all delim rest (cur ++ [c])

/-- The number written by a run of decimal digits. -/
def digits_value (ds : List Char) : Nat :=
  ds.foldl (fun acc c => acc * 10 + (c.toNat - 48)) 0

/-- The integer conversions of `sscanf` (`%d`, `%hhd`, `%hd`, `%u`) before the
result is stored: white space is skipped, an optional sign is read, then the
longest run of decimal digits; `none` when there is no digit, in which case
`sscanf` stores nothing. -/
def scan_int (s : List Char) : Option Int :=
  let s1 := s.dropWhile isspace
  let s2 := if s1.head? = some '-' ∨ s1.head? = some '+' then s1.tail else s1
  let ds := s2.takeWhile Char.isDigit
  if ds = [] then none
  else some (if s1.head? = some '-' then -(digits_value ds : Int) else (digits_value ds : Int))

/-- Storing an integer in an unsigned object of the given width: the value modulo
`2 ^ bits`. -/
def to_unsigned (bits : Nat) (v : Int) : Nat := (v % (2 : Int) ^ bits).toNat

/-- Storing an integer in a signed (two's complement) object of the given width. -/
def to_signed (bits : Nat) (v : Int) : Int :=
  if v % (2 : Int) ^ bits < (2 : Int) ^ (bits - 1) then v % (2 : Int) ^ bits
  else v % (2 : Int) ^ bits - (2 : Int) ^ bits

/-- The entry as `g_new0(spot, 1)` returns it: every field zero, the two string
pointers `NULL` (rendered as the empty string). -/
def zero_spot : spot :=
  { call := "", freq := 0, mode := 0, band := 0, node := Char.ofNat 0,
    timeout := 0, dupe := 0, cqzone := 0, ctynr := 0, pfx := "" }

/-- The `switch (fc)` of `bmdata_read_file` (bandmap.c 152-173): what token number
`fc` of a line does to the entry. -/
def store_token (entry : spot) (fc : Nat) (token : List Char) : spot :=
  match fc with
  | 0 => { entry with call := String.mk token }
  | 1 => match scan_int token with
    | some v => { entry with freq := to_unsigned 32 v }
    | none => entry
  | 2 => match scan_int token with
    | some v => { entry with mode := to_signed 8 v }
    | none => entry
  | 3 => match scan_int token with
    | some v => { entry with band := to_signed 16 v }
    | none => entry
  | 4 => match token with
    | c :: _ => { entry with node := c }
    | [] => entry
  | 5 => match scan_int token with
    | some v => { entry with timeout := to_unsigned 32 v }
    | none => entry
  | 6 => match scan_int token with
    | some v => { entry with dupe := to_signed 8 v }
    | none => entry
  | 7 => match scan_int token with
    | some v => { entry with cqzone := to_signed 32 v }
    | none => entry
  | 8 => match scan_int token with
    | some v => { entry with ctynr := to_signed 32 v }
    | none => entry
  | 9 => { entry with pfx := String.mk token }
  | _ => entry

/-- The token loop of `bmdata_read_file` (bandmap.c 150-176). -/
def parse_tokens : spot → Nat → List (List Char) → spot
  | entry, _, [] => entry
  | entry, fc, token :: rest => parse_tokens (store_token entry fc token) (fc + 1) rest

/-- The entry that `bmdata_read_file` builds from one line of the file
(bandmap.c 148-176). -/
def parse_line (line : List Char) : spot :=
  parse_tokens zero_spot 0 (strtok_all ';' line [])

/-- The line loop of `bmdata_read_file` (bandmap.c 147-183): an entry whose timeout
exceeds `timediff` has it reduced by `timediff` and is inserted in frequency
order; any other entry is freed. -/
def read_entries (timediff : Nat) : List (List Char) → List spot → List spot
  | [], allspots => allspots
  | line :: rest, allspots =>
    if (parse_line line).timeout > timediff then
      read_entries timediff rest
        (g_list_insert_sorted cmp_freq allspots
          { parse_line line with timeout := (parse_line line).timeout - timediff })
    else read_entries timediff rest allspots

/-- The list `allspots` together with the static flag `bmdata_parsed` of
`bmdata_read_file`. -/
structure LoadState where
  allspots : List spot
  bmdata_parsed : Bool
  deriving DecidableEq

/-- The `int last_bm_save_time` after `sscanf(line, "%d", ...)` on the first line
of the file; when the conversion fails the variable keeps its indeterminate
initial content `stack`. -/
def saved_time (first : List Char) (stack : Int) : Int :=
  match scan_int first with
  | some v => to_signed 32 v
  | none => stack

/-- The `timediff` of `bmdata_read_file` (bandmap.c 143-145): the seconds since
the file was saved, or zero when that difference is negative. -/
def elapsed (now saved : Int) : Nat :=
  if now - saved < 0 then 0 else (now - saved).toNat

/-- `bmdata_read_file` (bandmap.c 128-187).  `file` is the text of `.bmdata.dat`,
or `none` when `fopen` fails; `now` is `(int)tv.tv_sec`. -/
def bmdata_read_file (st : LoadState) (file : Option (List Char)) (now : Int)
    (stack : Int) : LoadState :=
  if st.bmdata_parsed then st
  else
    match file with
    | none => st
    | some text =>
      match fgets_all 50 text [] with
      | [] => { st with bmdata_parsed := true }
      | first :: lines =>
        { allspots := read_entries (elapsed now (saved_time first stack)) lines st.allspots,
          bmdata_parsed := true }

/-- The states of `allspots` and `bmdata_parsed` that can be reached from the
initial state by `bandmap_addspot`, `bandmap_age` and `bmdata_read_file`, with a
fixed setting `E`. -/
inductive ReachableLoad (E : Env) : LoadState → Prop
  | init : ReachableLoad E ⟨[], false⟩
  | addspot (st : LoadState) (call : String) (freq : freq_t) (node : Char) :
      ReachableLoad E st →
      ReachableLoad E ⟨bandmap_addspot E st.allspots call freq node, st.bmdata_parsed⟩
  | age (st : LoadState) :
      ReachableLoad E st → ReachableLoad E ⟨bandmap_age st.allspots, st.bmdata_parsed⟩
  | load (st : LoadState) (file : Option (List Char)) (now stack : Int) :
      ReachableLoad E st → ReachableLoad E (bmdata_read_file st file now stack)

/-- The stores that can be reached from the empty store by `bandmap_addspot` and
`bandmap_age` alone, with a fixed setting `E`. -/
inductive ReachableIn (E : Env) : List spot → Prop
  | empty : ReachableIn E []
  | addspot (s : List spot) (call : String) (freq : freq_t) (node : Char) :
      ReachableIn E s → ReachableIn E (bandmap_addspot E s call freq node)
  | age (s : List spot) : ReachableIn E s → ReachableIn E (bandmap_age s)

/-! ## Window selection of `bandmap_show` -/

/-- Subtraction of `unsigned int` values: the result wraps around modulo `2 ^ 32`
when the subtrahend exceeds the minuend. -/
def usub (a b : Nat) : Nat := if b ≤ a then a - b else a + 4294967296 - b

/-- The counting loop of `bandmap_show` (bandmap.c 810-817): the number of leading
entries of the filtered array whose frequency is at most
`centerfrequency - TOLERANCE`; the loop stops at the first entry above that.
`centerfrequency` is taken in whole Hertz. -/
def count_below (centerfrequency : Int) : List spot → Nat
  | [] => 0
  | data :: rest =>
    if (data.freq : Int) ≤ centerfrequency - (TOLERANCE : Int) then
      count_below centerfrequency rest + 1
    else 0

/-- The test of `bandmap_show` whether the current frequency is on a spot
(bandmap.c 820-825), given the value of `below_qrg`. -/
def spot_on_qrg (centerfrequency : Int) (spots : List spot) (below_qrg : Nat) : Nat :=
  match spots[below_qrg]? with
  | some data => if ¬ ((data.freq : Int) > centerfrequency + (TOLERANCE : Int)) then 1 else 0
  | none => 0

/-- The local variables of the window computation of `bandmap_show`
(bandmap.c 803-854): `on_qrg` and `stopindex` as they are after line 843, and
`final_on_qrg` and `final_stopindex` as they are after the correction for a
missing rig frequency (lines 846-854), which the display loops use. -/
structure Window where
  below_qrg : Nat
  on_qrg : Nat
  above_qrg : Nat
  max_below : Nat
  startindex : Nat
  stopindex : Nat
  final_on_qrg : Nat
  final_stopindex : Nat
  deriving DecidableEq

/-- The window computation of `bandmap_show` (bandmap.c 803-854) on the filtered
array `spots`, for `NR_SPOTS` display places, with or without rig control, around
the center frequency `bm_get_center` returned. -/
def bandmap_window (NR_SPOTS : Nat) (trx_control : Bool) (centerfrequency : Int)
    (spots : List spot) : Window :=
  let below_qrg := count_below centerfrequency spots
  let on_qrg := spot_on_qrg centerfrequency spots below_qrg
  let above_qrg := usub (usub spots.length below_qrg) on_qrg
  let max_below :=
    if above_qrg < (NR_SPOTS - 1) / 2 then usub (usub NR_SPOTS above_qrg) 1
    else NR_SPOTS / 2
  let startindex := if below_qrg < max_below then 0 else usub below_qrg max_below
  let stopindex :=
    if spots.length < usub (startindex + NR_SPOTS) (usub 1 on_qrg) then spots.length
    else usub (startindex + NR_SPOTS) (usub 1 on_qrg)
  let final_on_qrg := if trx_control then on_qrg else (if on_qrg ≠ 0 then 0 else on_qrg)
  let stopindex1 :=
    if trx_control then stopindex else (if on_qrg ≠ 0 then stopindex else stopindex + 1)
  let final_stopindex :=
    if trx_control then stopindex1
    else (if spots.length < stopindex1 then spots.length else stopindex1)
  { below_qrg := below_qrg, on_qrg := on_qrg, above_qrg := above_qrg, max_below := max_below,
    startindex := startindex, stopindex := stopindex, final_on_qrg := final_on_qrg,
    final_stopindex := final_stopindex }

/-! ## The filtered view (`filter_spots`) and the lookups on it -/

/-- What the display side reads from the rest of the program, on top of `Env`:
the WARC test `IsWarcIndex`, the QTC data (`qtcdirection`, and `total` and
`capable` of `qtc_get(call)`), the worked list (`worked[i].band`, the band masks
`inxes`, `worked_in_current_minitest_period`), the multiplier test of the contest
(`contest->is_multi`, `none` when the pointer is null) and `general_ismulti`, the
flag `iscontest`, the switches of `bm_config` (non-zero rendered as `true`), and
the current band and mode (`bandinx`, `trxmode`). -/
structure ShowEnv extends Env where
  IsWarcIndex : Int → Bool
  qtcdirection : Int
  qtc_total : String → Int
  qtc_capable : String → Int
  worked_band : Int → Nat
  inxes : Int → Nat
  worked_in_current_minitest_period : Int → Bool
  contest_is_multi : Option (spot → Bool)
  general_ismulti : spot → Bool
  iscontest : Bool
  allband : Bool
  allmode : Bool
  showdupes : Bool
  skipdupes : Bool
  onlymults : Bool
  bandinx : Int
  trxmode : Int

/-- `bm_ismulti` (bandmap.c 450-461). -/
def bm_ismulti (S : ShowEnv) (data : spot) : Bool :=
  if data.cqzone ≤ 0 ∨ data.ctynr ≤ 0 then false
  else
    match S.contest_is_multi with
    | some is_multi => is_multi data
    | none => S.general_ismulti data

/-- `bm_isdupe` (bandmap.c 470-496). -/
def bm_isdupe (S : ShowEnv) (call : String) (band : Int) : Bool :=
  if S.IsWarcIndex band then false
  else if S.lookup_worked call = -1 then false
  else if S.qtcdirection > 0 ∧ S.qtc_total call > 0 ∧ S.qtc_total call < 10 then false
  else if S.qtcdirection > 0 ∧ S.qtc_total call = 0 ∧ S.qtc_capable call > 0 then false
  else if S.worked_band (S.lookup_worked call) &&& S.inxes band ≠ 0 then
    S.worked_in_current_minitest_period (S.lookup_worked call)
  else false

/-- `copy_spot` (bandmap.c 931-947). -/
def copy_spot (data : spot) : spot :=
  { call := data.call, freq := data.freq, mode := data.mode, band := data.band,
    node := data.node, timeout := data.timeout, dupe := data.dupe, cqzone := data.cqzone,
    ctynr := data.ctynr, pfx := data.pfx }

/-- `filter_spots` (bandmap.c 675-725): the list `allspots` as the loop leaves it
(every record with its `dupe` field rewritten) and the new array `spots`. -/
def filter_spots (S : ShowEnv) : List spot → List spot × List spot
  | [] => ([], [])
  | data :: list =>
    let data1 : spot := { data with dupe := if bm_isdupe S data.call data.band then 1 else 0 }
    if S.iscontest ∧ S.IsWarcIndex data1.band then
      (data1 :: (filter_spots S list).1, (filter_spots S list).2)
    else if bm_isdupe S data.call data.band ∧ ¬ S.showdupes then
      (data1 :: (filter_spots S list).1, (filter_spots S list).2)
    else if ¬ bm_ismulti S data1 ∧ S.onlymults then
      (data1 :: (filter_spots S list).1, (filter_spots S list).2)
    else if (S.allband ∨ data1.band = S.bandinx) ∧ (S.allmode ∨ data1.mode = S.trxmode) then
      (data1 :: (filter_spots S list).1, copy_spot data1 :: (filter_spots S list).2)
    else
      (data1 :: (filter_spots S list).1, (filter_spots S list).2)

/-- `strstr(haystack, needle) != NULL`: the needle occurs at some position of the
haystack. -/
def strstr : List Char → List Char → Bool
  | [], needle => needle.isEmpty
  | c :: rest, needle => needle.isPrefixOf (c :: rest) || strstr rest needle

/-- `bandmap_lookup` (bandmap.c 959-984) on the filtered array `spots`; the loop
stops at the first entry whose call contains `partialcall`. -/
def bandmap_lookup (spots : List spot) (partialcall : String) : Option spot :=
  if partialcall.data ≠ [] ∧ spots.length > 0 then
    (spots.find? (fun data => strstr data.call.data partialcall.data)).map copy_spot
  else none

/-- `bandmap_next` (bandmap.c 1002-1030) on the filtered array `spots`: the array
is walked from the front when looking upwards and from the back otherwise, and
the loop stops at the first entry beyond `f0 = freq ± TOLERANCE / 2` that is not
a dupe when dupes are skipped.  `freq` is taken in whole Hertz. -/
def bandmap_next (S : ShowEnv) (spots : List spot) (upwards : Bool) (freq : Int) :
    Option spot :=
  if spots.length = 0 then none
  else
    let f0 : Int := freq + (if upwards then 1 else -1) * ((TOLERANCE : Int) / 2)
    ((if upwards then spots else spots.reverse).find? (fun data =>
      (if upwards then decide ((data.freq : Int) > f0) else decide ((data.freq : Int) < f0))
        && (!S.skipdupes || data.dupe == 0))).map copy_spot

/-- The record with the `dupe` field that `filter_spots` gives it. -/
def with_dupe (S : ShowEnv) (r : spot) : spot :=
  { r with dupe := if bm_isdupe S r.call r.band then 1 else 0 }

/-- The filter of the view in the words of the specification: a record passes iff
it is not (contest mode and WARC band), not (dupe and show-dupes off), not
(non-multiplier and only-multipliers on), and (all-bands on or on the current
band) and (all-modes on or in the current mode). -/
def passes (S : ShowEnv) (r : spot) : Bool :=
  !(S.iscontest && S.IsWarcIndex r.band) &&
  !(bm_isdupe S r.call r.band && !S.showdupes) &&
  !(!bm_ismulti S (with_dupe S r) && S.onlymults) &&
  (S.allband || r.band == S.bandinx) &&
  (S.allmode || r.mode == S.trxmode)

/-- The view in the words of the specification: the records of the store that
pass the filter, in store order, each with its `dupe` field set. -/
def spec_view (S : ShowEnv) (store : List spot) : List spot :=
  (store.filter (passes S)).map (with_dupe S)

/-- A display setting on top of `scenarioEnv`: after a contact with W1ABC on
20 m (band mask 32), no contest, all bands and modes shown, dupes hidden and
skipped. -/
def scenarioShow : ShowEnv :=
  { scenarioEnv with
    lookup_worked := fun call => if call = "W1ABC" then 0 else -1
    IsWarcIndex := fun band => band = 4 ∨ band = 6 ∨ band = 8
    qtcdirection := 0
    qtc_total := fun _ => 0
    qtc_capable := fun _ => 0
    worked_band := fun _ => 32
    inxes := fun band => if band = 5 then 32 else 0
    worked_in_current_minitest_period := fun _ => true
    contest_is_multi := none
    general_ismulti := fun _ => false
    iscontest := false
    allband := true
    allmode := true
    showdupes := false
    skipdupes := true
    onlymults := false
    bandinx := 5
    trxmode := CWMODE }

/-- The records `bandmap_next` may return in the words of the specification:
strictly beyond the reference point (`frequency > f + 50` when searching upwards,
`frequency < f - 50` when searching downwards) and not a dupe when dupes are
skipped. -/
def eligible (S : ShowEnv) (upwards : Bool) (freq : Int) (r : spot) : Prop :=
  (if upwards = true then (r.freq : Int) > freq + 50 else (r.freq : Int) < freq - 50) ∧
  (S.skipdupes = true → r.dupe = 0)

/-- The number of display places `bandmap_show` uses (bandmap.c 856-881), that is
the number of calls of `next_spot_position`: one per spot shown below the QRG
(`startindex .. below_qrg`), one for the frequency marker or the spot on the QRG
when rig control is active, and one per spot shown above the QRG
(`below_qrg + on_qrg .. stopindex`, with the final values). -/
def rendered_rows (trx_control : Bool) (w : Window) : Nat :=
  (w.below_qrg - w.startindex) + (if trx_control then 1 else 0)
    + (w.final_stopindex - (w.below_qrg + w.final_on_qrg))

/-- The flag `bm_initialized` of `bm_init` together with the state of
`bmdata_read_file`. -/
structure InitState where
  load : LoadState
  bm_initialized : Bool
  deriving DecidableEq

/-- `bm_init` (bandmap.c 193-212), as far as the spot store is concerned: unless
the bandmap is initialised already, the snapshot is read and the flag is set. -/
def bm_init (st : InitState) (file : Option (List Char)) (now stack : Int) : InitState :=
  if st.bm_initialized then st
  else { load := bmdata_read_file st.load file now stack, bm_initialized := true }

/-- One invocation of `bmdata_read_file` as the process meets it: the list
`allspots` at that moment (whatever the operations since the previous invocation
made of it), the text of the snapshot file at that moment (`none` when it cannot
be opened), the clock, and the indeterminate content of the local variable. -/
structure LoadCall where
  allspots : List spot
  file : Option (List Char)
  now : Int
  stack : Int

/-- The number of invocations, in a sequence of invocations of `bmdata_read_file`
in one process, that change the list `allspots`; `bmdata_parsed` is the value of
the static flag before the first of them. -/
def load_changes : Bool → List LoadCall → Nat
  | _, [] => 0
  | bmdata_parsed, c :: rest =>
    (if (bmdata_read_file ⟨c.allspots, bmdata_parsed⟩ c.file c.now c.stack).allspots
        ≠ c.allspots then 1 else 0)
    + load_changes
        (bmdata_read_file ⟨c.allspots, bmdata_parsed⟩ c.file c.now c.stack).bmdata_parsed rest

/-! ## Writing the snapshot file (`bmdata_write_file`) -/

/-- `g_ascii_isspace` of GLib: space, tab, newline, form feed and carriage return
(the vertical tab is not among them). -/
def g_ascii_isspace (c : Char) : Bool :=
  c = ' ' || c = '\t' || c = '\n' || c = '\x0c' || c = '\r'

/-- `g_strchomp` of GLib: the string without its trailing white space, as
`g_ascii_isspace` tells it. -/
def g_strchomp (s : List Char) : List Char :=
  (s.reverse.dropWhile g_ascii_isspace).reverse

/-- The conversion `%u` of `fprintf`: the decimal digits of the number. -/
def print_nat (n : Nat) : List Char := Nat.toDigits 10 n

/-- The conversion `%d` of `fprintf`: a minus sign for a negative number, then the
decimal digits of its absolute value. -/
def print_int (v : Int) : List Char :=
  if v < 0 then '-' :: Nat.toDigits 10 v.natAbs else Nat.toDigits 10 v.natAbs

/-- The fields of a line, separated by `;`. -/
def join_fields : List (List Char) → List Char
  | [] => []
  | [f] => f
  | f :: g :: rest => f ++ ';' :: join_fields (g :: rest)

/-- The text one call of `fprintf(fp, "%s;%d;%d;%d;%c;%u;%d;%d;%d;%s\n", ...)`
writes for a spot (bandmap.c 113-116); the frequency goes through `%d` as an
`int`, the prefix through `g_strchomp`. -/
def write_line (sp : spot) : List Char :=
  join_fields [sp.call.data, print_int (to_signed 32 (sp.freq : Int)), print_int sp.mode,
    print_int sp.band, [sp.node], print_nat sp.timeout, print_int sp.dupe,
    print_int sp.cqzone, print_int sp.ctynr, g_strchomp sp.pfx.data] ++ ['\n']

/-- The text the loop of `bmdata_write_file` writes (bandmap.c 111-118). -/
def write_lines : List spot → List Char
  | [] => []
  | sp :: rest => write_line sp ++ write_lines rest

/-- `bmdata_write_file` (bandmap.c 91-123): the text written to `.bmdata.dat`
(`none` when the file cannot be opened) and the list `allspots` afterwards, whose
prefixes `g_strchomp` has trimmed in place.  `now` is `(int)tv.tv_sec`. -/
def bmdata_write_file (allspots : List spot) (can_open : Bool) (now : Int) :
    Option (List Char) × List spot :=
  if can_open then
    (some (print_int now ++ ('\n' :: write_lines allspots)),
      allspots.map (fun sp => { sp with pfx := String.mk (g_strchomp sp.pfx.data) }))
  else (none, allspots)

/-- A record that the line format can carry: a non-empty call, no `;` and no
newline in call, node and prefix, every number within the range of its C type,
a line that fits the 50 byte buffer of the reader, and a node other than the
byte that ends a C string. -/
def storable (sp : spot) : Prop :=
  sp.call.data ≠ [] ∧ ';' ∉ sp.call.data ∧ '\n' ∉ sp.call.data ∧
  sp.node ≠ ';' ∧ sp.node ≠ '\n' ∧
  ';' ∉ sp.pfx.data ∧ '\n' ∉ sp.pfx.data ∧
  sp.freq < 4294967296 ∧ (-128 ≤ sp.mode ∧ sp.mode < 128) ∧
  (-32768 ≤ sp.band ∧ sp.band < 32768) ∧ sp.timeout < 4294967296 ∧
  (-128 ≤ sp.dupe ∧ sp.dupe < 128) ∧
  (-2147483648 ≤ sp.cqzone ∧ sp.cqzone < 2147483648) ∧
  (-2147483648 ≤ sp.ctynr ∧ sp.ctynr < 2147483648) ∧
  (write_line sp).length ≤ 49 ∧ sp.node ≠ Char.ofNat 0

/-- The record without its prefix. -/
def without_pfx (sp : spot) : spot := { sp with pfx := "" }

/-- The record that the reader builds from the line written for `sp`: the fields
of `sp`, with the trimmed prefix followed by the newline that ends the line. -/
def reloaded (sp : spot) : spot :=
  { sp with pfx := String.mk (g_strchomp sp.pfx.data ++ ['\n']) }

/-! ## Facts about the list primitives -/

theorem toNat_le_ceil (f : freq_t) : f.toNat ≤ f.ceil :=
  Nat.div_le_div_right (Nat.le_add_right _ _)

theorem ceil_le_succ (f : freq_t) : f.ceil ≤ f.toNat + 1 := by
  unfold freq_t.ceil freq_t.toNat
  have hd := f.den_pos
  have h : (f.num + (f.den - 1)) / f.den ≤ (f.num + f.den) / f.den :=
    Nat.div_le_div_right (by omega)
  rw [Nat.add_div_right _ hd] at h
  exact h

theorem toNat_ofNat (n : Nat) : (freq_t.ofNat n).toNat = n := Nat.div_one n

theorem ceil_ofNat (n : Nat) : (freq_t.ofNat n).ceil = n := Nat.div_one n

/-- A whole number of Hertz lies below a `freq_t` value exactly when it lies below
the least whole number not below the value. -/
theorem ofNat_lt_iff (x : Nat) (f : freq_t) : freq_t.ofNat x < f ↔ x < f.ceil := by
  have hd := f.den_pos
  show x * f.den < f.num * 1 ↔ x < (f.num + (f.den - 1)) / f.den
  rw [Nat.mul_one, Nat.lt_iff_add_one_le, Nat.lt_iff_add_one_le (m := x),
    Nat.le_div_iff_mul_le hd, Nat.add_mul, Nat.one_mul]
  omega

/-- A `freq_t` value lies below a whole number of Hertz exactly when its whole
Hertz do. -/
theorem lt_ofNat_iff (f : freq_t) (x : Nat) : f < freq_t.ofNat x ↔ f.toNat < x := by
  show f.num * 1 < x * f.den ↔ f.num / f.den < x
  rw [Nat.mul_one, Nat.div_lt_iff_lt_mul f.den_pos]

theorem le_ofNat_iff (f : freq_t) (x : Nat) : f ≤ freq_t.ofNat x ↔ f.ceil ≤ x := by
  have h := ofNat_lt_iff x f
  have e : f ≤ freq_t.ofNat x ↔ ¬ freq_t.ofNat x < f := Nat.not_lt.symm
  rw [e, h]
  omega

theorem ofNat_le_iff (x : Nat) (f : freq_t) : freq_t.ofNat x ≤ f ↔ x ≤ f.toNat := by
  have h := lt_ofNat_iff f x
  have e : freq_t.ofNat x ≤ f ↔ ¬ f < freq_t.ofNat x := Nat.not_lt.symm
  rw [e, h]
  omega

theorem freq_not_lt (x y : freq_t) : ¬ x < y ↔ y ≤ x := Nat.not_lt

theorem freq_not_le (x y : freq_t) : ¬ x ≤ y ↔ y < x := Nat.not_le

/-- The distance of a stored frequency `x` to an incoming one is below `TOLERANCE`
exactly when `x` lies less than 100 Hz below the whole Hertz of the incoming
frequency or less than 100 Hz above its least upper whole number. -/
theorem near_iff (x : Nat) (f : freq_t) :
    freq_t.DISTANCE (freq_t.ofNat x) f < freq_t.ofNat TOLERANCE
      ↔ (x < f.ceil ∧ f.toNat < x + 100) ∨ (f.ceil ≤ x ∧ x < f.ceil + 100) := by
  have hd := f.den_pos
  have h1 := ofNat_lt_iff x f
  unfold freq_t.DISTANCE
  by_cases hx : freq_t.ofNat x < f
  · rw [if_pos hx]
    have h2 := lt_ofNat_iff f (x + 100)
    have e : f.sub (freq_t.ofNat x) < freq_t.ofNat TOLERANCE ↔ f < freq_t.ofNat (x + 100) := by
      show (f.num * 1 - x * f.den) * 1 < 100 * (f.den * 1) ↔ f.num * 1 < (x + 100) * f.den
      rw [Nat.add_mul]
      omega
    rw [e, h2]
    have := h1.1 hx
    omega
  · rw [if_neg hx]
    have hx2 : f.ceil ≤ x := by
      have := mt h1.2 hx
      omega
    have h2 := ofNat_lt_iff (x - 100) f
    have e : (freq_t.ofNat x).sub f < freq_t.ofNat TOLERANCE
        ↔ (x < 100 ∨ freq_t.ofNat (x - 100) < f) := by
      show (x * f.den - f.num * 1) * 1 < 100 * (1 * f.den)
        ↔ (x < 100 ∨ (x - 100) * f.den < f.num * 1)
      by_cases hc : x < 100
      · have : x * f.den < 100 * f.den := Nat.mul_lt_mul_of_pos_right hc hd
        omega
      · have e2 : x = (x - 100) + 100 := by omega
        have e3 : x * f.den = (x - 100) * f.den + 100 * f.den := by
          nth_rewrite 1 [e2]
          rw [Nat.add_mul]
        omega
    rw [e, h2]
    omega

/-- The distance of a stored frequency `x` to an incoming one exceeds `TOLERANCE`
exactly when `x` lies more than 100 Hz below the incoming frequency or more than
100 Hz above its whole Hertz. -/
theorem far_iff (x : Nat) (f : freq_t) :
    freq_t.DISTANCE (freq_t.ofNat x) f > freq_t.ofNat TOLERANCE
      ↔ x + 100 < f.ceil ∨ f.toNat + 100 < x := by
  have hd := f.den_pos
  have h1 := ofNat_lt_iff x f
  unfold freq_t.DISTANCE
  by_cases hx : freq_t.ofNat x < f
  · rw [if_pos hx]
    have h2 := ofNat_lt_iff (x + 100) f
    have e : f.sub (freq_t.ofNat x) > freq_t.ofNat TOLERANCE ↔ freq_t.ofNat (x + 100) < f := by
      show 100 * (f.den * 1) < (f.num * 1 - x * f.den) * 1 ↔ (x + 100) * f.den < f.num * 1
      rw [Nat.add_mul]
      omega
    rw [e, h2]
    have := h1.1 hx
    have := toNat_le_ceil f
    have := ceil_le_succ f
    omega
  · rw [if_neg hx]
    have hx2 : f.ceil ≤ x := by
      have := mt h1.2 hx
      omega
    have h2 := lt_ofNat_iff f (x - 100)
    have e : (freq_t.ofNat x).sub f > freq_t.ofNat TOLERANCE
        ↔ (100 ≤ x ∧ f < freq_t.ofNat (x - 100)) := by
      show 100 * (1 * f.den) < (x * f.den - f.num * 1) * 1
        ↔ (100 ≤ x ∧ f.num * 1 < (x - 100) * f.den)
      by_cases hc : x < 100
      · have : x * f.den < 100 * f.den := Nat.mul_lt_mul_of_pos_right hc hd
        omega
      · have e2 : x = (x - 100) + 100 := by omega
        have e3 : x * f.den = (x - 100) * f.den + 100 * f.den := by
          nth_rewrite 1 [e2]
          rw [Nat.add_mul]
        omega
    rw [e, h2]
    have := toNat_le_ceil f
    omega

/-- Against a whole number of Hertz the distance of `freq_t` is the distance of
whole Hertz. -/
theorem near_whole (x : Nat) (f : freq_t) (hw : f.ceil = f.toNat) :
    freq_t.DISTANCE (freq_t.ofNat x) f < freq_t.ofNat TOLERANCE
      ↔ DISTANCE x f.toNat < TOLERANCE := by
  rw [near_iff, hw]
  unfold DISTANCE TOLERANCE
  split_ifs <;> omega

theorem far_whole (x : Nat) (f : freq_t) (hw : f.ceil = f.toNat) :
    freq_t.DISTANCE (freq_t.ofNat x) f > freq_t.ofNat TOLERANCE
      ↔ DISTANCE x f.toNat > TOLERANCE := by
  rw [far_iff, hw]
  unfold DISTANCE TOLERANCE
  split_ifs <;> omega


theorem DISTANCE_comm (x y : Nat) : DISTANCE x y = DISTANCE y x := by
  unfold DISTANCE; split_ifs <;> omega

theorem cmp_cell_pos (x y : Cell) : cmp_cell x y > 0 ↔ y.data.freq < x.data.freq := by
  unfold cmp_cell cmp_freq; split_ifs <;> omega

theorem insert_sorted_perm {α : Type} (cmp : α → α → Int) (x : α) :
    ∀ l : List α, (g_list_insert_sorted cmp l x).Perm (x :: l)
  | [] => List.Perm.refl _
  | y :: l => by
    unfold g_list_insert_sorted
    split_ifs
    · exact ((insert_sorted_perm cmp x l).cons y).trans (List.Perm.swap x y l)
    · exact List.Perm.refl _

theorem sort_perm {α : Type} (cmp : α → α → Int) : ∀ l : List α, (g_list_sort cmp l).Perm l
  | [] => List.Perm.refl _
  | x :: l => by
    have ih := sort_perm cmp l
    show (g_list_insert_sorted cmp (g_list_sort cmp l) x).Perm (x :: l)
    exact (insert_sorted_perm cmp x _).trans (ih.cons x)

theorem insert_sorted_sorted (x : Cell) :
    ∀ l : List Cell, l.Pairwise (fun a b => a.data.freq ≤ b.data.freq) →
      (g_list_insert_sorted cmp_cell l x).Pairwise (fun a b => a.data.freq ≤ b.data.freq)
  | [], _ => List.pairwise_singleton _ _
  | y :: l, h => by
    unfold g_list_insert_sorted
    rw [List.pairwise_cons] at h
    split_ifs with hc
    · rw [cmp_cell_pos] at hc
      refine List.pairwise_cons.2 ⟨?_, insert_sorted_sorted x l h.2⟩
      intro b hb
      rcases List.mem_cons.1 ((insert_sorted_perm cmp_cell x l).subset hb) with rfl | hb
      · exact hc.le
      · exact h.1 b hb
    · rw [cmp_cell_pos] at hc
      refine List.pairwise_cons.2 ⟨?_, List.pairwise_cons.2 h⟩
      intro b hb
      rcases List.mem_cons.1 hb with rfl | hb
      · omega
      · exact le_trans (by omega) (h.1 b hb)

theorem sort_sorted :
    ∀ l : List Cell, (g_list_sort cmp_cell l).Pairwise (fun a b => a.data.freq ≤ b.data.freq)
  | [] => List.Pairwise.nil
  | x :: l => insert_sorted_sorted x _ (sort_sorted l)

/-! ## Facts about the search loop -/

theorem find_spot_some (call : String) (band mode : Int) :
    ∀ (s pre : List spot) (x : spot) (post : List spot),
      find_spot call band mode s = some (pre, x, post) →
      s = pre ++ x :: post ∧ (x.call = call ∧ x.band = band ∧ x.mode = mode) ∧
        ∀ p ∈ pre, ¬ (p.call = call ∧ p.band = band ∧ p.mode = mode)
  | [], _, _, _, h => by simp [find_spot] at h
  | a :: rest, pre, x, post, h => by
    unfold find_spot at h
    split_ifs at h with hk
    · simp only [Option.some.injEq, Prod.mk.injEq] at h
      obtain ⟨rfl, rfl, rfl⟩ := h
      exact ⟨rfl, hk, by simp⟩
    · cases hr : find_spot call band mode rest with
      | none => simp [hr] at h
      | some t =>
        obtain ⟨pre1, x1, post1⟩ := t
        simp only [hr, Option.some.injEq, Prod.mk.injEq] at h
        obtain ⟨rfl, rfl, rfl⟩ := h
        obtain ⟨h1, h2, h3⟩ := find_spot_some call band mode rest pre1 x1 post1 hr
        refine ⟨by rw [h1]; rfl, h2, ?_⟩
        intro p hp
        rcases List.mem_cons.1 hp with rfl | hp
        · exact hk
        · exact h3 p hp

theorem find_spot_none (call : String) (band mode : Int) :
    ∀ s : List spot, find_spot call band mode s = none →
      ∀ r ∈ s, ¬ (r.call = call ∧ r.band = band ∧ r.mode = mode)
  | [], _ => by simp
  | a :: rest, h => by
    unfold find_spot at h
    split_ifs at h with hk
    cases hr : find_spot call band mode rest with
    | some t => obtain ⟨pre1, x1, post1⟩ := t; simp [hr] at h
    | none =>
      intro r hr2
      rcases List.mem_cons.1 hr2 with rfl | hr2
      · exact hk
      · exact find_spot_none call band mode rest hr r hr2

/-! ## Shape of the list around `found` -/

theorem map_data_map_other (l : List spot) : (l.map other).map Cell.data = l := by
  induction l with
  | nil => rfl
  | cons a l ih => simp [other, ih]

theorem eq_map_other_of_not_found :
    ∀ A : List Cell, (∀ c ∈ A, c.isFound = false) → A = (A.map Cell.data).map other
  | [], _ => rfl
  | c :: A, h => by
    have hc : c.isFound = false := h c (List.mem_cons_self _ _)
    have ih := eq_map_other_of_not_found A (fun d hd => h d (List.mem_cons_of_mem _ hd))
    obtain ⟨d, f⟩ := c
    simp only at hc
    subst hc
    simp only [List.map_cons, other, List.cons.injEq, true_and]
    exact ih

/-- A list that is a rearrangement of unmarked cells and one marked cell consists
of unmarked cells, the marked cell, and unmarked cells. -/
theorem split_of_perm (cells : List Cell) (pre post : List spot) (x : spot)
    (h : cells.Perm (pre.map other ++ target x :: post.map other)) :
    ∃ P Q : List spot, cells = P.map other ++ target x :: Q.map other ∧
      (P ++ Q).Perm (pre ++ post) := by
  have hx : target x ∈ cells := h.symm.subset (by simp)
  obtain ⟨A, B, rfl⟩ := List.append_of_mem hx
  have h2 : (A ++ B).Perm (pre.map other ++ post.map other) :=
    List.Perm.cons_inv ((List.perm_middle.symm.trans h).trans List.perm_middle)
  have hnf : ∀ c ∈ A ++ B, c.isFound = false := by
    intro c hc
    have := h2.subset hc
    rw [← List.map_append, List.mem_map] at this
    obtain ⟨r, _, rfl⟩ := this
    rfl
  have hA := eq_map_other_of_not_found A (fun c hc => hnf c (List.mem_append_left _ hc))
  have hB := eq_map_other_of_not_found B (fun c hc => hnf c (List.mem_append_right _ hc))
  refine ⟨A.map Cell.data, B.map Cell.data, by rw [← hA, ← hB], ?_⟩
  have h3 := h2.map Cell.data
  rw [← List.map_append, map_data_map_other, List.map_append] at h3
  exact h3

theorem span_split (x : spot) (Q : List Cell) :
    ∀ P : List spot, (P.map other ++ target x :: Q).span (fun c => !c.isFound)
      = (P.map other, target x :: Q)
  | [] => by simp [List.span_eq_take_drop, target]
  | a :: P => by
    have ih := span_split x Q P
    simp only [List.span_eq_take_drop, Prod.mk.injEq] at ih ⊢
    simp [other, ih.1, ih.2]

theorem drop_neighbours_split (freq : freq_t) (P : List spot) (x : spot) (Q : List Cell) :
    drop_neighbours freq (P.map other ++ target x :: Q)
      = drop_prev freq (P.map other) ++ target x :: drop_next freq Q := by
  unfold drop_neighbours
  rw [span_split]

/-! ## Facts about the two neighbour checks -/

theorem drop_prev_nil (freq : freq_t) : drop_prev freq [] = [] := rfl

theorem drop_prev_concat (freq : freq_t) (A : List Cell) (p : Cell) :
    drop_prev freq (A ++ [p])
      = if freq_t.DISTANCE (freq_t.ofNat p.data.freq) freq < freq_t.ofNat TOLERANCE
        then A else A ++ [p] := by
  unfold drop_prev
  simp [List.getLast?_append, List.dropLast_concat]

theorem drop_prev_sublist (freq : freq_t) (A : List Cell) : (drop_prev freq A).Sublist A := by
  rcases List.eq_nil_or_concat A with rfl | ⟨B, p, rfl⟩
  · exact List.Sublist.refl _
  · rw [List.concat_eq_append, drop_prev_concat]
    split_ifs
    · exact List.sublist_append_left _ _
    · exact List.Sublist.refl _

theorem drop_next_sublist (freq : freq_t) (A : List Cell) : (drop_next freq A).Sublist A := by
  cases A with
  | nil => exact List.Sublist.refl _
  | cons n rest =>
    simp only [drop_next]
    split_ifs
    · exact List.sublist_cons_self _ _
    · exact List.Sublist.refl _

theorem drop_neighbours_sublist (freq : freq_t) (P : List spot) (x : spot) (Q : List Cell) :
    (drop_neighbours freq (P.map other ++ target x :: Q)).Sublist
      (P.map other ++ target x :: Q) := by
  rw [drop_neighbours_split]
  exact (drop_prev_sublist _ _).append ((drop_next_sublist _ _).cons₂ _)

theorem target_mem_drop_neighbours (freq : freq_t) (P : List spot) (x : spot) (Q : List Cell) :
    target x ∈ drop_neighbours freq (P.map other ++ target x :: Q) := by
  rw [drop_neighbours_split]
  simp

theorem drop_prev_map (freq : freq_t) (P : List spot) :
    ∃ P1 : List spot, drop_prev freq (P.map other) = P1.map other ∧ P1.Sublist P ∧
      (sortedByFreq P → apart P → (∀ p ∈ P, p.freq ≤ freq.toNat) →
        ∀ p ∈ P1, TOLERANCE ≤ DISTANCE p.freq freq.toNat) := by
  have hfc := toNat_le_ceil freq
  have hcs := ceil_le_succ freq
  rcases List.eq_nil_or_concat P with rfl | ⟨B, p, rfl⟩
  · exact ⟨[], rfl, List.Sublist.refl _, by simp⟩
  · rw [List.concat_eq_append, List.map_append, List.map_singleton, drop_prev_concat]
    by_cases hd : freq_t.DISTANCE (freq_t.ofNat p.freq) freq < freq_t.ofNat TOLERANCE
    · refine ⟨B, by simp [other, hd], List.sublist_append_left _ _, ?_⟩
      intro hs ha hle b hb
      have h1 : b.freq ≤ p.freq := (List.pairwise_append.1 hs).2.2 b hb p (by simp)
      have h2 : TOLERANCE ≤ DISTANCE b.freq p.freq :=
        (List.pairwise_append.1 ha).2.2 b hb p (by simp)
      have h3 : p.freq ≤ freq.toNat := hle p (by simp)
      unfold DISTANCE TOLERANCE at h2 ⊢
      split_ifs at h2 ⊢ <;> omega
    · refine ⟨B ++ [p], by simp [other, hd], List.Sublist.refl _, ?_⟩
      intro hs _ hle b hb
      rw [near_iff] at hd
      have h3 : p.freq ≤ freq.toNat := hle p (by simp)
      rcases List.mem_append.1 hb with hb | hb
      · have h1 : b.freq ≤ p.freq := (List.pairwise_append.1 hs).2.2 b hb p (by simp)
        unfold DISTANCE TOLERANCE
        split_ifs <;> omega
      · rw [List.mem_singleton] at hb
        subst hb
        unfold DISTANCE TOLERANCE
        split_ifs <;> omega

theorem drop_next_map (freq : freq_t) (Q : List spot) :
    ∃ Q1 : List spot, drop_next freq (Q.map other) = Q1.map other ∧ Q1.Sublist Q ∧
      (sortedByFreq Q → apart Q → (∀ q ∈ Q, freq.toNat ≤ q.freq) →
        ∀ q ∈ Q1, TOLERANCE ≤ DISTANCE q.freq freq.toNat) := by
  have hfc := toNat_le_ceil freq
  have hcs := ceil_le_succ freq
  cases Q with
  | nil => exact ⟨[], rfl, List.Sublist.refl _, by simp⟩
  | cons n rest =>
    by_cases hd : freq_t.DISTANCE (freq_t.ofNat n.freq) freq < freq_t.ofNat TOLERANCE
    · refine ⟨rest, by simp [drop_next, other, hd], List.sublist_cons_self _ _, ?_⟩
      intro hs ha hle b hb
      have h1 : n.freq ≤ b.freq := (List.pairwise_cons.1 hs).1 b hb
      have h2 : TOLERANCE ≤ DISTANCE n.freq b.freq := (List.pairwise_cons.1 ha).1 b hb
      have h3 : freq.toNat ≤ n.freq := hle n (by simp)
      unfold DISTANCE TOLERANCE at h2 ⊢
      split_ifs at h2 ⊢ <;> omega
    · refine ⟨n :: rest, by simp [drop_next, other, hd], List.Sublist.refl _, ?_⟩
      intro hs _ hle b hb
      rw [near_iff] at hd
      have h3 : freq.toNat ≤ n.freq := hle n (by simp)
      rcases List.mem_cons.1 hb with rfl | hb
      · unfold DISTANCE TOLERANCE
        split_ifs <;> omega
      · have h1 : n.freq ≤ b.freq := (List.pairwise_cons.1 hs).1 b hb
        unfold DISTANCE TOLERANCE
        split_ifs <;> omega

/-- What the neighbour cleanup leaves of a list made of the spots `P`, the spot
`x` that `found` points to, and the spots `Q`. -/
theorem cleanup_spec (freq : freq_t) (P Q : List spot) (x : spot) :
    ∃ P1 Q1 : List spot,
      (drop_neighbours freq (P.map other ++ target x :: Q.map other)).map Cell.data
        = P1 ++ x :: Q1 ∧
      P1.Sublist P ∧ Q1.Sublist Q ∧
      (sortedByFreq (P ++ x :: Q) → apart (P ++ Q) → x.freq = freq.toNat →
        apart (P1 ++ x :: Q1)) := by
  obtain ⟨P1, hP1, hPs, hPd⟩ := drop_prev_map freq P
  obtain ⟨Q1, hQ1, hQs, hQd⟩ := drop_next_map freq Q
  refine ⟨P1, Q1, ?_, hPs, hQs, ?_⟩
  · rw [drop_neighbours_split, hP1, hQ1, List.map_append, List.map_cons,
      map_data_map_other, map_data_map_other]
    rfl
  · intro hs ha hx
    have hs1 := List.pairwise_append.1 hs
    have ha1 := List.pairwise_append.1 ha
    have hs2 := List.pairwise_cons.1 hs1.2.1
    have hPd1 := hPd hs1.1 ha1.1
      (fun p hp => hx ▸ hs1.2.2 p hp x (List.mem_cons_self _ _))
    have hQd1 := hQd hs2.2 ha1.2.1 (fun q hq => hx ▸ hs2.1 q hq)
    refine List.pairwise_append.2 ⟨ha1.1.sublist hPs, ?_, ?_⟩
    · refine List.pairwise_cons.2 ⟨?_, ha1.2.1.sublist hQs⟩
      intro q hq
      rw [hx, DISTANCE_comm]
      exact hQd1 q hq
    · intro p hp q hq
      rcases List.mem_cons.1 hq with rfl | hq
      · rw [hx]
        exact hPd1 p hp
      · exact ha1.2.2 p (hPs.subset hp) q (hQs.subset hq)

/-! ## The list before the neighbour cleanup -/

theorem touch_perm (E : Env) (s : List spot) (call : String) (freq : freq_t) (band mode : Int)
    (node : Char) :
    (touch E s call freq band mode node).Perm
      ([].map other ++ target (touched E s call freq band mode node)
        :: (untouched s call band mode).map other) := by
  unfold touch touched untouched
  cases hf : find_spot call band mode s with
  | none =>
    simp only [List.map_nil, List.nil_append]
    exact insert_sorted_perm _ _ _
  | some t =>
    obtain ⟨pre, old, post⟩ := t
    simp only [List.map_nil, List.nil_append, List.map_append]
    by_cases hd : freq_t.DISTANCE (freq_t.ofNat old.freq) freq > freq_t.ofNat TOLERANCE
    · simp only [hd, if_true]
      exact (sort_perm _ _).trans List.perm_middle
    · simp only [hd, if_false]
      exact List.perm_middle

theorem touch_shape (E : Env) (s : List spot) (call : String) (freq : freq_t) (band mode : Int)
    (node : Char) :
    ∃ P Q : List spot,
      touch E s call freq band mode node
        = P.map other ++ target (touched E s call freq band mode node) :: Q.map other ∧
      (P ++ Q).Perm (untouched s call band mode) := by
  obtain ⟨P, Q, h1, h2⟩ := split_of_perm _ _ _ _ (touch_perm E s call freq band mode node)
  exact ⟨P, Q, h1, by simpa using h2⟩

theorem touch_unmoved (E : Env) (s : List spot) (call : String) (freq : freq_t) (band mode : Int)
    (node : Char) (pre : List spot) (old : spot) (post : List spot)
    (hf : find_spot call band mode s = some (pre, old, post))
    (hd : ¬ freq_t.DISTANCE (freq_t.ofNat old.freq) freq > freq_t.ofNat TOLERANCE) :
    touch E s call freq band mode node
      = pre.map other ++ target (touched E s call freq band mode node) :: post.map other := by
  unfold touch touched
  simp only [hf, hd, if_false]

theorem touch_sorted (E : Env) (s : List spot) (call : String) (freq : freq_t) (band mode : Int)
    (node : Char) (hs : sortedByFreq s) :
    (touch E s call freq band mode node).Pairwise (fun a b => a.data.freq ≤ b.data.freq) := by
  have hsc : (s.map other).Pairwise (fun a b => a.data.freq ≤ b.data.freq) :=
    List.pairwise_map.2 hs
  unfold touch
  cases hf : find_spot call band mode s with
  | none => exact insert_sorted_sorted _ _ hsc
  | some t =>
    obtain ⟨pre, old, post⟩ := t
    by_cases hd : freq_t.DISTANCE (freq_t.ofNat old.freq) freq > freq_t.ofNat TOLERANCE
    · simp only [hd, if_true]
      exact sort_sorted _
    · simp only [hd, if_false]
      obtain ⟨rfl, -, -⟩ := find_spot_some call band mode s pre old post hf
      rw [List.map_append, List.map_cons] at hsc
      rw [List.pairwise_append, List.pairwise_cons] at hsc ⊢
      refine ⟨hsc.1, ⟨fun b hb => hsc.2.1.1 b hb, hsc.2.1.2⟩, fun a ha b hb => ?_⟩
      rcases List.mem_cons.1 hb with rfl | hb
      · exact hsc.2.2 a ha (other old) (List.mem_cons_self _ _)
      · exact hsc.2.2 a ha b (List.mem_cons_of_mem _ hb)

theorem touched_freq (E : Env) (s : List spot) (call : String) (freq : freq_t) (band mode : Int)
    (node : Char) :
    (touched E s call freq band mode node).freq = freq.toNat ∨
      ∃ pre old post, find_spot call band mode s = some (pre, old, post) ∧
        ¬ freq_t.DISTANCE (freq_t.ofNat old.freq) freq > freq_t.ofNat TOLERANCE ∧
        (touched E s call freq band mode node).freq = old.freq := by
  unfold touched
  cases hf : find_spot call band mode s with
  | none => left; simp only [new_entry]; split_ifs <;> rfl
  | some t =>
    obtain ⟨pre, old, post⟩ := t
    by_cases hd : freq_t.DISTANCE (freq_t.ofNat old.freq) freq > freq_t.ofNat TOLERANCE
    · left; simp [hd]
    · right; exact ⟨pre, old, post, rfl, hd, by simp [hd]⟩

theorem untouched_sublist (s : List spot) (call : String) (band mode : Int) :
    (untouched s call band mode).Sublist s := by
  unfold untouched
  cases hf : find_spot call band mode s with
  | none => exact List.Sublist.refl _
  | some t =>
    obtain ⟨pre, old, post⟩ := t
    obtain ⟨rfl, -, -⟩ := find_spot_some call band mode s pre old post hf
    exact (List.Sublist.refl pre).append (List.sublist_cons_self _ _)

theorem addspot_accepted (E : Env) (s : List spot) (call : String) (freq : freq_t) (node : Char)
    (h1 : freq ≤ freq_t.ofNat 30000000) (h2 : E.freq2band freq ≠ E.BANDINDEX_OOB) :
    bandmap_addspot E s call freq node
      = (drop_neighbours freq (touch E s call freq (E.freq2band freq)
          (freq2mode E freq (E.freq2band freq)) node)).map Cell.data := by
  unfold bandmap_addspot
  rw [if_neg ((freq_not_lt _ _).2 h1), if_neg h2]

theorem apart_symm : Symmetric (fun a b : spot => TOLERANCE ≤ DISTANCE a.freq b.freq) := by
  intro a b h
  rw [DISTANCE_comm]
  exact h

/-- The store after `bandmap_addspot` on an accepted spot: the touched record
between what is left of the spots in front of it and behind it. -/
theorem addspot_spec (E : Env) (s : List spot) (call : String) (freq : freq_t) (node : Char)
    (h1 : freq ≤ freq_t.ofNat 30000000) (h2 : E.freq2band freq ≠ E.BANDINDEX_OOB) :
    ∃ P Q P1 Q1 : List spot,
      (touch E s call freq (E.freq2band freq) (freq2mode E freq (E.freq2band freq)) node).map
          Cell.data
        = P ++ touched E s call freq (E.freq2band freq) (freq2mode E freq (E.freq2band freq)) node
            :: Q ∧
      (P ++ Q).Perm (untouched s call (E.freq2band freq) (freq2mode E freq (E.freq2band freq))) ∧
      bandmap_addspot E s call freq node
        = P1 ++ touched E s call freq (E.freq2band freq) (freq2mode E freq (E.freq2band freq)) node
            :: Q1 ∧
      P1.Sublist P ∧ Q1.Sublist Q := by
  obtain ⟨P, Q, hshape, hperm⟩ :=
    touch_shape E s call freq (E.freq2band freq) (freq2mode E freq (E.freq2band freq)) node
  obtain ⟨P1, Q1, hres, hP, hQ, -⟩ := cleanup_spec freq P Q
    (touched E s call freq (E.freq2band freq) (freq2mode E freq (E.freq2band freq)) node)
  refine ⟨P, Q, P1, Q1, ?_, hperm, ?_, hP, hQ⟩
  · rw [hshape, List.map_append, List.map_cons, map_data_map_other, map_data_map_other]
    rfl
  · rw [addspot_accepted E s call freq node h1 h2, hshape, hres]

/-! ## Fields of the touched record -/

theorem new_entry_fields (E : Env) (call : String) (freq : freq_t) (band mode : Int) (node : Char) :
    (new_entry E call freq band mode node).call = call ∧
    (new_entry E call freq band mode node).band = band ∧
    (new_entry E call freq band mode node).mode = mode ∧
    (new_entry E call freq band mode node).timeout = E.SPOT_NEW ∧
    (new_entry E call freq band mode node).node = node ∧
    (new_entry E call freq band mode node).freq = freq.toNat := by
  unfold new_entry
  simp only
  split_ifs <;> exact ⟨rfl, rfl, rfl, rfl, rfl, rfl⟩

theorem touched_fields (E : Env) (s : List spot) (call : String) (freq : freq_t) (band mode : Int)
    (node : Char) :
    (touched E s call freq band mode node).call = call ∧
    (touched E s call freq band mode node).band = band ∧
    (touched E s call freq band mode node).mode = mode ∧
    (touched E s call freq band mode node).timeout = E.SPOT_NEW ∧
    (touched E s call freq band mode node).node = node := by
  unfold touched
  cases hf : find_spot call band mode s with
  | none =>
    obtain ⟨h1, h2, h3, h4, h5, -⟩ := new_entry_fields E call freq band mode node
    exact ⟨h1, h2, h3, h4, h5⟩
  | some t =>
    obtain ⟨pre, old, post⟩ := t
    obtain ⟨-, ⟨k1, k2, k3⟩, -⟩ := find_spot_some call band mode s pre old post hf
    exact ⟨k1, k2, k3, rfl, rfl⟩

theorem untouched_no_key (s : List spot) (call : String) (band mode : Int) (hu : uniqueKey s) :
    ∀ r ∈ untouched s call band mode, ¬ (r.call = call ∧ r.band = band ∧ r.mode = mode) := by
  unfold untouched
  cases hf : find_spot call band mode s with
  | none => exact find_spot_none call band mode s hf
  | some t =>
    obtain ⟨pre, old, post⟩ := t
    obtain ⟨rfl, ⟨k1, k2, k3⟩, -⟩ := find_spot_some call band mode s pre old post hf
    have hu1 := List.pairwise_append.1 hu
    have hu2 := List.pairwise_cons.1 hu1.2.1
    intro r hr hk
    rcases List.mem_append.1 hr with hr | hr
    · exact hu1.2.2 r hr old (List.mem_cons_self _ _)
        ⟨hk.1.trans k1.symm, hk.2.1.trans k2.symm, hk.2.2.trans k3.symm⟩
    · exact hu2.1 r hr ⟨k1.trans hk.1.symm, k2.trans hk.2.1.symm, k3.trans hk.2.2.symm⟩

/-! ## Preservation of the three store invariants -/

theorem addspot_sorted (E : Env) (s : List spot) (call : String) (freq : freq_t) (node : Char)
    (hs : sortedByFreq s) : sortedByFreq (bandmap_addspot E s call freq node) := by
  by_cases h1 : freq ≤ freq_t.ofNat 30000000
  · by_cases h2 : E.freq2band freq = E.BANDINDEX_OOB
    · unfold bandmap_addspot
      rw [if_neg ((freq_not_lt _ _).2 h1), if_pos h2]
      exact hs
    · obtain ⟨P, Q, P1, Q1, hmap, -, hres, hP, hQ⟩ := addspot_spec E s call freq node h1 h2
      have hsorted := touch_sorted E s call freq (E.freq2band freq)
        (freq2mode E freq (E.freq2band freq)) node hs
      have hsorted2 : sortedByFreq (P ++ touched E s call freq (E.freq2band freq)
          (freq2mode E freq (E.freq2band freq)) node :: Q) := by
        rw [← hmap]
        exact List.pairwise_map.2 hsorted
      rw [hres]
      exact hsorted2.sublist (hP.append (hQ.cons₂ _))
  · unfold bandmap_addspot
    rw [if_pos ((freq_not_le _ _).1 h1)]
    exact hs

theorem addspot_unique (E : Env) (s : List spot) (call : String) (freq : freq_t) (node : Char)
    (hu : uniqueKey s) : uniqueKey (bandmap_addspot E s call freq node) := by
  by_cases h1 : freq ≤ freq_t.ofNat 30000000
  · by_cases h2 : E.freq2band freq = E.BANDINDEX_OOB
    · unfold bandmap_addspot
      rw [if_neg ((freq_not_lt _ _).2 h1), if_pos h2]
      exact hu
    · obtain ⟨P, Q, P1, Q1, -, hperm, hres, hP, hQ⟩ := addspot_spec E s call freq node h1 h2
      obtain ⟨k1, k2, k3, -, -⟩ := touched_fields E s call freq (E.freq2band freq)
        (freq2mode E freq (E.freq2band freq)) node
      have hno := untouched_no_key s call (E.freq2band freq)
        (freq2mode E freq (E.freq2band freq)) hu
      have hsymm : Symmetric (fun a b : spot => ¬ sameKey a b) :=
        fun a b h hk => h ⟨hk.1.symm, hk.2.1.symm, hk.2.2.symm⟩
      have hPQ : uniqueKey (P ++ Q) :=
        (hu.sublist (untouched_sublist s call _ _)).perm hperm.symm (fun h => hsymm h)
      have hall : uniqueKey (touched E s call freq (E.freq2band freq)
          (freq2mode E freq (E.freq2band freq)) node :: (P ++ Q)) := by
        refine List.pairwise_cons.2 ⟨?_, hPQ⟩
        intro r hr hk
        exact hno r (hperm.subset hr)
          ⟨hk.1.symm.trans k1, hk.2.1.symm.trans k2, hk.2.2.symm.trans k3⟩
      rw [hres]
      exact (hall.perm List.perm_middle.symm (fun h => hsymm h)).sublist
        (hP.append (hQ.cons₂ _))
  · unfold bandmap_addspot
    rw [if_pos ((freq_not_le _ _).1 h1)]
    exact hu

theorem apart_of_map_freq (l1 l2 : List spot) (h : l1.map spot.freq = l2.map spot.freq)
    (ha : apart l1) : apart l2 := by
  have h1 : (l1.map spot.freq).Pairwise (fun a b => TOLERANCE ≤ DISTANCE a b) :=
    List.pairwise_map.2 ha
  rw [h] at h1
  exact List.pairwise_map.1 h1

theorem addspot_apart (E : Env) (s : List spot) (call : String) (freq : freq_t) (node : Char)
    (hs : sortedByFreq s) (ha : apart s) : apart (bandmap_addspot E s call freq node) := by
  by_cases h1 : freq ≤ freq_t.ofNat 30000000
  · by_cases h2 : E.freq2band freq = E.BANDINDEX_OOB
    · unfold bandmap_addspot
      rw [if_neg ((freq_not_lt _ _).2 h1), if_pos h2]
      exact ha
    · obtain ⟨P, Q, hshape, hperm⟩ := touch_shape E s call freq (E.freq2band freq)
        (freq2mode E freq (E.freq2band freq)) node
      obtain ⟨P1, Q1, hres, hP, hQ, hkey⟩ := cleanup_spec freq P Q
        (touched E s call freq (E.freq2band freq) (freq2mode E freq (E.freq2band freq)) node)
      have hsorted := touch_sorted E s call freq (E.freq2band freq)
        (freq2mode E freq (E.freq2band freq)) node hs
      rw [addspot_accepted E s call freq node h1 h2, hshape, hres]
      rcases touched_freq E s call freq (E.freq2band freq)
        (freq2mode E freq (E.freq2band freq)) node with hx | ⟨pre, old, post, hf, hd, hx⟩
      · refine hkey ?_ ?_ hx
        · rw [hshape] at hsorted
          have hsm : sortedByFreq (List.map Cell.data (P.map other ++
              target (touched E s call freq (E.freq2band freq)
                (freq2mode E freq (E.freq2band freq)) node) :: Q.map other)) :=
            List.pairwise_map.2 hsorted
          rw [List.map_append, List.map_cons, map_data_map_other, map_data_map_other] at hsm
          exact hsm
        · exact (ha.sublist (untouched_sublist s call _ _)).perm hperm.symm
            (fun h => apart_symm h)
      · have hun := touch_unmoved E s call freq (E.freq2band freq)
          (freq2mode E freq (E.freq2band freq)) node pre old post hf hd
        rw [hshape] at hun
        have hun2 := congrArg (List.map Cell.data) hun
        rw [List.map_append, List.map_cons, map_data_map_other, map_data_map_other,
          List.map_append, List.map_cons, map_data_map_other, map_data_map_other] at hun2
        obtain ⟨rfl, -, -⟩ := find_spot_some call _ _ s pre old post hf
        have hfull : apart (P ++ touched E (pre ++ old :: post) call freq (E.freq2band freq)
            (freq2mode E freq (E.freq2band freq)) node :: Q) := by
          refine apart_of_map_freq (pre ++ old :: post) _ ?_ ha
          have e : (target (touched E (pre ++ old :: post) call freq (E.freq2band freq)
            (freq2mode E freq (E.freq2band freq)) node)).data = touched E (pre ++ old :: post)
              call freq (E.freq2band freq) (freq2mode E freq (E.freq2band freq)) node := rfl
          rw [e] at hun2
          rw [hun2, List.map_append, List.map_append, List.map_cons, List.map_cons, hx]
        exact hfull.sublist (hP.append (hQ.cons₂ _))
  · unfold bandmap_addspot
    rw [if_pos ((freq_not_le _ _).1 h1)]
    exact ha

/-! ## Aging -/

theorem age_eq_filterMap : ∀ s : List spot, bandmap_age s = s.filterMap (decay 1)
  | [] => rfl
  | r :: s => by
    have ih := age_eq_filterMap s
    unfold bandmap_age
    by_cases h : 1 < r.timeout
    · have h0 : r.timeout ≠ 0 := by omega
      have h1 : ¬ (r.timeout - 1 = 0) := by omega
      have hd : decay 1 r = some { r with timeout := r.timeout - 1 } := by simp [decay, h]
      simp only [h0, ne_eq, not_false_eq_true, if_true, h1, if_false, ih]
      rw [List.filterMap_cons_some hd]
    · have hd : decay 1 r = none := by simp [decay, h]
      rw [List.filterMap_cons_none hd, ← ih]
      by_cases h0 : r.timeout = 0
      · simp [h0]
      · have h1 : r.timeout - 1 = 0 := by omega
        simp [h0, h1]

theorem decay_freq (k : Nat) (r r1 : spot) (h : r1 ∈ decay k r) :
    r1.freq = r.freq ∧ r1.call = r.call ∧ r1.band = r.band ∧ r1.mode = r.mode := by
  unfold decay at h
  split_ifs at h
  · simp only [Option.mem_def, Option.some.injEq] at h
    subst h
    exact ⟨rfl, rfl, rfl, rfl⟩
  · simp at h

theorem age_sorted (s : List spot) (hs : sortedByFreq s) : sortedByFreq (bandmap_age s) := by
  rw [age_eq_filterMap]
  refine List.Pairwise.filterMap (decay 1) ?_ hs
  intro a a1 h b hb b1 hb1
  rw [(decay_freq 1 a b hb).1, (decay_freq 1 a1 b1 hb1).1]
  exact h

theorem age_unique (s : List spot) (hu : uniqueKey s) : uniqueKey (bandmap_age s) := by
  rw [age_eq_filterMap]
  refine List.Pairwise.filterMap (decay 1) ?_ hu
  intro a a1 h b hb b1 hb1 hk
  obtain ⟨-, c1, c2, c3⟩ := decay_freq 1 a b hb
  obtain ⟨-, d1, d2, d3⟩ := decay_freq 1 a1 b1 hb1
  exact h ⟨c1.symm.trans (hk.1.trans d1), c2.symm.trans (hk.2.1.trans d2),
    c3.symm.trans (hk.2.2.trans d3)⟩

theorem age_apart (s : List spot) (ha : apart s) : apart (bandmap_age s) := by
  rw [age_eq_filterMap]
  refine List.Pairwise.filterMap (decay 1) ?_ ha
  intro a a1 h b hb b1 hb1
  rw [(decay_freq 1 a b hb).1, (decay_freq 1 a1 b1 hb1).1]
  exact h

theorem reachable_invariants (s : List spot) (h : Reachable s) :
    sortedByFreq s ∧ uniqueKey s ∧ apart s := by
  induction h with
  | empty => exact ⟨List.Pairwise.nil, List.Pairwise.nil, List.Pairwise.nil⟩
  | addspot E s call freq node _ ih =>
    exact ⟨addspot_sorted E s call freq node ih.1, addspot_unique E s call freq node ih.2.1,
      addspot_apart E s call freq node ih.1 ih.2.2⟩
  | age s _ ih => exact ⟨age_sorted s ih.1, age_unique s ih.2.1, age_apart s ih.2.2⟩

theorem find_spot_eq_none (call : String) (band mode : Int) (s : List spot)
    (h : ∀ r ∈ s, ¬ (r.call = call ∧ r.band = band ∧ r.mode = mode)) :
    find_spot call band mode s = none := by
  cases hf : find_spot call band mode s with
  | none => rfl
  | some t =>
    obtain ⟨pre, old, post⟩ := t
    obtain ⟨rfl, hk, -⟩ := find_spot_some call band mode s pre old post hf
    exact absurd hk (h old (by simp))

theorem find_spot_isSome (call : String) (band mode : Int) (s : List spot)
    (h : ∃ r ∈ s, r.call = call ∧ r.band = band ∧ r.mode = mode) :
    ∃ pre old post, find_spot call band mode s = some (pre, old, post) := by
  cases hf : find_spot call band mode s with
  | none =>
    obtain ⟨r, hr, hk⟩ := h
    exact absurd hk (find_spot_none call band mode s hf r hr)
  | some t =>
    obtain ⟨pre, old, post⟩ := t
    exact ⟨pre, old, post, rfl⟩

theorem decay_bind (k : Nat) (r : spot) : (decay (k + 1) r).bind (decay 1) = decay (k + 2) r := by
  unfold decay
  by_cases h : k + 1 < r.timeout
  · by_cases h2 : k + 2 < r.timeout
    · have h3 : 1 < r.timeout - (k + 1) := by omega
      have h4 : r.timeout - (k + 1) - 1 = r.timeout - (k + 2) := by omega
      simp [h, h2, h3, h4]
    · have h3 : ¬ 1 < r.timeout - (k + 1) := by omega
      simp [h, h2, h3]
  · have h2 : ¬ k + 2 < r.timeout := by omega
    simp [h, h2]

theorem age_iterate_succ (s : List spot) :
    ∀ k : Nat, Nat.iterate bandmap_age (k + 1) s = s.filterMap (decay (k + 1))
  | 0 => age_eq_filterMap s
  | k + 1 => by
    rw [Function.iterate_succ_apply', age_iterate_succ s k, age_eq_filterMap,
      List.filterMap_filterMap]
    congr 1
    funext r
    exact decay_bind k r

theorem decay_zero (r : spot) (h : 1 ≤ r.timeout) : decay 0 r = some r := by
  unfold decay
  have h0 : 0 < r.timeout := h
  simp [h0]

theorem filterMap_decay_zero :
    ∀ s : List spot, (∀ r ∈ s, 1 ≤ r.timeout) → s.filterMap (decay 0) = s
  | [], _ => rfl
  | r :: s, h => by
    rw [List.filterMap_cons_some (decay_zero r (h r (List.mem_cons_self _ _))),
      filterMap_decay_zero s (fun x hx => h x (List.mem_cons_of_mem _ hx))]

theorem age_iterate (s : List spot) (k : Nat) (h : 1 ≤ k ∨ ∀ r ∈ s, 1 ≤ r.timeout) :
    Nat.iterate bandmap_age k s = s.filterMap (decay k) := by
  cases k with
  | zero =>
    rcases h with h | h
    · omega
    · rw [filterMap_decay_zero s h]
      rfl
  | succ k => exact age_iterate_succ s k

/-! ## The claims -/

/-- C1, ordering invariant: every store reachable from the empty store by
`bandmap_addspot` and `bandmap_age` lists its records in non-decreasing order of
frequency, and each of the two operations turns a frequency-sorted store into a
frequency-sorted store. -/
theorem ordering_invariant :
    (∀ s : List spot, Reachable s → sortedByFreq s) ∧
    (∀ (E : Env) (s : List spot) (call : String) (freq : freq_t) (node : Char),
      sortedByFreq s → sortedByFreq (bandmap_addspot E s call freq node)) ∧
    (∀ s : List spot, sortedByFreq s → sortedByFreq (bandmap_age s)) :=
  ⟨fun s h => (reachable_invariants s h).1, addspot_sorted, age_sorted⟩

theorem ordering_invariant_witness :
    sortedByFreq [scenarioSpot "K1A" 14024000 7, scenarioSpot "W1ABC" 14025000 1] ∧
    sortedByFreq (bandmap_addspot scenarioEnv
      [scenarioSpot "K1A" 14024000 7, scenarioSpot "W1ABC" 14025000 1] "K1A" 14030000 ' ') ∧
    sortedByFreq (bandmap_age
      [scenarioSpot "K1A" 14024000 7, scenarioSpot "W1ABC" 14025000 1]) :=
  ⟨by decide, ordering_invariant.2.1 _ _ _ _ _ (by decide),
    ordering_invariant.2.2 _ (by decide)⟩

/-- C2, uniqueness invariant: in every store reachable from the empty store by
`bandmap_addspot` and `bandmap_age` no two records share (call, band, mode), and
each of the two operations preserves that property. -/
theorem uniqueness_invariant :
    (∀ s : List spot, Reachable s → uniqueKey s) ∧
    (∀ (E : Env) (s : List spot) (call : String) (freq : freq_t) (node : Char),
      uniqueKey s → uniqueKey (bandmap_addspot E s call freq node)) ∧
    (∀ s : List spot, uniqueKey s → uniqueKey (bandmap_age s)) :=
  ⟨fun s h => (reachable_invariants s h).2.1, addspot_unique, age_unique⟩

theorem uniqueness_invariant_witness :
    uniqueKey [scenarioSpot "K1A" 14024000 7, scenarioSpot "W1ABC" 14025000 1] ∧
    uniqueKey (bandmap_addspot scenarioEnv
      [scenarioSpot "K1A" 14024000 7, scenarioSpot "W1ABC" 14025000 1] "W1ABC" 14025040 ' ') ∧
    uniqueKey (bandmap_age
      [scenarioSpot "K1A" 14024000 7, scenarioSpot "W1ABC" 14025000 1]) :=
  ⟨by decide, uniqueness_invariant.2.1 _ _ _ _ _ (by decide),
    uniqueness_invariant.2.2 _ (by decide)⟩

/-- C3, tolerance invariant: in every store reachable from the empty store by
`bandmap_addspot` and `bandmap_age` any two records are at least `TOLERANCE`
(100 Hz) apart, and each of the two operations turns a frequency-sorted store
whose records are pairwise at least 100 Hz apart into a store whose records are
pairwise at least 100 Hz apart (whichever branch `bandmap_addspot` takes). -/
theorem tolerance_invariant :
    (∀ s : List spot, Reachable s → apart s) ∧
    (∀ (E : Env) (s : List spot) (call : String) (freq : freq_t) (node : Char),
      sortedByFreq s → apart s → apart (bandmap_addspot E s call freq node)) ∧
    (∀ s : List spot, sortedByFreq s → apart s → apart (bandmap_age s)) :=
  ⟨fun s h => (reachable_invariants s h).2.2, addspot_apart, fun s _ ha => age_apart s ha⟩

theorem tolerance_invariant_witness :
    apart [scenarioSpot "K1A" 14024950 7, scenarioSpot "W1ABC" 14025050 1,
      scenarioSpot "N5X" 14030000 3] ∧
    apart (bandmap_addspot scenarioEnv
      [scenarioSpot "K1A" 14024950 7, scenarioSpot "W1ABC" 14025050 1,
        scenarioSpot "N5X" 14030000 3] "N5X" 14025000 ' ') ∧
    apart (bandmap_age
      [scenarioSpot "K1A" 14024950 7, scenarioSpot "W1ABC" 14025050 1,
        scenarioSpot "N5X" 14030000 3]) :=
  ⟨by decide, tolerance_invariant.2.1 _ _ _ _ _ (by decide) (by decide),
    tolerance_invariant.2.2 _ (by decide) (by decide)⟩

/-- C4, the touched record survives: for every store and every accepted spot (at
most 30 MHz, mapped to a valid band), the store after `bandmap_addspot` contains
a record with the given call, band `freq2band(freq)` and mode
`freq2mode(freq, band)` whose timeout is `SPOT_NEW` and whose node is the given
node, whatever the store held before and whichever neighbours were dropped. -/
theorem touched_record_survives (E : Env) (s : List spot) (call : String) (freq : freq_t)
    (node : Char) (h1 : freq ≤ freq_t.ofNat 30000000) (h2 : E.freq2band freq ≠ E.BANDINDEX_OOB) :
    ∃ r ∈ bandmap_addspot E s call freq node,
      r.call = call ∧ r.band = E.freq2band freq ∧
      r.mode = freq2mode E freq (E.freq2band freq) ∧
      r.timeout = E.SPOT_NEW ∧ r.node = node := by
  obtain ⟨P, Q, P1, Q1, -, -, hres, -, -⟩ := addspot_spec E s call freq node h1 h2
  exact ⟨_, by rw [hres]; simp, touched_fields E s call freq _ _ node⟩

theorem touched_record_survives_witness :
    ∃ r ∈ bandmap_addspot scenarioEnv
        [scenarioSpot "K1A" 14024950 7, scenarioSpot "W1ABC" 14025000 1] "W1ABC" 14025020 'A',
      r.call = "W1ABC" ∧ r.band = scenarioEnv.freq2band 14025020 ∧
      r.mode = freq2mode scenarioEnv 14025020 (scenarioEnv.freq2band 14025020) ∧
      r.timeout = scenarioEnv.SPOT_NEW ∧ r.node = 'A' :=
  touched_record_survives scenarioEnv _ "W1ABC" 14025020 'A' (by decide) (by decide)

/-- C5, neighbour eviction as the specification words it, refuted: the store holds
K1A at 14025000 Hz and N5X at 14025100 Hz (sorted, 100 Hz apart) and the new call
W2XYZ comes in at 14025000.5 Hz.  Afterwards W2XYZ is stored at 14025000 Hz, which
is below the given frequency, and N5X, 99.5 Hz from the given frequency, is
still in the store. -/
theorem neighbour_eviction_counterexample :
    sortedByFreq [scenarioSpot "K1A" 14025000 7, scenarioSpot "N5X" 14025100 7] ∧
    apart [scenarioSpot "K1A" 14025000 7, scenarioSpot "N5X" 14025100 7] ∧
    bandmap_addspot scenarioEnv
        [scenarioSpot "K1A" 14025000 7, scenarioSpot "N5X" 14025100 7]
        "W2XYZ" (freq_t.half 14025000) ' '
      = [scenarioSpot "W2XYZ" 14025000 900, scenarioSpot "N5X" 14025100 7] ∧
    freq_t.ofNat (scenarioSpot "W2XYZ" 14025000 900).freq < freq_t.half 14025000 ∧
    freq_t.DISTANCE (freq_t.ofNat (scenarioSpot "N5X" 14025100 7).freq) (freq_t.half 14025000)
      < freq_t.ofNat TOLERANCE := by
  decide

/-- C5, neighbour eviction as the code has it: for every frequency-sorted store
whose records are pairwise at least 100 Hz apart and every accepted spot whose
(call, band, mode) is not in the store, after `bandmap_addspot` the new record is
in the store at the whole Hertz of the given frequency, and no record of the old
store whose frequency is less than 100 Hz from that stored frequency (the same
frequency included) is left; when the given frequency is a whole number of Hertz
the stored frequency is the given one. -/
theorem neighbour_eviction (E : Env) (s : List spot) (call : String) (freq : freq_t)
    (node : Char) (hs : sortedByFreq s) (ha : apart s)
    (h1 : freq ≤ freq_t.ofNat 30000000) (h2 : E.freq2band freq ≠ E.BANDINDEX_OOB)
    (hnew : ∀ r ∈ s, ¬ (r.call = call ∧ r.band = E.freq2band freq ∧
      r.mode = freq2mode E freq (E.freq2band freq))) :
    new_entry E call freq (E.freq2band freq) (freq2mode E freq (E.freq2band freq)) node
        ∈ bandmap_addspot E s call freq node ∧
    (new_entry E call freq (E.freq2band freq) (freq2mode E freq (E.freq2band freq)) node).freq
        = freq.toNat ∧
    (∀ r ∈ s, DISTANCE r.freq freq.toNat < TOLERANCE →
      r ∉ bandmap_addspot E s call freq node) ∧
    (∀ n : Nat, freq = freq_t.ofNat n →
      (new_entry E call freq (E.freq2band freq)
        (freq2mode E freq (E.freq2band freq)) node).freq = n ∧
      ∀ r ∈ s, DISTANCE r.freq n < TOLERANCE → r ∉ bandmap_addspot E s call freq node) := by
  have hap := addspot_apart E s call freq node hs ha
  obtain ⟨P, Q, P1, Q1, -, hperm, hres, hP, hQ⟩ := addspot_spec E s call freq node h1 h2
  have hnone := find_spot_eq_none call _ _ s hnew
  have htouched : touched E s call freq (E.freq2band freq)
      (freq2mode E freq (E.freq2band freq)) node
      = new_entry E call freq (E.freq2band freq) (freq2mode E freq (E.freq2band freq)) node := by
    unfold touched
    rw [hnone]
  obtain ⟨k1, k2, k3, -, -, k6⟩ := new_entry_fields E call freq (E.freq2band freq)
    (freq2mode E freq (E.freq2band freq)) node
  rw [htouched] at hres
  have hgone : ∀ r ∈ s, DISTANCE r.freq freq.toNat < TOLERANCE →
      r ∉ bandmap_addspot E s call freq node := by
    intro r hr hd hmem
    rw [hres] at hmem hap
    have hap1 := List.pairwise_append.1 hap
    have hap2 := List.pairwise_cons.1 hap1.2.1
    rcases List.mem_append.1 hmem with hm | hm
    · have := hap1.2.2 r hm _ (List.mem_cons_self _ _)
      rw [k6] at this
      omega
    · rcases List.mem_cons.1 hm with rfl | hm
      · exact hnew _ hr ⟨k1, k2, k3⟩
      · have := hap2.1 r hm
        rw [k6, DISTANCE_comm] at this
        omega
  refine ⟨by rw [hres]; simp, k6, hgone, ?_⟩
  intro n hn
  have e : freq.toNat = n := by rw [hn]; exact toNat_ofNat n
  rw [← e]
  exact ⟨k6, hgone⟩

theorem neighbour_eviction_witness :
    bandmap_addspot scenarioEnv [scenarioSpot "W1ABC" 14025000 900] "W2XYZ" 14025080 ' '
      = [scenarioSpot "W2XYZ" 14025080 900] ∧
    ((new_entry scenarioEnv "W2XYZ" 14025080 (scenarioEnv.freq2band 14025080)
        (freq2mode scenarioEnv 14025080 (scenarioEnv.freq2band 14025080)) ' ').freq = 14025080 ∧
      ∀ r ∈ [scenarioSpot "W1ABC" 14025000 900], DISTANCE r.freq 14025080 < TOLERANCE →
        r ∉ bandmap_addspot scenarioEnv [scenarioSpot "W1ABC" 14025000 900]
          "W2XYZ" 14025080 ' ') :=
  ⟨by decide,
    (neighbour_eviction scenarioEnv [scenarioSpot "W1ABC" 14025000 900] "W2XYZ" 14025080 ' '
      (by decide) (by decide) (by decide) (by decide) (by decide)).2.2.2 14025080 rfl⟩

/-- C6, refresh scenario as the specification words it, refuted: with W1ABC stored
at 14025000 Hz, `bandmap_addspot("W1ABC", 14025050, ' ')` leaves a single record
whose timeout is reset, but its frequency is still 14025000 Hz, not 14025050 Hz. -/
theorem refresh_scenario_counterexample :
    bandmap_addspot scenarioEnv [scenarioSpot "W1ABC" 14025000 450] "W1ABC" 14025050 ' '
      = [scenarioSpot "W1ABC" 14025000 900] ∧
    ¬ ∃ r ∈ bandmap_addspot scenarioEnv [scenarioSpot "W1ABC" 14025000 450]
        "W1ABC" 14025050 ' ', r.freq = 14025050 := by
  decide

/-- C6, refresh scenario as the code has it: when the store holds a single record
W1ABC at 14025000 Hz on the band and mode of 14025050 Hz, then after
`bandmap_addspot("W1ABC", 14025050, ' ')` the store holds exactly that one
record, with timeout `SPOT_NEW` and node `' '`, every other field, the frequency
14025000 Hz included, as before (50 Hz do not exceed `TOLERANCE`). -/
theorem refresh_scenario (E : Env) (old : spot) (hcall : old.call = "W1ABC")
    (hfreq : old.freq = 14025000) (h2 : E.freq2band 14025050 ≠ E.BANDINDEX_OOB)
    (hband : old.band = E.freq2band 14025050)
    (hmode : old.mode = freq2mode E 14025050 (E.freq2band 14025050)) :
    bandmap_addspot E [old] "W1ABC" 14025050 ' '
        = [{ old with timeout := E.SPOT_NEW, node := ' ' }] ∧
    ({ old with timeout := E.SPOT_NEW, node := ' ' } : spot).freq = 14025000 := by
  refine ⟨?_, hfreq⟩
  rw [addspot_accepted E [old] "W1ABC" 14025050 ' ' (by decide) h2]
  have hd : ¬ freq_t.DISTANCE (freq_t.ofNat old.freq) 14025050 > freq_t.ofNat TOLERANCE := by
    rw [hfreq]; decide
  have hf : find_spot "W1ABC" (E.freq2band 14025050)
      (freq2mode E 14025050 (E.freq2band 14025050)) [old] = some ([], old, []) := by
    simp [find_spot, hcall, hband, hmode]
  have ht := touch_unmoved E [old] "W1ABC" 14025050 _ _ ' ' [] old [] hf hd
  rw [ht]
  have hx : touched E [old] "W1ABC" 14025050 (E.freq2band 14025050)
      (freq2mode E 14025050 (E.freq2band 14025050)) ' '
      = { old with timeout := E.SPOT_NEW, node := ' ' } := by
    unfold touched
    rw [hf]
    simp [hd]
  rw [hx]
  rfl

theorem refresh_scenario_witness :
    bandmap_addspot scenarioEnv [scenarioSpot "W1ABC" 14025000 450] "W1ABC" 14025050 ' '
        = [{ scenarioSpot "W1ABC" 14025000 450 with
              timeout := scenarioEnv.SPOT_NEW, node := ' ' }] ∧
    ({ scenarioSpot "W1ABC" 14025000 450 with
        timeout := scenarioEnv.SPOT_NEW, node := ' ' } : spot).freq = 14025000 :=
  refresh_scenario scenarioEnv (scenarioSpot "W1ABC" 14025000 450) rfl rfl (by decide)
    (by decide) (by decide)

/-- C7, frequency update rule as the specification words it, refuted: W1ABC is
stored at 14025000 Hz and comes in again at 14025100.5 Hz, more than 100 Hz away.
The record is moved, but to 14025100 Hz, which is below the incoming frequency. -/
theorem refresh_frequency_counterexample :
    bandmap_addspot scenarioEnv [scenarioSpot "W1ABC" 14025000 450]
        "W1ABC" (freq_t.half 14025100) ' '
      = [scenarioSpot "W1ABC" 14025100 900] ∧
    freq_t.DISTANCE (freq_t.ofNat (scenarioSpot "W1ABC" 14025000 450).freq)
        (freq_t.half 14025100) > freq_t.ofNat TOLERANCE ∧
    freq_t.ofNat (scenarioSpot "W1ABC" 14025100 900).freq < freq_t.half 14025100 := by
  decide

/-- C7, frequency update rule as the code has it: when the store contains a record
with the call, band and mode of an accepted incoming spot, the search finds such
a record `old`, and after `bandmap_addspot` the store contains that record with
timeout and node refreshed and with the whole Hertz of the incoming frequency if
the stored and the incoming frequency are more than `TOLERANCE` (100 Hz) apart,
and with its stored frequency otherwise (exactly 100 Hz included); for an
incoming frequency that is a whole number of Hertz the moved record holds the
incoming frequency.  When the (call, band, mode) triples of the store are unique,
`old` is the only record of the store with that triple and the refreshed record
is the only one with that triple afterwards. -/
theorem refresh_frequency_rule (E : Env) (s : List spot) (call : String) (freq : freq_t)
    (node : Char) (h1 : freq ≤ freq_t.ofNat 30000000) (h2 : E.freq2band freq ≠ E.BANDINDEX_OOB)
    (hex : ∃ r ∈ s, r.call = call ∧ r.band = E.freq2band freq ∧
      r.mode = freq2mode E freq (E.freq2band freq)) :
    ∃ pre old post,
      find_spot call (E.freq2band freq) (freq2mode E freq (E.freq2band freq)) s
        = some (pre, old, post) ∧
      s = pre ++ old :: post ∧
      (old.call = call ∧ old.band = E.freq2band freq ∧
        old.mode = freq2mode E freq (E.freq2band freq)) ∧
      refreshed E old freq node ∈ bandmap_addspot E s call freq node ∧
      (freq_t.DISTANCE (freq_t.ofNat old.freq) freq > freq_t.ofNat TOLERANCE →
        (refreshed E old freq node).freq = freq.toNat) ∧
      (freq_t.DISTANCE (freq_t.ofNat old.freq) freq ≤ freq_t.ofNat TOLERANCE →
        (refreshed E old freq node).freq = old.freq) ∧
      (∀ n : Nat, freq = freq_t.ofNat n → DISTANCE old.freq n > TOLERANCE →
        (refreshed E old freq node).freq = n) ∧
      (uniqueKey s →
        (∀ r ∈ s, (r.call = call ∧ r.band = E.freq2band freq ∧
          r.mode = freq2mode E freq (E.freq2band freq)) → r = old) ∧
        (∀ r ∈ bandmap_addspot E s call freq node,
          (r.call = call ∧ r.band = E.freq2band freq ∧
            r.mode = freq2mode E freq (E.freq2band freq)) → r = refreshed E old freq node)) := by
  obtain ⟨pre, old, post, hf⟩ := find_spot_isSome call _ _ s hex
  obtain ⟨hs, hk, -⟩ := find_spot_some call _ _ s pre old post hf
  obtain ⟨P, Q, P1, Q1, -, hperm, hres, hP, hQ⟩ := addspot_spec E s call freq node h1 h2
  have htouched : touched E s call freq (E.freq2band freq)
      (freq2mode E freq (E.freq2band freq)) node = refreshed E old freq node := by
    unfold touched refreshed
    rw [hf]
  rw [htouched] at hres
  refine ⟨pre, old, post, hf, hs, hk, by rw [hres]; simp, ?_, ?_, ?_, ?_⟩
  · intro hd
    simp [refreshed, hd]
  · intro hd
    have : ¬ freq_t.DISTANCE (freq_t.ofNat old.freq) freq > freq_t.ofNat TOLERANCE :=
      (freq_not_lt _ _).2 hd
    simp [refreshed, this]
  · intro n hn hd
    have hw : freq.ceil = freq.toNat := by rw [hn, ceil_ofNat, toNat_ofNat]
    have e : freq.toNat = n := by rw [hn]; exact toNat_ofNat n
    have hd2 : freq_t.DISTANCE (freq_t.ofNat old.freq) freq > freq_t.ofNat TOLERANCE := by
      rw [far_whole _ _ hw, e]
      exact hd
    simp [refreshed, hd2, e]
  · intro hu
    have hno := untouched_no_key s call (E.freq2band freq)
      (freq2mode E freq (E.freq2band freq)) hu
    constructor
    · intro r hr hkr
      have hun : untouched s call (E.freq2band freq) (freq2mode E freq (E.freq2band freq))
          = pre ++ post := by
        unfold untouched
        rw [hf]
      rw [hs] at hr
      rcases List.mem_append.1 hr with hr | hr
      · exact absurd hkr (hno r (by rw [hun]; exact List.mem_append_left _ hr))
      · rcases List.mem_cons.1 hr with rfl | hr
        · rfl
        · exact absurd hkr (hno r (by rw [hun]; exact List.mem_append_right _ hr))
    · intro r hr hkr
      rw [hres] at hr
      rcases List.mem_append.1 hr with hr | hr
      · exact absurd hkr
          (hno r (hperm.subset (List.mem_append_left _ (hP.subset hr))))
      · rcases List.mem_cons.1 hr with rfl | hr
        · rfl
        · exact absurd hkr
            (hno r (hperm.subset (List.mem_append_right _ (hQ.subset hr))))

theorem refresh_frequency_rule_witness :
    ∃ pre old post,
      find_spot "W1ABC" (scenarioEnv.freq2band 14025101)
          (freq2mode scenarioEnv 14025101 (scenarioEnv.freq2band 14025101))
          [scenarioSpot "K1A" 14024000 7, scenarioSpot "W1ABC" 14025000 450]
        = some (pre, old, post) ∧
      [scenarioSpot "K1A" 14024000 7, scenarioSpot "W1ABC" 14025000 450] = pre ++ old :: post ∧
      (old.call = "W1ABC" ∧ old.band = scenarioEnv.freq2band 14025101 ∧
        old.mode = freq2mode scenarioEnv 14025101 (scenarioEnv.freq2band 14025101)) ∧
      refreshed scenarioEnv old 14025101 ' ' ∈ bandmap_addspot scenarioEnv
        [scenarioSpot "K1A" 14024000 7, scenarioSpot "W1ABC" 14025000 450]
        "W1ABC" 14025101 ' ' ∧
      (freq_t.DISTANCE (freq_t.ofNat old.freq) 14025101 > freq_t.ofNat TOLERANCE →
        (refreshed scenarioEnv old 14025101 ' ').freq = freq_t.toNat 14025101) ∧
      (freq_t.DISTANCE (freq_t.ofNat old.freq) 14025101 ≤ freq_t.ofNat TOLERANCE →
        (refreshed scenarioEnv old 14025101 ' ').freq = old.freq) ∧
      (∀ n : Nat, (14025101 : freq_t) = freq_t.ofNat n → DISTANCE old.freq n > TOLERANCE →
        (refreshed scenarioEnv old 14025101 ' ').freq = n) ∧
      (uniqueKey [scenarioSpot "K1A" 14024000 7, scenarioSpot "W1ABC" 14025000 450] →
        (∀ r ∈ [scenarioSpot "K1A" 14024000 7, scenarioSpot "W1ABC" 14025000 450],
          (r.call = "W1ABC" ∧ r.band = scenarioEnv.freq2band 14025101 ∧
            r.mode = freq2mode scenarioEnv 14025101 (scenarioEnv.freq2band 14025101)) →
            r = old) ∧
        (∀ r ∈ bandmap_addspot scenarioEnv
            [scenarioSpot "K1A" 14024000 7, scenarioSpot "W1ABC" 14025000 450]
            "W1ABC" 14025101 ' ',
          (r.call = "W1ABC" ∧ r.band = scenarioEnv.freq2band 14025101 ∧
            r.mode = freq2mode scenarioEnv 14025101 (scenarioEnv.freq2band 14025101)) →
            r = refreshed scenarioEnv old 14025101 ' ')) :=
  refresh_frequency_rule scenarioEnv
    [scenarioSpot "K1A" 14024000 7, scenarioSpot "W1ABC" 14025000 450] "W1ABC" 14025101 ' '
    (by decide) (by decide) ⟨scenarioSpot "W1ABC" 14025000 450, by decide, by decide⟩

/-- C8, rejection is a silent no-op: if the frequency is above 30 000 000 Hz or
`freq2band` maps it to `BANDINDEX_OOB`, `bandmap_addspot` returns the store
unchanged. -/
theorem rejection_noop (E : Env) (s : List spot) (call : String) (freq : freq_t) (node : Char)
    (h : freq > freq_t.ofNat 30000000 ∨ E.freq2band freq = E.BANDINDEX_OOB) :
    bandmap_addspot E s call freq node = s := by
  unfold bandmap_addspot
  rcases h with h | h
  · rw [if_pos h]
  · split_ifs <;> rfl

theorem rejection_noop_witness :
    bandmap_addspot scenarioEnv [scenarioSpot "W1ABC" 14025000 450] "K1A" 50110000 ' '
      = [scenarioSpot "W1ABC" 14025000 450] ∧
    bandmap_addspot scenarioEnv [scenarioSpot "W1ABC" 14025000 450] "K1A" 13999000 ' '
      = [scenarioSpot "W1ABC" 14025000 450] :=
  ⟨rejection_noop scenarioEnv _ "K1A" 50110000 ' ' (Or.inl (by decide)),
    rejection_noop scenarioEnv _ "K1A" 13999000 ' ' (Or.inr (by decide))⟩

/-- C9, mode classification as the specification words it, refuted: a frequency
exactly on the CW corner is not below the CW corner and is below the SSB corner,
yet `freq2mode` classifies it as CW, not as DIGI. -/
theorem mode_classification_counterexample :
    ¬ (14070000 < scenarioEnv.cwcorner 5) ∧ 14070000 < scenarioEnv.ssbcorner 5 ∧
    freq2mode scenarioEnv 14070000 5 = CWMODE ∧
    freq2mode scenarioEnv 14070000 5 ≠ DIGIMODE := by
  decide

/-- C9, mode classification as the code has it: `freq2mode(freq, band)` is CW when
the frequency is at or below the CW corner of the band, DIGI when it is above the
CW corner and below the SSB corner, and SSB otherwise; the result is always one
of CW, DIGI, SSB. -/
theorem mode_classification (E : Env) (freq : freq_t) (band : Int) :
    (freq ≤ freq_t.ofNat (E.cwcorner band) → freq2mode E freq band = CWMODE) ∧
    (freq_t.ofNat (E.cwcorner band) < freq → freq < freq_t.ofNat (E.ssbcorner band) →
      freq2mode E freq band = DIGIMODE) ∧
    (freq_t.ofNat (E.cwcorner band) < freq → freq_t.ofNat (E.ssbcorner band) ≤ freq →
      freq2mode E freq band = SSBMODE) ∧
    (freq2mode E freq band = CWMODE ∨ freq2mode E freq band = DIGIMODE ∨
      freq2mode E freq band = SSBMODE) := by
  unfold freq2mode
  refine ⟨fun h => by rw [if_pos h], fun h1 h2 => ?_, fun h1 h2 => ?_, ?_⟩
  · rw [if_neg ((freq_not_le _ _).2 h1), if_pos h2]
  · rw [if_neg ((freq_not_le _ _).2 h1), if_neg ((freq_not_lt _ _).2 h2)]
  · split_ifs
    · exact Or.inl rfl
    · exact Or.inr (Or.inl rfl)
    · exact Or.inr (Or.inr rfl)

theorem mode_classification_witness :
    freq2mode scenarioEnv 14070000 5 = CWMODE ∧
    freq2mode scenarioEnv 14070001 5 = DIGIMODE ∧
    freq2mode scenarioEnv 14100000 5 = SSBMODE :=
  ⟨(mode_classification scenarioEnv 14070000 5).1 (by decide),
    (mode_classification scenarioEnv 14070001 5).2.1 (by decide) (by decide),
    (mode_classification scenarioEnv 14100000 5).2.2.1 (by decide) (by decide)⟩

/-- C10, TTL decay: for every store whose records have a timeout of at least 1, as
every record of the data model has (and for every store whatsoever once a tick
has run, `k >= 1`), `k` consecutive calls of `bandmap_age` leave, in the same
order, exactly the records whose timeout `t` exceeds `k`, each with timeout
`t - k` and all other fields unchanged; the records with `t <= k` are gone, and a
store all of whose timeouts are at most `k` (for instance all equal to the fresh
constant `k`) is empty afterwards. -/
theorem ttl_decay (s : List spot) (k : Nat) (h : 1 ≤ k ∨ ∀ r ∈ s, 1 ≤ r.timeout) :
    Nat.iterate bandmap_age k s = s.filterMap (decay k) ∧
    (∀ r ∈ s, k < r.timeout →
      { r with timeout := r.timeout - k } ∈ Nat.iterate bandmap_age k s) ∧
    (∀ r1 ∈ Nat.iterate bandmap_age k s,
      ∃ r ∈ s, k < r.timeout ∧ r1 = { r with timeout := r.timeout - k }) ∧
    ((∀ r ∈ s, r.timeout ≤ k) → Nat.iterate bandmap_age k s = []) := by
  have heq := age_iterate s k h
  refine ⟨heq, ?_, ?_, ?_⟩
  · intro r hr hk
    rw [heq, List.mem_filterMap]
    exact ⟨r, hr, by simp [decay, hk]⟩
  · intro r1 hr1
    rw [heq, List.mem_filterMap] at hr1
    obtain ⟨r, hr, hd⟩ := hr1
    unfold decay at hd
    split_ifs at hd with hk
    simp only [Option.some.injEq] at hd
    exact ⟨r, hr, hk, hd.symm⟩
  · intro hall
    rw [heq, List.filterMap_eq_nil_iff]
    intro r hr
    have := hall r hr
    simp [decay]
    omega

theorem ttl_decay_witness :
    Nat.iterate bandmap_age 3 [scenarioSpot "K1A" 14024000 7, scenarioSpot "W1ABC" 14025000 3]
      = [scenarioSpot "K1A" 14024000 7, scenarioSpot "W1ABC" 14025000 3].filterMap (decay 3) ∧
    (∀ r ∈ [scenarioSpot "K1A" 14024000 7, scenarioSpot "W1ABC" 14025000 3], 3 < r.timeout →
      { r with timeout := r.timeout - 3 } ∈ Nat.iterate bandmap_age 3
        [scenarioSpot "K1A" 14024000 7, scenarioSpot "W1ABC" 14025000 3]) ∧
    (∀ r1 ∈ Nat.iterate bandmap_age 3
        [scenarioSpot "K1A" 14024000 7, scenarioSpot "W1ABC" 14025000 3],
      ∃ r ∈ [scenarioSpot "K1A" 14024000 7, scenarioSpot "W1ABC" 14025000 3],
        3 < r.timeout ∧ r1 = { r with timeout := r.timeout - 3 }) ∧
    ((∀ r ∈ [scenarioSpot "K1A" 14024000 7, scenarioSpot "W1ABC" 14025000 3],
      r.timeout ≤ 3) → Nat.iterate bandmap_age 3
        [scenarioSpot "K1A" 14024000 7, scenarioSpot "W1ABC" 14025000 3] = []) :=
  ttl_decay [scenarioSpot "K1A" 14024000 7, scenarioSpot "W1ABC" 14025000 3] 3
    (Or.inl (by decide))

/-! ## What the neighbour cleanup removes -/

theorem drop_prev_removed (freq : freq_t) (P : List spot) :
    ∃ P1 R : List spot, drop_prev freq (P.map other) = P1.map other ∧ P = P1 ++ R ∧
      ∀ r ∈ R, freq_t.DISTANCE (freq_t.ofNat r.freq) freq < freq_t.ofNat TOLERANCE := by
  rcases List.eq_nil_or_concat P with rfl | ⟨B, p, rfl⟩
  · exact ⟨[], [], rfl, rfl, by simp⟩
  · rw [List.concat_eq_append, List.map_append, List.map_singleton, drop_prev_concat]
    by_cases hd : freq_t.DISTANCE (freq_t.ofNat p.freq) freq < freq_t.ofNat TOLERANCE
    · exact ⟨B, [p], by simp [other, hd], rfl, by simpa using hd⟩
    · exact ⟨B ++ [p], [], by simp [other, hd], by simp, by simp⟩

theorem drop_next_removed (freq : freq_t) (Q : List spot) :
    ∃ Q1 R : List spot, drop_next freq (Q.map other) = Q1.map other ∧ Q = R ++ Q1 ∧
      ∀ r ∈ R, freq_t.DISTANCE (freq_t.ofNat r.freq) freq < freq_t.ofNat TOLERANCE := by
  cases Q with
  | nil => exact ⟨[], [], rfl, rfl, by simp⟩
  | cons n rest =>
    by_cases hd : freq_t.DISTANCE (freq_t.ofNat n.freq) freq < freq_t.ofNat TOLERANCE
    · exact ⟨rest, [n], by simp [drop_next, other, hd], rfl, by simpa using hd⟩
    · exact ⟨n :: rest, [], by simp [drop_next, other, hd], rfl, by simp⟩

theorem cleanup_removed (freq : freq_t) (P Q : List spot) (x : spot) :
    ∃ P1 Q1 R : List spot,
      (drop_neighbours freq (P.map other ++ target x :: Q.map other)).map Cell.data
        = P1 ++ x :: Q1 ∧
      ((P1 ++ Q1) ++ R).Perm (P ++ Q) ∧
      ∀ r ∈ R, freq_t.DISTANCE (freq_t.ofNat r.freq) freq < freq_t.ofNat TOLERANCE := by
  obtain ⟨P1, Rp, hP1, hP, hRp⟩ := drop_prev_removed freq P
  obtain ⟨Q1, Rq, hQ1, hQ, hRq⟩ := drop_next_removed freq Q
  refine ⟨P1, Q1, Rp ++ Rq, ?_, ?_, ?_⟩
  · rw [drop_neighbours_split, hP1, hQ1, List.map_append, List.map_cons,
      map_data_map_other, map_data_map_other]
    rfl
  · rw [hP, hQ]
    have h1 : (Q1 ++ (Rp ++ Rq)).Perm (Rp ++ (Rq ++ Q1)) := by
      rw [← List.append_assoc Rp Rq Q1]
      exact List.perm_append_comm
    simpa [List.append_assoc] using h1.append_left P1
  · intro r hr
    rcases List.mem_append.1 hr with hr | hr
    · exact hRp r hr
    · exact hRq r hr

/-- C12, eviction as the specification words it, refuted: in a frequency-sorted
store whose records are 100 Hz apart, K1A at 14024900 Hz and W1ABC at 14025000 Hz,
the spot W1ABC at 14024950 Hz refreshes W1ABC without moving it (50 Hz do not
exceed `TOLERANCE`), and yet K1A is removed, although it is not less than 100 Hz
from the 14025000 Hz that W1ABC holds afterwards and nothing was inserted or
moved.  Likewise the new call W1ABC coming in at 14025000.5 Hz is stored at
14025000 Hz and removes N5X at 14025100 Hz, which is not less than 100 Hz from the
stored frequency. -/
theorem eviction_counterexample :
    sortedByFreq [scenarioSpot "K1A" 14024900 7, scenarioSpot "W1ABC" 14025000 450] ∧
    apart [scenarioSpot "K1A" 14024900 7, scenarioSpot "W1ABC" 14025000 450] ∧
    bandmap_addspot scenarioEnv
        [scenarioSpot "K1A" 14024900 7, scenarioSpot "W1ABC" 14025000 450] "W1ABC" 14024950 ' '
      = [scenarioSpot "W1ABC" 14025000 900] ∧
    ¬ DISTANCE (scenarioSpot "K1A" 14024900 7).freq (scenarioSpot "W1ABC" 14025000 900).freq
        < TOLERANCE ∧
    bandmap_addspot scenarioEnv [scenarioSpot "N5X" 14025100 7]
        "W1ABC" (freq_t.half 14025000) ' '
      = [scenarioSpot "W1ABC" 14025000 900] ∧
    ¬ DISTANCE (scenarioSpot "N5X" 14025100 7).freq (scenarioSpot "W1ABC" 14025000 900).freq
        < TOLERANCE := by
  decide

/-- C12, eviction as the code has it: for every store and every accepted spot, the
store after `bandmap_addspot` consists of the touched record and of records of
the old store, unchanged; every record of the old store that is missing
afterwards (other than the one that was refreshed) lies less than 100 Hz from the
incoming frequency `freq`, whose whole Hertz are the frequency the touched record
holds afterwards whenever it was inserted or moved; when it was refreshed without
being moved it keeps a stored frequency at most 100 Hz from `freq`. -/
theorem eviction_limited (E : Env) (s : List spot) (call : String) (freq : freq_t) (node : Char)
    (h1 : freq ≤ freq_t.ofNat 30000000) (h2 : E.freq2band freq ≠ E.BANDINDEX_OOB) :
    ∃ before after removed : List spot,
      bandmap_addspot E s call freq node
        = before ++ touched E s call freq (E.freq2band freq)
            (freq2mode E freq (E.freq2band freq)) node :: after ∧
      ((before ++ after) ++ removed).Perm
        (untouched s call (E.freq2band freq) (freq2mode E freq (E.freq2band freq))) ∧
      (∀ r ∈ removed,
        freq_t.DISTANCE (freq_t.ofNat r.freq) freq < freq_t.ofNat TOLERANCE) ∧
      ((touched E s call freq (E.freq2band freq)
          (freq2mode E freq (E.freq2band freq)) node).freq = freq.toNat ∨
        ∃ pre old post,
          find_spot call (E.freq2band freq) (freq2mode E freq (E.freq2band freq)) s
            = some (pre, old, post) ∧
          ¬ freq_t.DISTANCE (freq_t.ofNat old.freq) freq > freq_t.ofNat TOLERANCE ∧
          (touched E s call freq (E.freq2band freq)
            (freq2mode E freq (E.freq2band freq)) node).freq = old.freq) := by
  obtain ⟨P, Q, hshape, hperm⟩ := touch_shape E s call freq (E.freq2band freq)
    (freq2mode E freq (E.freq2band freq)) node
  obtain ⟨P1, Q1, R, hres, hp, hR⟩ := cleanup_removed freq P Q
    (touched E s call freq (E.freq2band freq) (freq2mode E freq (E.freq2band freq)) node)
  refine ⟨P1, Q1, R, ?_, hp.trans hperm, hR, touched_freq E s call freq _ _ node⟩
  rw [addspot_accepted E s call freq node h1 h2, hshape, hres]

theorem eviction_limited_witness :
    ∃ before after removed : List spot,
      bandmap_addspot scenarioEnv
          [scenarioSpot "K1A" 14024900 7, scenarioSpot "W1ABC" 14025000 450]
          "W1ABC" 14024950 ' '
        = before ++ touched scenarioEnv
            [scenarioSpot "K1A" 14024900 7, scenarioSpot "W1ABC" 14025000 450]
            "W1ABC" 14024950 (scenarioEnv.freq2band 14024950)
            (freq2mode scenarioEnv 14024950 (scenarioEnv.freq2band 14024950)) ' ' :: after ∧
      ((before ++ after) ++ removed).Perm
        (untouched [scenarioSpot "K1A" 14024900 7, scenarioSpot "W1ABC" 14025000 450]
          "W1ABC" (scenarioEnv.freq2band 14024950)
          (freq2mode scenarioEnv 14024950 (scenarioEnv.freq2band 14024950))) ∧
      (∀ r ∈ removed,
        freq_t.DISTANCE (freq_t.ofNat r.freq) 14024950 < freq_t.ofNat TOLERANCE) ∧
      ((touched scenarioEnv
          [scenarioSpot "K1A" 14024900 7, scenarioSpot "W1ABC" 14025000 450]
          "W1ABC" 14024950 (scenarioEnv.freq2band 14024950)
          (freq2mode scenarioEnv 14024950 (scenarioEnv.freq2band 14024950)) ' ').freq
            = freq_t.toNat 14024950 ∨
        ∃ pre old post,
          find_spot "W1ABC" (scenarioEnv.freq2band 14024950)
              (freq2mode scenarioEnv 14024950 (scenarioEnv.freq2band 14024950))
              [scenarioSpot "K1A" 14024900 7, scenarioSpot "W1ABC" 14025000 450]
            = some (pre, old, post) ∧
          ¬ freq_t.DISTANCE (freq_t.ofNat old.freq) 14024950 > freq_t.ofNat TOLERANCE ∧
          (touched scenarioEnv
            [scenarioSpot "K1A" 14024900 7, scenarioSpot "W1ABC" 14025000 450]
            "W1ABC" 14024950 (scenarioEnv.freq2band 14024950)
            (freq2mode scenarioEnv 14024950 (scenarioEnv.freq2band 14024950)) ' ').freq
              = old.freq) :=
  eviction_limited scenarioEnv
    [scenarioSpot "K1A" 14024900 7, scenarioSpot "W1ABC" 14025000 450] "W1ABC" 14024950 ' '
    (by decide) (by decide)

/-! ## Loading the snapshot -/

theorem cmp_freq_pos (x y : spot) : cmp_freq x y > 0 ↔ y.freq < x.freq := by
  unfold cmp_freq; split_ifs <;> omega

theorem insert_sorted_sorted_spot (x : spot) :
    ∀ l : List spot, sortedByFreq l → sortedByFreq (g_list_insert_sorted cmp_freq l x)
  | [], _ => List.pairwise_singleton _ _
  | y :: l, h => by
    unfold g_list_insert_sorted
    have h0 := List.pairwise_cons.1 h
    split_ifs with hc
    · rw [cmp_freq_pos] at hc
      refine List.pairwise_cons.2 ⟨?_, insert_sorted_sorted_spot x l h0.2⟩
      intro b hb
      rcases List.mem_cons.1 ((insert_sorted_perm cmp_freq x l).subset hb) with rfl | hb
      · exact hc.le
      · exact h0.1 b hb
    · rw [cmp_freq_pos] at hc
      refine List.pairwise_cons.2 ⟨?_, h⟩
      intro b hb
      rcases List.mem_cons.1 hb with rfl | hb
      · omega
      · exact le_trans (by omega) (h0.1 b hb)

theorem read_entries_perm (k : Nat) :
    ∀ (lines : List (List Char)) (acc : List spot),
      (read_entries k lines acc).Perm (acc ++ (lines.map parse_line).filterMap (decay k))
  | [], acc => by simp [read_entries]
  | line :: rest, acc => by
    unfold read_entries
    by_cases h : (parse_line line).timeout > k
    · have hd : decay k (parse_line line)
          = some { parse_line line with timeout := (parse_line line).timeout - k } := by
        simp only [decay, gt_iff_lt] at h ⊢
        rw [if_pos h]
      rw [if_pos h, List.map_cons, List.filterMap_cons_some hd]
      refine (read_entries_perm k rest _).trans ?_
      refine ((insert_sorted_perm cmp_freq _ acc).append_right _).trans ?_
      exact List.perm_middle.symm
    · have hd : decay k (parse_line line) = none := by
        simp only [decay, gt_iff_lt] at h ⊢
        rw [if_neg h]
      rw [if_neg h, List.map_cons, List.filterMap_cons_none hd]
      exact read_entries_perm k rest acc

theorem read_entries_sorted (k : Nat) :
    ∀ (lines : List (List Char)) (acc : List spot), sortedByFreq acc →
      sortedByFreq (read_entries k lines acc)
  | [], acc, h => h
  | line :: rest, acc, h => by
    unfold read_entries
    split_ifs
    · exact read_entries_sorted k rest _ (insert_sorted_sorted_spot _ acc h)
    · exact read_entries_sorted k rest acc h

/-- C20, load TTL adjustment: when the file opens and its first line is read, then
with `elapsed = max(0, now - saved_time)`, `bmdata_read_file` on an empty store
(first invocation) yields exactly the entries parsed from the following lines
whose persisted timeout is greater than `elapsed`, each with its timeout reduced
by `elapsed` (hence at least 1) and every other field as parsed, arranged in
non-decreasing frequency order; the entries whose timeout would be `<= 0` are
discarded. -/
theorem load_ttl_adjustment (text first : List Char) (lines : List (List Char))
    (now stack : Int) (hfile : fgets_all 50 text [] = first :: lines) :
    (bmdata_read_file ⟨[], false⟩ (some text) now stack).allspots.Perm
      ((lines.map parse_line).filterMap (decay (elapsed now (saved_time first stack)))) ∧
    sortedByFreq (bmdata_read_file ⟨[], false⟩ (some text) now stack).allspots ∧
    (∀ r ∈ (bmdata_read_file ⟨[], false⟩ (some text) now stack).allspots,
      1 ≤ r.timeout ∧
      ∃ line ∈ lines, elapsed now (saved_time first stack) < (parse_line line).timeout ∧
        r = { parse_line line with
              timeout := (parse_line line).timeout - elapsed now (saved_time first stack) }) ∧
    (∀ line ∈ lines, elapsed now (saved_time first stack) < (parse_line line).timeout →
      { parse_line line with
        timeout := (parse_line line).timeout - elapsed now (saved_time first stack) }
        ∈ (bmdata_read_file ⟨[], false⟩ (some text) now stack).allspots) ∧
    (elapsed now (saved_time first stack) : Int) = max 0 (now - saved_time first stack) := by
  have hload : (bmdata_read_file ⟨[], false⟩ (some text) now stack).allspots
      = read_entries (elapsed now (saved_time first stack)) lines [] := by
    simp [bmdata_read_file, hfile]
  have hperm := read_entries_perm (elapsed now (saved_time first stack)) lines []
  rw [List.nil_append] at hperm
  rw [hload]
  refine ⟨hperm, read_entries_sorted _ lines [] List.Pairwise.nil, ?_, ?_, ?_⟩
  · intro r hr
    have hr2 := hperm.subset hr
    rw [List.mem_filterMap] at hr2
    obtain ⟨e, he, hd⟩ := hr2
    rw [List.mem_map] at he
    obtain ⟨line, hl, rfl⟩ := he
    unfold decay at hd
    split_ifs at hd with hk
    simp only [Option.some.injEq] at hd
    subst hd
    exact ⟨by simp only; omega, line, hl, hk, rfl⟩
  · intro line hl hk
    refine hperm.symm.subset ?_
    rw [List.mem_filterMap]
    exact ⟨parse_line line, List.mem_map_of_mem _ hl, by simp [decay, hk]⟩
  · unfold elapsed
    split_ifs with h
    · rw [max_eq_left (by omega)]; rfl
    · rw [max_eq_right (by omega)]
      exact Int.toNat_of_nonneg (by omega)

theorem load_ttl_adjustment_witness :
    (bmdata_read_file ⟨[], false⟩
      (some "1700000000\nW1ABC;14025000;0;5; ;900;0;5;291;K\nK1A;14020000;0;5;A;7;0;5;291;K\n".data)
      1700000010 0).allspots
      = [{ call := "W1ABC", freq := 14025000, mode := 0, band := 5, node := ' ', timeout := 890,
           dupe := 0, cqzone := 5, ctynr := 291, pfx := "K\n" }] ∧
    (elapsed 1700000010 (saved_time "1700000000\n".data 0) : Int)
      = max 0 (1700000010 - saved_time "1700000000\n".data 0) :=
  ⟨by decide,
    (load_ttl_adjustment
      "1700000000\nW1ABC;14025000;0;5; ;900;0;5;291;K\nK1A;14020000;0;5;A;7;0;5;291;K\n".data
      "1700000000\n".data
      ["W1ABC;14025000;0;5; ;900;0;5;291;K\n".data, "K1A;14020000;0;5;A;7;0;5;291;K\n".data]
      1700000010 0 (by decide)).2.2.2.2⟩

/-! ## Range of the timeouts -/

theorem age_timeout_pos (s : List spot) : ∀ r ∈ bandmap_age s, 1 ≤ r.timeout := by
  intro r hr
  rw [age_eq_filterMap, List.mem_filterMap] at hr
  obtain ⟨a, -, hd⟩ := hr
  unfold decay at hd
  split_ifs at hd with hk
  simp only [Option.some.injEq] at hd
  subst hd
  simp only
  omega

theorem age_timeout_le (s : List spot) (B : Nat) (h : ∀ r ∈ s, r.timeout ≤ B) :
    ∀ r ∈ bandmap_age s, r.timeout ≤ B := by
  intro r hr
  rw [age_eq_filterMap, List.mem_filterMap] at hr
  obtain ⟨a, ha, hd⟩ := hr
  unfold decay at hd
  split_ifs at hd with hk
  simp only [Option.some.injEq] at hd
  subst hd
  have := h a ha
  simp only
  omega

theorem addspot_timeout (p : Nat → Prop) (E : Env) (s : List spot) (call : String)
    (freq : freq_t) (node : Char) (hs : ∀ r ∈ s, p r.timeout) (hnew : p E.SPOT_NEW) :
    ∀ r ∈ bandmap_addspot E s call freq node, p r.timeout := by
  by_cases h1 : freq ≤ freq_t.ofNat 30000000
  · by_cases h2 : E.freq2band freq = E.BANDINDEX_OOB
    · unfold bandmap_addspot
      rw [if_neg ((freq_not_lt _ _).2 h1), if_pos h2]
      exact hs
    · obtain ⟨P, Q, P1, Q1, -, hperm, hres, hP, hQ⟩ := addspot_spec E s call freq node h1 h2
      obtain ⟨-, -, -, ht, -⟩ := touched_fields E s call freq (E.freq2band freq)
        (freq2mode E freq (E.freq2band freq)) node
      have hold : ∀ r ∈ P ++ Q, p r.timeout := fun r hr =>
        hs r ((untouched_sublist s call _ _).subset (hperm.subset hr))
      intro r hr
      rw [hres] at hr
      rcases List.mem_append.1 hr with hr | hr
      · exact hold r (List.mem_append_left _ (hP.subset hr))
      · rcases List.mem_cons.1 hr with rfl | hr
        · rw [ht]; exact hnew
        · exact hold r (List.mem_append_right _ (hQ.subset hr))
  · unfold bandmap_addspot
    rw [if_pos ((freq_not_le _ _).1 h1)]
    exact hs

theorem load_timeout_pos (st : LoadState) (file : Option (List Char)) (now stack : Int)
    (h : ∀ r ∈ st.allspots, 1 ≤ r.timeout) :
    ∀ r ∈ (bmdata_read_file st file now stack).allspots, 1 ≤ r.timeout := by
  unfold bmdata_read_file
  split_ifs
  · exact h
  · cases file with
    | none => exact h
    | some text =>
      cases hf : fgets_all 50 text [] with
      | nil => simpa [hf] using h
      | cons first lines =>
        simp only [hf]
        intro r hr
        have hr2 := (read_entries_perm _ lines st.allspots).subset hr
        rcases List.mem_append.1 hr2 with hr2 | hr2
        · exact h r hr2
        · rw [List.mem_filterMap] at hr2
          obtain ⟨a, -, hd⟩ := hr2
          unfold decay at hd
          split_ifs at hd with hk
          simp only [Option.some.injEq] at hd
          subst hd
          simp only
          omega

/-- C11, TTL range as the specification words it, refuted: with the fresh constant
900, loading a snapshot whose record carries a timeout of 5000 (saved zero seconds
ago) puts a record with timeout 5000 > 900 into the store; and with a fresh
constant of 0, `bandmap_addspot` on the empty store leaves a record whose timeout
is 0. -/
theorem ttl_range_counterexample :
    ReachableLoad scenarioEnv
      (bmdata_read_file ⟨[], false⟩ (some "0\nW1ABC;14025000;0;5; ;5000;0;5;291;K\n".data) 0 0) ∧
    (∃ r ∈ (bmdata_read_file ⟨[], false⟩
        (some "0\nW1ABC;14025000;0;5; ;5000;0;5;291;K\n".data) 0 0).allspots,
      r.timeout > scenarioEnv.SPOT_NEW) ∧
    ReachableLoad { scenarioEnv with SPOT_NEW := 0 }
      ⟨bandmap_addspot { scenarioEnv with SPOT_NEW := 0 } [] "W1ABC" 14025000 ' ', false⟩ ∧
    (∃ r ∈ bandmap_addspot { scenarioEnv with SPOT_NEW := 0 } [] "W1ABC" 14025000 ' ',
      r.timeout = 0) :=
  ⟨ReachableLoad.load _ _ _ _ ReachableLoad.init, by decide,
    ReachableLoad.addspot ⟨[], false⟩ "W1ABC" 14025000 ' ' ReachableLoad.init, by decide⟩

/-- C11, TTL range as the code has it: with a fresh constant `SPOT_NEW` of at
least 1, every record of every store reachable from the empty store by
`bandmap_addspot`, `bandmap_age` and `bmdata_read_file` has a timeout of at least
1 (no record has timeout 0), and every record of every store reachable by
`bandmap_addspot` and `bandmap_age` alone has a timeout between 1 and
`SPOT_NEW`. -/
theorem ttl_range (E : Env) (hfresh : 1 ≤ E.SPOT_NEW) :
    (∀ st : LoadState, ReachableLoad E st → ∀ r ∈ st.allspots, 1 ≤ r.timeout) ∧
    (∀ s : List spot, ReachableIn E s → ∀ r ∈ s, 1 ≤ r.timeout ∧ r.timeout ≤ E.SPOT_NEW) := by
  constructor
  · intro st h
    induction h with
    | init => simp
    | addspot st call freq node _ ih =>
      exact addspot_timeout (fun t => 1 ≤ t) E st.allspots call freq node ih hfresh
    | age st _ _ => exact age_timeout_pos st.allspots
    | load st file now stack _ ih => exact load_timeout_pos st file now stack ih
  · intro s h
    induction h with
    | empty => simp
    | addspot s call freq node _ ih =>
      exact addspot_timeout (fun t => 1 ≤ t ∧ t ≤ E.SPOT_NEW) E s call freq node ih
        ⟨hfresh, le_refl _⟩
    | age s _ ih =>
      exact fun r hr => ⟨age_timeout_pos s r hr,
        age_timeout_le s E.SPOT_NEW (fun a ha => (ih a ha).2) r hr⟩

theorem ttl_range_witness :
    (∀ st : LoadState, ReachableLoad scenarioEnv st → ∀ r ∈ st.allspots, 1 ≤ r.timeout) ∧
    (∀ s : List spot, ReachableIn scenarioEnv s →
      ∀ r ∈ s, 1 ≤ r.timeout ∧ r.timeout ≤ scenarioEnv.SPOT_NEW) :=
  ttl_range scenarioEnv (by decide)

/-! ## The window computation -/

theorem count_below_le (c : Int) : ∀ v : List spot, count_below c v ≤ v.length
  | [] => Nat.le_refl _
  | d :: v => by
    unfold count_below
    split_ifs
    · simpa using count_below_le c v
    · exact Nat.zero_le _

theorem count_below_stop (c : Int) :
    ∀ (v : List spot) (d : spot), v[count_below c v]? = some d →
      ¬ ((d.freq : Int) ≤ c - (TOLERANCE : Int))
  | [], d, h => by simp at h
  | a :: v, d, h => by
    unfold count_below at h
    split_ifs at h with ha
    · rw [List.getElem?_cons_succ] at h
      exact count_below_stop c v d h
    · simp only [List.getElem?_cons_zero, Option.some.injEq] at h
      subst h
      exact ha

theorem count_below_countP (c : Int) :
    ∀ v : List spot, sortedByFreq v →
      count_below c v = v.countP (fun d => decide ((d.freq : Int) ≤ c - (TOLERANCE : Int)))
  | [], _ => rfl
  | a :: v, h => by
    have h0 := List.pairwise_cons.1 h
    unfold count_below
    split_ifs with ha
    · rw [List.countP_cons_of_pos _ _ (by simpa using ha), count_below_countP c v h0.2]
    · rw [List.countP_cons_of_neg _ _ (by simpa using ha)]
      symm
      rw [List.countP_eq_zero]
      intro d hd
      have := h0.1 d hd
      simp only [decide_eq_true_eq]
      omega

theorem spot_on_qrg_le (c : Int) (v : List spot) (b : Nat) : spot_on_qrg c v b ≤ 1 := by
  unfold spot_on_qrg
  split
  · split_ifs <;> omega
  · omega

theorem spot_on_qrg_lt (c : Int) (v : List spot) (b : Nat) (h : spot_on_qrg c v b ≠ 0) :
    b < v.length := by
  unfold spot_on_qrg at h
  split at h
  · next d hd => exact (List.getElem?_eq_some_iff.1 hd).1
  · exact absurd rfl h

theorem spot_on_qrg_eq_one (c : Int) (v : List spot) (b : Nat) :
    spot_on_qrg c v b = 1 ↔ ∃ d, v[b]? = some d ∧ (d.freq : Int) ≤ c + (TOLERANCE : Int) := by
  unfold spot_on_qrg
  constructor
  · intro h
    split at h
    · next d hd =>
      split_ifs at h with h1
      exact ⟨d, hd, by omega⟩
    · omega
  · rintro ⟨d, hd, hle⟩
    rw [hd]
    simp only
    rw [if_pos (by omega)]

/-- C13, window counting: for every frequency-sorted view and center frequency,
`below_qrg` is the number of entries of the view whose frequency is at or below
`center - 100`; `on_qrg` is 1 exactly when the entry at index `below_qrg` exists
and its frequency is within `center - 100 .. center + 100`, and 0 otherwise; and
`below_qrg + on_qrg + above_qrg` is the length of the view. -/
theorem window_counting (N : Nat) (trx : Bool) (c : Int) (v : List spot)
    (hs : sortedByFreq v) :
    (bandmap_window N trx c v).below_qrg
      = v.countP (fun d => decide ((d.freq : Int) ≤ c - 100)) ∧
    ((bandmap_window N trx c v).on_qrg = 1 ↔
      ∃ d, v[(bandmap_window N trx c v).below_qrg]? = some d ∧
        c - 100 ≤ (d.freq : Int) ∧ (d.freq : Int) ≤ c + 100) ∧
    ((bandmap_window N trx c v).on_qrg = 1 ∨ (bandmap_window N trx c v).on_qrg = 0) ∧
    (bandmap_window N trx c v).below_qrg + (bandmap_window N trx c v).on_qrg
      + (bandmap_window N trx c v).above_qrg = v.length := by
  have hT : (TOLERANCE : Int) = 100 := rfl
  have hle := count_below_le c v
  have hon := spot_on_qrg_le c v (count_below c v)
  have hlt := spot_on_qrg_lt c v (count_below c v)
  refine ⟨?_, ?_, ?_, ?_⟩
  · have := count_below_countP c v hs
    rw [hT] at this
    exact this
  · show spot_on_qrg c v (count_below c v) = 1 ↔ _
    rw [spot_on_qrg_eq_one]
    constructor
    · rintro ⟨d, hd, hle2⟩
      have := count_below_stop c v d hd
      exact ⟨d, hd, by omega, by omega⟩
    · rintro ⟨d, hd, -, hle2⟩
      exact ⟨d, hd, by omega⟩
  · show spot_on_qrg c v (count_below c v) = 1 ∨ spot_on_qrg c v (count_below c v) = 0
    omega
  · show count_below c v + spot_on_qrg c v (count_below c v)
      + usub (usub v.length (count_below c v)) (spot_on_qrg c v (count_below c v)) = v.length
    unfold usub
    split_ifs <;> omega

theorem window_counting_witness :
    (bandmap_window 10 true 14025000
        [scenarioSpot "K1A" 14024000 7, scenarioSpot "W1ABC" 14025050 3,
          scenarioSpot "N5X" 14030000 3]).below_qrg
      = [scenarioSpot "K1A" 14024000 7, scenarioSpot "W1ABC" 14025050 3,
          scenarioSpot "N5X" 14030000 3].countP
          (fun d => decide ((d.freq : Int) ≤ 14025000 - 100)) ∧
    ((bandmap_window 10 true 14025000
        [scenarioSpot "K1A" 14024000 7, scenarioSpot "W1ABC" 14025050 3,
          scenarioSpot "N5X" 14030000 3]).below_qrg = 1 ∧
      (bandmap_window 10 true 14025000
        [scenarioSpot "K1A" 14024000 7, scenarioSpot "W1ABC" 14025050 3,
          scenarioSpot "N5X" 14030000 3]).on_qrg = 1 ∧
      (bandmap_window 10 true 14025000
        [scenarioSpot "K1A" 14024000 7, scenarioSpot "W1ABC" 14025050 3,
          scenarioSpot "N5X" 14030000 3]).above_qrg = 1) :=
  ⟨(window_counting 10 true 14025000
      [scenarioSpot "K1A" 14024000 7, scenarioSpot "W1ABC" 14025050 3,
        scenarioSpot "N5X" 14030000 3] (by decide)).1, by decide⟩

/-- The arithmetic of the window computation, on the values of the local
variables. -/
theorem window_arith (N b o L a m s t : Nat)
    (ha : a = usub (usub L b) o)
    (hm : m = if a < (N - 1) / 2 then usub (usub N a) 1 else N / 2)
    (hs : s = if b < m then 0 else usub b m)
    (ht : t = if L < usub (s + N) (usub 1 o) then L else usub (s + N) (usub 1 o))
    (hb : b ≤ L) (ho : o ≤ 1) (hlt : o ≠ 0 → b < L) (hN : 1 ≤ N) :
    b + o + a = L ∧
    ((a < (N - 1) / 2 ∧ m = N - a - 1) ∨ ((N - 1) / 2 ≤ a ∧ m = N / 2)) ∧
    ((b < m ∧ s = 0) ∨ (m ≤ b ∧ s = b - m)) ∧
    ((L < s + N - 1 + o ∧ t = L) ∨ (s + N - 1 + o ≤ L ∧ t = s + N - 1 + o)) ∧
    (0 < s → N - 1 + o ≤ L - s) := by
  have ha1 : b + o + a = L := by
    rw [ha]; unfold usub; split_ifs <;> omega
  have hm1 : (a < (N - 1) / 2 ∧ m = N - a - 1) ∨ ((N - 1) / 2 ≤ a ∧ m = N / 2) := by
    rw [hm]; unfold usub; split_ifs <;> omega
  have hs1 : (b < m ∧ s = 0) ∨ (m ≤ b ∧ s = b - m) := by
    rw [hs]; unfold usub; split_ifs <;> omega
  have ht1 : (L < s + N - 1 + o ∧ t = L) ∨ (s + N - 1 + o ≤ L ∧ t = s + N - 1 + o) := by
    rw [ht]; unfold usub; split_ifs <;> omega
  refine ⟨ha1, hm1, hs1, ht1, ?_⟩
  intro h0
  omega

theorem window_facts (N : Nat) (trx : Bool) (c : Int) (v : List spot) (hN : 1 ≤ N) :
    (bandmap_window N trx c v).below_qrg ≤ v.length ∧
    (bandmap_window N trx c v).on_qrg ≤ 1 ∧
    (bandmap_window N trx c v).below_qrg + (bandmap_window N trx c v).on_qrg
      + (bandmap_window N trx c v).above_qrg = v.length ∧
    (((bandmap_window N trx c v).above_qrg < (N - 1) / 2 ∧
        (bandmap_window N trx c v).max_below = N - (bandmap_window N trx c v).above_qrg - 1) ∨
      ((N - 1) / 2 ≤ (bandmap_window N trx c v).above_qrg ∧
        (bandmap_window N trx c v).max_below = N / 2)) ∧
    (((bandmap_window N trx c v).below_qrg < (bandmap_window N trx c v).max_below ∧
        (bandmap_window N trx c v).startindex = 0) ∨
      ((bandmap_window N trx c v).max_below ≤ (bandmap_window N trx c v).below_qrg ∧
        (bandmap_window N trx c v).startindex
          = (bandmap_window N trx c v).below_qrg - (bandmap_window N trx c v).max_below)) ∧
    ((v.length < (bandmap_window N trx c v).startindex + N - 1 + (bandmap_window N trx c v).on_qrg ∧
        (bandmap_window N trx c v).stopindex = v.length) ∨
      ((bandmap_window N trx c v).startindex + N - 1 + (bandmap_window N trx c v).on_qrg
          ≤ v.length ∧
        (bandmap_window N trx c v).stopindex
          = (bandmap_window N trx c v).startindex + N - 1 + (bandmap_window N trx c v).on_qrg)) ∧
    (0 < (bandmap_window N trx c v).startindex →
      N - 1 + (bandmap_window N trx c v).on_qrg
        ≤ v.length - (bandmap_window N trx c v).startindex) := by
  have hb := count_below_le c v
  have ho := spot_on_qrg_le c v (count_below c v)
  have hlt := spot_on_qrg_lt c v (count_below c v)
  have h := window_arith N (count_below c v) (spot_on_qrg c v (count_below c v)) v.length
    (bandmap_window N trx c v).above_qrg (bandmap_window N trx c v).max_below
    (bandmap_window N trx c v).startindex (bandmap_window N trx c v).stopindex
    rfl rfl rfl rfl hb ho hlt hN
  exact ⟨hb, ho, h⟩

/-- C14, window balancing: for every view, center and capacity `N >= 1`,
`max_below` is `N - above - 1` if `above < (N - 1) / 2` and `N / 2` otherwise,
and the number of entries shown below the center, `below_qrg - startindex`, is
`min(below_qrg, max_below)`: at most `N / 2` when the above side has at least
`(N - 1) / 2` entries, and up to the capacity the above side leaves unused
otherwise. -/
theorem window_balancing (N : Nat) (trx : Bool) (c : Int) (v : List spot) (hN : 1 ≤ N) :
    (bandmap_window N trx c v).max_below
      = (if (bandmap_window N trx c v).above_qrg < (N - 1) / 2
          then N - (bandmap_window N trx c v).above_qrg - 1 else N / 2) ∧
    (bandmap_window N trx c v).below_qrg - (bandmap_window N trx c v).startindex
      = min (bandmap_window N trx c v).below_qrg (bandmap_window N trx c v).max_below ∧
    ((N - 1) / 2 ≤ (bandmap_window N trx c v).above_qrg →
      (bandmap_window N trx c v).below_qrg - (bandmap_window N trx c v).startindex ≤ N / 2) ∧
    ((bandmap_window N trx c v).above_qrg < (N - 1) / 2 →
      (bandmap_window N trx c v).below_qrg - (bandmap_window N trx c v).startindex
        = min (bandmap_window N trx c v).below_qrg
            (N - 1 - (bandmap_window N trx c v).above_qrg)) := by
  obtain ⟨-, -, -, hm, hs, -, -⟩ := window_facts N trx c v hN
  generalize (bandmap_window N trx c v).above_qrg = a at *
  generalize (bandmap_window N trx c v).max_below = m at *
  generalize (bandmap_window N trx c v).startindex = s at *
  generalize (bandmap_window N trx c v).below_qrg = b at *
  refine ⟨?_, ?_, ?_, ?_⟩
  · split_ifs <;> omega
  · rw [Nat.min_def]
    split_ifs <;> omega
  · intro h
    omega
  · intro h
    rw [Nat.min_def]
    split_ifs <;> omega

theorem window_balancing_witness :
    (bandmap_window 10 true 14030000
        [scenarioSpot "K1A" 14024000 7, scenarioSpot "W1ABC" 14025050 3,
          scenarioSpot "N5X" 14031000 3]).max_below
      = (if (bandmap_window 10 true 14030000
            [scenarioSpot "K1A" 14024000 7, scenarioSpot "W1ABC" 14025050 3,
              scenarioSpot "N5X" 14031000 3]).above_qrg < (10 - 1) / 2
          then 10 - (bandmap_window 10 true 14030000
            [scenarioSpot "K1A" 14024000 7, scenarioSpot "W1ABC" 14025050 3,
              scenarioSpot "N5X" 14031000 3]).above_qrg - 1 else 10 / 2) ∧
    (bandmap_window 10 true 14030000
        [scenarioSpot "K1A" 14024000 7, scenarioSpot "W1ABC" 14025050 3,
          scenarioSpot "N5X" 14031000 3]).max_below = 8 :=
  ⟨(window_balancing 10 true 14030000
      [scenarioSpot "K1A" 14024000 7, scenarioSpot "W1ABC" 14025050 3,
        scenarioSpot "N5X" 14031000 3] (by decide)).1, by decide⟩

/-- C15, the window fills the capacity when rig control is active: for every view,
center and capacity `N >= 1`, `stopindex - startindex` is
`min(len, N - 1 + on_qrg)`; whenever the whole view fits
(`len <= N - 1 + on_qrg`), `startindex` is 0 and `stopindex` is `len`, and an
empty view selects the empty range; nothing is changed after line 843. -/
theorem window_fills_capacity (N : Nat) (c : Int) (v : List spot) (hN : 1 ≤ N) :
    (bandmap_window N true c v).final_stopindex - (bandmap_window N true c v).startindex
      = min v.length (N - 1 + (bandmap_window N true c v).on_qrg) ∧
    (v.length ≤ N - 1 + (bandmap_window N true c v).on_qrg →
      (bandmap_window N true c v).startindex = 0 ∧
      (bandmap_window N true c v).final_stopindex = v.length) ∧
    (v = [] → (bandmap_window N true c v).startindex = 0 ∧
      (bandmap_window N true c v).final_stopindex = 0) ∧
    (bandmap_window N true c v).final_stopindex = (bandmap_window N true c v).stopindex ∧
    (bandmap_window N true c v).final_on_qrg = (bandmap_window N true c v).on_qrg ∧
    (bandmap_window N true c v).startindex ≤ (bandmap_window N true c v).final_stopindex := by
  obtain ⟨hb, ho, hsum, -, hs, ht, hfull⟩ := window_facts N true c v hN
  have hnil : v = [] → v.length = 0 := fun h => by rw [h]; rfl
  have hfin : (bandmap_window N true c v).final_stopindex
      = (bandmap_window N true c v).stopindex := rfl
  have hfon : (bandmap_window N true c v).final_on_qrg
      = (bandmap_window N true c v).on_qrg := rfl
  rw [hfin, hfon]
  generalize (bandmap_window N true c v).stopindex = t at *
  generalize (bandmap_window N true c v).startindex = s at *
  generalize (bandmap_window N true c v).on_qrg = o at *
  generalize (bandmap_window N true c v).below_qrg = b at *
  generalize (bandmap_window N true c v).max_below = m at *
  generalize v.length = L at *
  refine ⟨?_, ?_, ?_, rfl, rfl, ?_⟩
  · rw [Nat.min_def]
    split_ifs <;> omega
  · intro h
    omega
  · intro h
    have h0 := hnil h
    omega
  · omega

theorem window_fills_capacity_witness :
    ((bandmap_window 10 true 14030000
        [scenarioSpot "K1A" 14020000 7, scenarioSpot "K2B" 14021000 7,
          scenarioSpot "K3C" 14022000 7, scenarioSpot "K4D" 14023000 7,
          scenarioSpot "K5E" 14024000 7]).below_qrg = 5 ∧
      (bandmap_window 10 true 14030000
        [scenarioSpot "K1A" 14020000 7, scenarioSpot "K2B" 14021000 7,
          scenarioSpot "K3C" 14022000 7, scenarioSpot "K4D" 14023000 7,
          scenarioSpot "K5E" 14024000 7]).on_qrg = 0 ∧
      (bandmap_window 10 true 14030000
        [scenarioSpot "K1A" 14020000 7, scenarioSpot "K2B" 14021000 7,
          scenarioSpot "K3C" 14022000 7, scenarioSpot "K4D" 14023000 7,
          scenarioSpot "K5E" 14024000 7]).above_qrg = 0) ∧
    ((bandmap_window 10 true 14030000
        [scenarioSpot "K1A" 14020000 7, scenarioSpot "K2B" 14021000 7,
          scenarioSpot "K3C" 14022000 7, scenarioSpot "K4D" 14023000 7,
          scenarioSpot "K5E" 14024000 7]).startindex = 0 ∧
      (bandmap_window 10 true 14030000
        [scenarioSpot "K1A" 14020000 7, scenarioSpot "K2B" 14021000 7,
          scenarioSpot "K3C" 14022000 7, scenarioSpot "K4D" 14023000 7,
          scenarioSpot "K5E" 14024000 7]).final_stopindex = 5) :=
  ⟨by decide,
    (window_fills_capacity 10 14030000
      [scenarioSpot "K1A" 14020000 7, scenarioSpot "K2B" 14021000 7,
        scenarioSpot "K3C" 14022000 7, scenarioSpot "K4D" 14023000 7,
        scenarioSpot "K5E" 14024000 7] (by decide)).2.1 (by decide)⟩

/-- C16, the window without a center source as the specification words it,
refuted: with two display places and a view of five entries the first of which
is on the center frequency, the final `stopindex` without rig control is 2, the
`stopindex` of line 843, and not that value extended by one (3). -/
theorem window_no_center_counterexample :
    (bandmap_window 2 false 14020000
        [scenarioSpot "K1A" 14020000 7, scenarioSpot "K2B" 14021000 7,
          scenarioSpot "K3C" 14022000 7, scenarioSpot "K4D" 14023000 7,
          scenarioSpot "K5E" 14024000 7]).on_qrg = 1 ∧
    (bandmap_window 2 false 14020000
        [scenarioSpot "K1A" 14020000 7, scenarioSpot "K2B" 14021000 7,
          scenarioSpot "K3C" 14022000 7, scenarioSpot "K4D" 14023000 7,
          scenarioSpot "K5E" 14024000 7]).startindex = 0 ∧
    (bandmap_window 2 false 14020000
        [scenarioSpot "K1A" 14020000 7, scenarioSpot "K2B" 14021000 7,
          scenarioSpot "K3C" 14022000 7, scenarioSpot "K4D" 14023000 7,
          scenarioSpot "K5E" 14024000 7]).final_stopindex = 2 ∧
    min 5 (min 5 (0 + 2 - (1 - 1)) + 1) = 3 := by
  decide

/-- C16, the window without a center source as the code has it: for every view,
center and capacity `N >= 1`, when rig control is off the final `on_qrg` is 0;
the final `stopindex` is the `stopindex` of line 843,
`min(len, startindex + N - (1 - on_qrg))`, unchanged when an entry was found on
the center frequency (`on_qrg = 1`), and extended by one and clamped to `len`
when none was (`on_qrg = 0`). -/
theorem window_no_center (N : Nat) (c : Int) (v : List spot) (hN : 1 ≤ N) :
    (bandmap_window N false c v).final_on_qrg = 0 ∧
    (bandmap_window N false c v).stopindex
      = min v.length ((bandmap_window N false c v).startindex + N
          - (1 - (bandmap_window N false c v).on_qrg)) ∧
    ((bandmap_window N false c v).on_qrg = 1 →
      (bandmap_window N false c v).final_stopindex = (bandmap_window N false c v).stopindex) ∧
    ((bandmap_window N false c v).on_qrg = 0 →
      (bandmap_window N false c v).final_stopindex
        = min v.length ((bandmap_window N false c v).stopindex + 1)) := by
  obtain ⟨hb, ho, hsum, -, hs, ht, hfull⟩ := window_facts N false c v hN
  have hfin : (bandmap_window N false c v).final_stopindex
      = (if v.length < (if (bandmap_window N false c v).on_qrg ≠ 0
            then (bandmap_window N false c v).stopindex
            else (bandmap_window N false c v).stopindex + 1)
          then v.length
          else (if (bandmap_window N false c v).on_qrg ≠ 0
            then (bandmap_window N false c v).stopindex
            else (bandmap_window N false c v).stopindex + 1)) := rfl
  have hfon : (bandmap_window N false c v).final_on_qrg
      = (if (bandmap_window N false c v).on_qrg ≠ 0 then 0
          else (bandmap_window N false c v).on_qrg) := rfl
  rw [hfin, hfon]
  generalize (bandmap_window N false c v).stopindex = t at *
  generalize (bandmap_window N false c v).startindex = s at *
  generalize (bandmap_window N false c v).on_qrg = o at *
  generalize v.length = L at *
  refine ⟨?_, ?_, ?_, ?_⟩
  · split_ifs <;> omega
  · rw [Nat.min_def]
    split_ifs <;> omega
  · intro h
    split_ifs <;> omega
  · intro h
    rw [Nat.min_def]
    split_ifs <;> omega

theorem window_no_center_witness :
    (bandmap_window 2 false 14020000
        [scenarioSpot "K1A" 14020000 7, scenarioSpot "K2B" 14021000 7,
          scenarioSpot "K3C" 14022000 7]).final_on_qrg = 0 ∧
    (bandmap_window 2 false 14020500
        [scenarioSpot "K1A" 14020000 7, scenarioSpot "K2B" 14021000 7,
          scenarioSpot "K3C" 14022000 7]).final_stopindex
      = min 3 ((bandmap_window 2 false 14020500
        [scenarioSpot "K1A" 14020000 7, scenarioSpot "K2B" 14021000 7,
          scenarioSpot "K3C" 14022000 7]).stopindex + 1) :=
  ⟨(window_no_center 2 14020000
      [scenarioSpot "K1A" 14020000 7, scenarioSpot "K2B" 14021000 7,
        scenarioSpot "K3C" 14022000 7] (by decide)).1,
    (window_no_center 2 14020500
      [scenarioSpot "K1A" 14020000 7, scenarioSpot "K2B" 14021000 7,
        scenarioSpot "K3C" 14022000 7] (by decide)).2.2.2 (by decide)⟩

/-! ## The filtered view -/

theorem copy_spot_eq (d : spot) : copy_spot d = d := rfl

theorem passes_iff (S : ShowEnv) (r : spot) :
    passes S r = true ↔
      (¬ (S.iscontest = true ∧ S.IsWarcIndex r.band = true) ∧
        ¬ (bm_isdupe S r.call r.band = true ∧ S.showdupes = false) ∧
        ¬ (bm_ismulti S (with_dupe S r) = false ∧ S.onlymults = true) ∧
        (S.allband = true ∨ r.band = S.bandinx) ∧
        (S.allmode = true ∨ r.mode = S.trxmode)) := by
  unfold passes
  simp only [Bool.and_eq_true, Bool.not_eq_true', Bool.or_eq_true, beq_iff_eq,
    Bool.eq_false_iff, ne_eq]
  tauto

theorem filter_spots_view (S : ShowEnv) :
    ∀ store : List spot, (filter_spots S store).2 = spec_view S store
  | [] => rfl
  | d :: l => by
    have ih := filter_spots_view S l
    have hp := passes_iff S d
    unfold spec_view at ih ⊢
    unfold filter_spots
    simp only [copy_spot_eq]
    by_cases h : passes S d = true
    · rw [List.filter_cons_of_pos h, List.map_cons, ← ih]
      obtain ⟨h1, h2, h3, h4, h5⟩ := hp.1 h
      have e : ({ d with dupe := if bm_isdupe S d.call d.band = true then 1 else 0 } : spot)
          = with_dupe S d := rfl
      rw [e] at *
      have h3' : ¬ (¬ bm_ismulti S (with_dupe S d) = true ∧ S.onlymults = true) := by
        simpa using h3
      have h2' : ¬ (bm_isdupe S d.call d.band = true ∧ ¬ S.showdupes = true) := by
        simpa using h2
      have h45 : (S.allband = true ∨ d.band = S.bandinx) ∧
          (S.allmode = true ∨ d.mode = S.trxmode) := ⟨h4, h5⟩
      rw [if_neg h1, if_neg h2', if_neg h3', if_pos h45]
    · rw [List.filter_cons_of_neg h, ← ih]
      have e : ({ d with dupe := if bm_isdupe S d.call d.band = true then 1 else 0 } : spot)
          = with_dupe S d := rfl
      rw [e] at *
      split_ifs with h1 h2 h3 h45
      · rfl
      · rfl
      · rfl
      · exfalso
        apply h
        rw [hp]
        refine ⟨h1, ?_, ?_, h45.1, h45.2⟩
        · simpa using h2
        · simpa using h3
      · rfl

theorem filter_spots_store (S : ShowEnv) :
    ∀ store : List spot, (filter_spots S store).1 = store.map (with_dupe S)
  | [] => rfl
  | d :: l => by
    have ih := filter_spots_store S l
    unfold filter_spots
    simp only
    split_ifs <;> simp_all [with_dupe]

/-- C17, filtered view construction: the array built by `filter_spots` is exactly
the list of the records of the store that pass all filters, in store order, each
copied field for field with `dupe` set to `bm_isdupe(call, band)` (the store's own
records get the same `dupe`); a record passes iff it is not (contest mode and WARC
band), not (dupe and show-dupes off), not (non-multiplier per `bm_ismulti` and
only-multipliers on), and (all-bands on or on the current band) and (all-modes on
or in the current mode).  Hence the view is an order-preserving subsequence of
the store and is frequency-sorted whenever the store is. -/
theorem filtered_view (S : ShowEnv) (store : List spot) :
    (filter_spots S store).2 = (store.filter (passes S)).map (with_dupe S) ∧
    (filter_spots S store).1 = store.map (with_dupe S) ∧
    (∀ r : spot, passes S r = true ↔
      (¬ (S.iscontest = true ∧ S.IsWarcIndex r.band = true) ∧
        ¬ (bm_isdupe S r.call r.band = true ∧ S.showdupes = false) ∧
        ¬ (bm_ismulti S (with_dupe S r) = false ∧ S.onlymults = true) ∧
        (S.allband = true ∨ r.band = S.bandinx) ∧
        (S.allmode = true ∨ r.mode = S.trxmode))) ∧
    (∀ r : spot, (with_dupe S r).dupe = (if bm_isdupe S r.call r.band = true then 1 else 0) ∧
      (with_dupe S r).call = r.call ∧ (with_dupe S r).freq = r.freq ∧
      (with_dupe S r).mode = r.mode ∧ (with_dupe S r).band = r.band ∧
      (with_dupe S r).node = r.node ∧ (with_dupe S r).timeout = r.timeout ∧
      (with_dupe S r).cqzone = r.cqzone ∧ (with_dupe S r).ctynr = r.ctynr ∧
      (with_dupe S r).pfx = r.pfx) ∧
    (store.filter (passes S)).Sublist store ∧
    (filter_spots S store).2.Sublist (filter_spots S store).1 ∧
    (sortedByFreq store → sortedByFreq (filter_spots S store).2) := by
  have hv := filter_spots_view S store
  unfold spec_view at hv
  refine ⟨hv, filter_spots_store S store, passes_iff S,
    fun r => ⟨rfl, rfl, rfl, rfl, rfl, rfl, rfl, rfl, rfl, rfl⟩, List.filter_sublist _, ?_, ?_⟩
  · rw [hv, filter_spots_store]
    exact (List.filter_sublist _).map _
  · intro hs
    rw [hv]
    refine List.pairwise_map.2 ?_
    exact (hs.sublist (List.filter_sublist _))

theorem filtered_view_witness :
    (filter_spots scenarioShow
        [scenarioSpot "K1A" 14020000 7, scenarioSpot "W1ABC" 14025000 7]).2
      = [scenarioSpot "K1A" 14020000 7] ∧
    sortedByFreq (filter_spots scenarioShow
        [scenarioSpot "K1A" 14020000 7, scenarioSpot "W1ABC" 14025000 7]).2 :=
  ⟨by decide,
    (filtered_view scenarioShow
      [scenarioSpot "K1A" 14020000 7, scenarioSpot "W1ABC" 14025000 7]).2.2.2.2.2.2
      (by decide)⟩

/-! ## The lookups on the filtered view -/

theorem strstr_iff : ∀ haystack needle : List Char,
    strstr haystack needle = true ↔ needle <:+: haystack
  | [], needle => by
    unfold strstr
    rw [List.infix_nil, List.isEmpty_iff]
  | c :: rest, needle => by
    unfold strstr
    rw [Bool.or_eq_true, List.isPrefixOf_iff_prefix, strstr_iff rest needle, List.infix_cons_iff]

theorem map_copy_spot (o : Option spot) : o.map copy_spot = o := by
  cases o <;> rfl

theorem data_ne_nil (s : String) (h : s ≠ "") : s.data ≠ [] := by
  intro h0
  apply h
  cases s with
  | mk data =>
    simp only at h0
    subst h0
    rfl

/-- C18, substring lookup as the specification words it, refuted: every call
contains the empty needle, yet `bandmap_lookup` with the empty needle returns
nothing. -/
theorem substring_lookup_counterexample :
    bandmap_lookup [scenarioSpot "W1ABC" 14025000 7] "" = none ∧
    ("" : String).data <:+: (scenarioSpot "W1ABC" 14025000 7).call.data :=
  ⟨by decide, List.nil_infix⟩

/-- C18, substring lookup as the code has it: for every view and every non-empty
needle, `bandmap_lookup` returns a copy of the first record in view order whose
call contains the needle as a substring, and returns nothing exactly when no
record's call contains the needle; for the empty needle it returns nothing. -/
theorem substring_lookup (v : List spot) (needle : String) (hne : needle ≠ "") :
    (bandmap_lookup v needle = none ↔ ∀ d ∈ v, ¬ needle.data <:+: d.call.data) ∧
    (∀ r : spot, bandmap_lookup v needle = some r ↔
      needle.data <:+: r.call.data ∧
      ∃ pre post, v = pre ++ r :: post ∧ ∀ x ∈ pre, ¬ needle.data <:+: x.call.data) ∧
    bandmap_lookup v "" = none := by
  have hd := data_ne_nil needle hne
  refine ⟨?_, ?_, ?_⟩
  · unfold bandmap_lookup
    rw [map_copy_spot]
    by_cases hv : v.length > 0
    · rw [if_pos ⟨hd, hv⟩, List.find?_eq_none]
      simp only [strstr_iff]
    · rw [if_neg (fun h => hv h.2)]
      have : v = [] := List.length_eq_zero.1 (by omega)
      simp [this]
  · intro r
    unfold bandmap_lookup
    rw [map_copy_spot]
    by_cases hv : v.length > 0
    · rw [if_pos ⟨hd, hv⟩, List.find?_eq_some]
      simp only [strstr_iff, Bool.not_eq_true', ← Bool.not_eq_true]
    · rw [if_neg (fun h => hv h.2)]
      have : v = [] := List.length_eq_zero.1 (by omega)
      simp [this]
  · unfold bandmap_lookup
    rw [if_neg (fun h => h.1 rfl)]

theorem substring_lookup_witness :
    (bandmap_lookup [scenarioSpot "K1A" 14020000 7, scenarioSpot "W1ABC" 14025000 7] "1A"
        = none ↔
      ∀ d ∈ [scenarioSpot "K1A" 14020000 7, scenarioSpot "W1ABC" 14025000 7],
        ¬ ("1A" : String).data <:+: d.call.data) ∧
    bandmap_lookup [scenarioSpot "K1A" 14020000 7, scenarioSpot "W1ABC" 14025000 7] "1A"
      = some (scenarioSpot "K1A" 14020000 7) :=
  ⟨(substring_lookup [scenarioSpot "K1A" 14020000 7, scenarioSpot "W1ABC" 14025000 7] "1A"
      (by decide)).1, by decide⟩

theorem next_test_iff (S : ShowEnv) (up : Bool) (f : Int) (d : spot) :
    ((if up = true then
        decide ((d.freq : Int) > f + (if up = true then 1 else -1) * ((TOLERANCE : Int) / 2))
      else
        decide ((d.freq : Int) < f + (if up = true then 1 else -1) * ((TOLERANCE : Int) / 2)))
      && (!S.skipdupes || d.dupe == 0)) = true ↔ eligible S up f d := by
  have hT : (TOLERANCE : Int) / 2 = 50 := by decide
  unfold eligible
  rw [hT]
  cases up <;> cases hsk : S.skipdupes <;> simp <;> omega

/-- C19, adjacent lookup: for every frequency-sorted view, direction and frequency
`f`, `bandmap_next` returns nothing exactly when the view has no record strictly
beyond the reference point (`frequency > f + 50` upwards, `frequency < f - 50`
downwards) that is not a dupe when skip-dupes is enabled; otherwise it returns a
copy of such a record of the view, and no such record of the view is nearer to
`f` (none lies between `f` and the returned one). -/
theorem adjacent_lookup (S : ShowEnv) (v : List spot) (up : Bool) (f : Int)
    (hs : sortedByFreq v) :
    (bandmap_next S v up f = none ↔ ∀ r ∈ v, ¬ eligible S up f r) ∧
    (∀ r : spot, bandmap_next S v up f = some r →
      r ∈ v ∧ eligible S up f r ∧
      ∀ r1 ∈ v, eligible S up f r1 →
        ((r.freq : Int) - f).natAbs ≤ ((r1.freq : Int) - f).natAbs ∧
        (if up = true then r.freq ≤ r1.freq else r1.freq ≤ r.freq)) := by
  constructor
  · unfold bandmap_next
    by_cases hv : v.length = 0
    · have : v = [] := List.length_eq_zero.1 hv
      simp [this]
    · rw [if_neg hv]
      simp only [map_copy_spot]
      rw [List.find?_eq_none]
      simp only [next_test_iff]
      cases up
      · simp only [Bool.false_eq_true, if_false, List.mem_reverse]
      · simp only [if_true]
  · intro r hr
    unfold bandmap_next at hr
    by_cases hv : v.length = 0
    · rw [if_pos hv] at hr
      exact absurd hr (by simp)
    · rw [if_neg hv] at hr
      simp only [map_copy_spot] at hr
      rw [List.find?_eq_some] at hr
      obtain ⟨hp, as, bs, hsplit, hpre⟩ := hr
      rw [next_test_iff] at hp
      have hpre2 : ∀ a ∈ as, ¬ eligible S up f a := by
        intro a ha he
        have h1 := hpre a ha
        rw [← next_test_iff] at he
        rw [he] at h1
        exact absurd h1 (by decide)
      cases up
      · simp only [Bool.false_eq_true, if_false] at hsplit
        have hv2 : v = bs.reverse ++ r :: as.reverse := by
          have := congrArg List.reverse hsplit
          simpa using this
        refine ⟨by rw [hv2]; simp, hp, ?_⟩
        intro r1 hr1 he1
        have hle : r1.freq ≤ r.freq := by
          rw [hv2] at hr1 hs
          rcases List.mem_append.1 hr1 with h | h
          · exact (List.pairwise_append.1 hs).2.2 r1 h r (List.mem_cons_self _ _)
          · rcases List.mem_cons.1 h with rfl | h
            · exact le_refl _
            · exact absurd he1 (hpre2 r1 (List.mem_reverse.1 h))
        have h1 := hp.1
        have h2 := he1.1
        simp only [Bool.false_eq_true, if_false] at h1 h2 ⊢
        exact ⟨by omega, hle⟩
      · simp only [if_true] at hsplit
        refine ⟨by rw [hsplit]; simp, hp, ?_⟩
        intro r1 hr1 he1
        have hle : r.freq ≤ r1.freq := by
          rw [hsplit] at hr1 hs
          rcases List.mem_append.1 hr1 with h | h
          · exact absurd he1 (hpre2 r1 h)
          · rcases List.mem_cons.1 h with rfl | h
            · exact le_refl _
            · exact (List.pairwise_cons.1 (List.pairwise_append.1 hs).2.1).1 r1 h
        have h1 := hp.1
        have h2 := he1.1
        simp only [if_true] at h1 h2 ⊢
        exact ⟨by omega, hle⟩

theorem adjacent_lookup_witness :
    (bandmap_next scenarioShow
        [scenarioSpot "K1A" 14020000 7, scenarioSpot "W1ABC" 14025000 7,
          scenarioSpot "N5X" 14030000 7] true 14019950 = none ↔
      ∀ r ∈ [scenarioSpot "K1A" 14020000 7, scenarioSpot "W1ABC" 14025000 7,
          scenarioSpot "N5X" 14030000 7], ¬ eligible scenarioShow true 14019950 r) ∧
    bandmap_next scenarioShow
        [scenarioSpot "K1A" 14020000 7, scenarioSpot "W1ABC" 14025000 7,
          scenarioSpot "N5X" 14030000 7] true 14019950
      = some (scenarioSpot "W1ABC" 14025000 7) ∧
    bandmap_next scenarioShow
        [scenarioSpot "K1A" 14020000 7, scenarioSpot "W1ABC" 14025000 7,
          scenarioSpot "N5X" 14030000 7] false 14030050
      = some (scenarioSpot "W1ABC" 14025000 7) :=
  ⟨(adjacent_lookup scenarioShow
      [scenarioSpot "K1A" 14020000 7, scenarioSpot "W1ABC" 14025000 7,
        scenarioSpot "N5X" 14030000 7] true 14019950 (by decide)).1, by decide, by decide⟩

/-! ## Validity of the window and use of the display -/

theorem window_final (N : Nat) (trx : Bool) (c : Int) (v : List spot) :
    (bandmap_window N trx c v).final_on_qrg
      = (if trx = true then (bandmap_window N trx c v).on_qrg
          else (if (bandmap_window N trx c v).on_qrg ≠ 0 then 0
            else (bandmap_window N trx c v).on_qrg)) ∧
    (bandmap_window N trx c v).final_stopindex
      = (if trx = true then (bandmap_window N trx c v).stopindex
          else (if v.length < (if (bandmap_window N trx c v).on_qrg ≠ 0
                  then (bandmap_window N trx c v).stopindex
                  else (bandmap_window N trx c v).stopindex + 1)
                then v.length
                else (if (bandmap_window N trx c v).on_qrg ≠ 0
                  then (bandmap_window N trx c v).stopindex
                  else (bandmap_window N trx c v).stopindex + 1))) := by
  cases trx <;> exact ⟨rfl, rfl⟩

/-- C23 at the failing input: with 9 display places (18 screen lines), no rig
control, the center 14035000 Hz of the 20 m CW segment and a view of 12 spots that
all lie more than 100 Hz below it, the window is `4 .. 12`: 8 spots are shown,
although 9 places are free and `min(12, 9) = 9`. -/
theorem window_no_center_shortfall :
    (bandmap_window 9 false 14035000
        [scenarioSpot "K1A" 14010000 7, scenarioSpot "K1B" 14011000 7,
          scenarioSpot "K1C" 14012000 7, scenarioSpot "K1D" 14013000 7,
          scenarioSpot "K1E" 14014000 7, scenarioSpot "K1F" 14015000 7,
          scenarioSpot "K1G" 14016000 7, scenarioSpot "K1H" 14017000 7,
          scenarioSpot "K1I" 14018000 7, scenarioSpot "K1J" 14019000 7,
          scenarioSpot "K1K" 14020000 7, scenarioSpot "K1L" 14021000 7]).startindex = 4 ∧
    (bandmap_window 9 false 14035000
        [scenarioSpot "K1A" 14010000 7, scenarioSpot "K1B" 14011000 7,
          scenarioSpot "K1C" 14012000 7, scenarioSpot "K1D" 14013000 7,
          scenarioSpot "K1E" 14014000 7, scenarioSpot "K1F" 14015000 7,
          scenarioSpot "K1G" 14016000 7, scenarioSpot "K1H" 14017000 7,
          scenarioSpot "K1I" 14018000 7, scenarioSpot "K1J" 14019000 7,
          scenarioSpot "K1K" 14020000 7, scenarioSpot "K1L" 14021000 7]).final_stopindex = 12 ∧
    rendered_rows false (bandmap_window 9 false 14035000
        [scenarioSpot "K1A" 14010000 7, scenarioSpot "K1B" 14011000 7,
          scenarioSpot "K1C" 14012000 7, scenarioSpot "K1D" 14013000 7,
          scenarioSpot "K1E" 14014000 7, scenarioSpot "K1F" 14015000 7,
          scenarioSpot "K1G" 14016000 7, scenarioSpot "K1H" 14017000 7,
          scenarioSpot "K1I" 14018000 7, scenarioSpot "K1J" 14019000 7,
          scenarioSpot "K1K" 14020000 7, scenarioSpot "K1L" 14021000 7]) = 8 ∧
    min 12 9 = 9 := by
  decide

/-- C24, window range validity: for every view, center and capacity `N >= 1`, with
or without rig control, `startindex <= below_qrg`,
`below_qrg + on_qrg <= stopindex <= len` (final `on_qrg` and `stopindex`), every
index the three display loops read is below `len`, and the number of display
places used (entries, plus the center row under rig control) is at most `N`. -/
theorem window_range_valid (N : Nat) (trx : Bool) (c : Int) (v : List spot) (hN : 1 ≤ N) :
    (bandmap_window N trx c v).startindex ≤ (bandmap_window N trx c v).below_qrg ∧
    (bandmap_window N trx c v).below_qrg + (bandmap_window N trx c v).final_on_qrg
      ≤ (bandmap_window N trx c v).final_stopindex ∧
    (bandmap_window N trx c v).final_stopindex ≤ v.length ∧
    (∀ i, (bandmap_window N trx c v).startindex ≤ i →
      i < (bandmap_window N trx c v).below_qrg → i < v.length) ∧
    (trx = true → (bandmap_window N trx c v).final_on_qrg ≠ 0 →
      (bandmap_window N trx c v).below_qrg < v.length) ∧
    (∀ i, (bandmap_window N trx c v).below_qrg + (bandmap_window N trx c v).final_on_qrg ≤ i →
      i < (bandmap_window N trx c v).final_stopindex → i < v.length) ∧
    rendered_rows trx (bandmap_window N trx c v) ≤ N := by
  obtain ⟨hb, ho, hsum, hm, hs, ht, hfull⟩ := window_facts N trx c v hN
  obtain ⟨hfon, hfin⟩ := window_final N trx c v
  unfold rendered_rows
  rw [hfon, hfin]
  generalize (bandmap_window N trx c v).stopindex = t at *
  generalize (bandmap_window N trx c v).startindex = s at *
  generalize (bandmap_window N trx c v).on_qrg = o at *
  generalize (bandmap_window N trx c v).below_qrg = b at *
  generalize (bandmap_window N trx c v).max_below = m at *
  generalize (bandmap_window N trx c v).above_qrg = a at *
  generalize v.length = L at *
  cases trx
  · simp only [Bool.false_eq_true, if_false]
    refine ⟨by omega, ?_, ?_, fun i _ h => by omega, fun h => absurd h (by decide), ?_, ?_⟩
    · split_ifs <;> omega
    · split_ifs <;> omega
    · intro i _ h
      split_ifs at h <;> omega
    · split_ifs <;> omega
  · simp only [if_true]
    refine ⟨by omega, by omega, by omega, fun i _ h => by omega, fun _ h => by omega,
      fun i _ h => by omega, by omega⟩

theorem window_range_valid_witness :
    rendered_rows false (bandmap_window 9 false 14020500
        [scenarioSpot "K1A" 14010000 7, scenarioSpot "K1B" 14020000 7,
          scenarioSpot "K1C" 14021000 7]) ≤ 9 ∧
    rendered_rows true (bandmap_window 9 true 14020000
        [scenarioSpot "K1A" 14010000 7, scenarioSpot "K1B" 14020000 7,
          scenarioSpot "K1C" 14021000 7]) = 3 :=
  ⟨(window_range_valid 9 false 14020500
      [scenarioSpot "K1A" 14010000 7, scenarioSpot "K1B" 14020000 7,
        scenarioSpot "K1C" 14021000 7] (by decide)).2.2.2.2.2.2, by decide⟩

/-! ## The snapshot is loaded at most once -/

theorem read_file_parsed (st : LoadState) (file : Option (List Char)) (now stack : Int)
    (h : st.bmdata_parsed = true) : bmdata_read_file st file now stack = st := by
  unfold bmdata_read_file
  rw [if_pos h]

theorem read_file_none (st : LoadState) (now stack : Int) :
    bmdata_read_file st none now stack = st := by
  unfold bmdata_read_file
  split_ifs <;> rfl

theorem read_file_sets_flag (st : LoadState) (text : List Char) (now stack : Int) :
    (bmdata_read_file st (some text) now stack).bmdata_parsed = true := by
  unfold bmdata_read_file
  split_ifs with h
  · exact h
  · simp only
    cases hf : fgets_all 50 text [] <;> rfl

theorem load_changes_parsed : ∀ calls : List LoadCall, load_changes true calls = 0
  | [] => rfl
  | c :: rest => by
    unfold load_changes
    rw [read_file_parsed ⟨c.allspots, true⟩ c.file c.now c.stack rfl]
    simp only [ne_eq, not_true_eq_false, if_false, Nat.zero_add]
    exact load_changes_parsed rest

theorem load_changes_le : ∀ (flag : Bool) (calls : List LoadCall), load_changes flag calls ≤ 1
  | true, calls => by rw [load_changes_parsed]; omega
  | false, [] => Nat.zero_le _
  | false, c :: rest => by
    unfold load_changes
    cases hf : c.file with
    | none =>
      rw [read_file_none]
      simp only [ne_eq, not_true_eq_false, if_false, Nat.zero_add]
      exact load_changes_le false rest
    | some text =>
      rw [read_file_sets_flag, load_changes_parsed]
      split_ifs <;> omega

/-- C22, load executes at most once: over any sequence of invocations of
`bmdata_read_file` in one process, whatever the file holds at each invocation and
whatever happens to the store in between, at most one invocation changes the
store; an invocation that opens the file sets `bmdata_parsed`, an invocation that
cannot open it changes nothing, and every invocation made with `bmdata_parsed`
set returns at once; `bm_init` in turn calls it only while `bm_initialized` is
unset. -/
theorem load_at_most_once :
    (∀ (flag : Bool) (calls : List LoadCall), load_changes flag calls ≤ 1) ∧
    (∀ calls : List LoadCall, load_changes true calls = 0) ∧
    (∀ (st : LoadState) (file : Option (List Char)) (now stack : Int),
      st.bmdata_parsed = true → bmdata_read_file st file now stack = st) ∧
    (∀ (st : LoadState) (text : List Char) (now stack : Int),
      (bmdata_read_file st (some text) now stack).bmdata_parsed = true) ∧
    (∀ (st : LoadState) (now stack : Int), bmdata_read_file st none now stack = st) ∧
    (∀ (st : InitState) (file : Option (List Char)) (now stack : Int),
      st.bm_initialized = true → bm_init st file now stack = st) ∧
    (∀ (st : InitState) (file : Option (List Char)) (now stack : Int),
      (bm_init st file now stack).bm_initialized = true) := by
  refine ⟨load_changes_le, load_changes_parsed, read_file_parsed, read_file_sets_flag,
    read_file_none, ?_, ?_⟩
  · intro st file now stack h
    unfold bm_init
    rw [if_pos h]
  · intro st file now stack
    unfold bm_init
    split_ifs with h
    · exact h
    · rfl

theorem load_at_most_once_witness :
    load_changes false
        [⟨[], none, 1700000000, 0⟩,
          ⟨[], some "1700000000\nW1ABC;14025000;0;5; ;900;0;5;291;K\n".data, 1700000010, 0⟩,
          ⟨[], some "1700000000\nW1ABC;14025000;0;5; ;900;0;5;291;K\n".data, 1700000020, 0⟩]
      = 1 ∧
    load_changes false
        [⟨[], none, 1700000000, 0⟩,
          ⟨[], some "1700000000\nW1ABC;14025000;0;5; ;900;0;5;291;K\n".data, 1700000010, 0⟩,
          ⟨[], some "1700000000\nW1ABC;14025000;0;5; ;900;0;5;291;K\n".data, 1700000020, 0⟩]
      ≤ 1 :=
  ⟨by decide, load_at_most_once.1 false _⟩

/-! ## Announcing the same spot twice -/

theorem find_spot_split (call : String) (band mode : Int) (x : spot) (Q : List spot)
    (hx : x.call = call ∧ x.band = band ∧ x.mode = mode) :
    ∀ P : List spot, (∀ p ∈ P, ¬ (p.call = call ∧ p.band = band ∧ p.mode = mode)) →
      find_spot call band mode (P ++ x :: Q) = some (P, x, Q)
  | [], _ => by
    simp only [List.nil_append, find_spot]
    rw [if_pos hx]
  | a :: P, h => by
    have ha := h a (List.mem_cons_self _ _)
    have ih := find_spot_split call band mode x Q hx P
      (fun p hp => h p (List.mem_cons_of_mem _ hp))
    show find_spot call band mode (a :: (P ++ x :: Q)) = some (a :: P, x, Q)
    unfold find_spot
    rw [if_neg ha, ih]

theorem drop_prev_far (freq : freq_t) (P : List spot)
    (h : ∀ p ∈ P, ¬ freq_t.DISTANCE (freq_t.ofNat p.freq) freq < freq_t.ofNat TOLERANCE) :
    drop_prev freq (P.map other) = P.map other := by
  rcases List.eq_nil_or_concat P with rfl | ⟨B, p, rfl⟩
  · rfl
  · rw [List.concat_eq_append, List.map_append, List.map_singleton, drop_prev_concat]
    have hp := h p (by simp)
    rw [if_neg]
    exact hp

theorem drop_next_far (freq : freq_t) (Q : List spot)
    (h : ∀ q ∈ Q, ¬ freq_t.DISTANCE (freq_t.ofNat q.freq) freq < freq_t.ofNat TOLERANCE) :
    drop_next freq (Q.map other) = Q.map other := by
  cases Q with
  | nil => rfl
  | cons n rest =>
    have hn := h n (List.mem_cons_self _ _)
    simp only [List.map_cons, drop_next]
    rw [if_neg]
    exact hn

theorem cleanup_stable (freq : freq_t) (P Q : List spot) (x : spot)
    (hP : ∀ p ∈ P, ¬ freq_t.DISTANCE (freq_t.ofNat p.freq) freq < freq_t.ofNat TOLERANCE)
    (hQ : ∀ q ∈ Q, ¬ freq_t.DISTANCE (freq_t.ofNat q.freq) freq < freq_t.ofNat TOLERANCE) :
    (drop_neighbours freq (P.map other ++ target x :: Q.map other)).map Cell.data
      = P ++ x :: Q := by
  rw [drop_neighbours_split, drop_prev_far freq P hP, drop_next_far freq Q hQ,
    List.map_append, List.map_cons, map_data_map_other, map_data_map_other]
  rfl

/-- The store after `bandmap_addspot` on a sorted store with records 100 Hz apart
and unique keys: around the touched record there is no record with its key and
no record within 100 Hz of the whole Hertz of the incoming frequency, and the
touched record is at most 100 Hz from the incoming frequency. -/
theorem addspot_far (E : Env) (s : List spot) (call : String) (freq : freq_t) (node : Char)
    (hs : sortedByFreq s) (ha : apart s) (hu : uniqueKey s)
    (h1 : freq ≤ freq_t.ofNat 30000000) (h2 : E.freq2band freq ≠ E.BANDINDEX_OOB) :
    ∃ P1 Q1 : List spot,
      bandmap_addspot E s call freq node
        = P1 ++ touched E s call freq (E.freq2band freq)
            (freq2mode E freq (E.freq2band freq)) node :: Q1 ∧
      (∀ p ∈ P1, ¬ (p.call = call ∧ p.band = E.freq2band freq ∧
        p.mode = freq2mode E freq (E.freq2band freq))) ∧
      (∀ p ∈ P1, TOLERANCE ≤ DISTANCE p.freq freq.toNat) ∧
      (∀ q ∈ Q1, TOLERANCE ≤ DISTANCE q.freq freq.toNat) ∧
      ¬ freq_t.DISTANCE (freq_t.ofNat (touched E s call freq (E.freq2band freq)
          (freq2mode E freq (E.freq2band freq)) node).freq) freq > freq_t.ofNat TOLERANCE := by
  have hfc := toNat_le_ceil freq
  have hcs := ceil_le_succ freq
  have hno := untouched_no_key s call (E.freq2band freq)
    (freq2mode E freq (E.freq2band freq)) hu
  rcases touched_freq E s call freq (E.freq2band freq)
    (freq2mode E freq (E.freq2band freq)) node with hx | ⟨pre, old, post, hf, hd, hx⟩
  · obtain ⟨P, Q, P1, Q1, -, hperm, hres, hP, hQ⟩ := addspot_spec E s call freq node h1 h2
    have hap := addspot_apart E s call freq node hs ha
    rw [hres] at hap
    have hap1 := List.pairwise_append.1 hap
    have hap2 := List.pairwise_cons.1 hap1.2.1
    refine ⟨P1, Q1, hres, ?_, ?_, ?_, ?_⟩
    · exact fun p hp => hno p (hperm.subset (List.mem_append_left _ (hP.subset hp)))
    · intro p hp
      have := hap1.2.2 p hp _ (List.mem_cons_self _ _)
      rw [hx] at this
      exact this
    · intro q hq
      have := hap2.1 q hq
      rw [hx, DISTANCE_comm] at this
      exact this
    · rw [hx, far_iff]
      omega
  · obtain ⟨hsplit, hk, hpre⟩ := find_spot_some call _ _ s pre old post hf
    have hun := touch_unmoved E s call freq (E.freq2band freq)
      (freq2mode E freq (E.freq2band freq)) node pre old post hf hd
    obtain ⟨P1, hP1, hPs, hPd⟩ := drop_prev_map freq pre
    obtain ⟨Q1, hQ1, hQs, hQd⟩ := drop_next_map freq post
    rw [hsplit] at hs ha
    have hs1 := List.pairwise_append.1 hs
    have ha1 := List.pairwise_append.1 ha
    have hs2 := List.pairwise_cons.1 hs1.2.1
    have ha2 := List.pairwise_cons.1 ha1.2.1
    refine ⟨P1, Q1, ?_, ?_, ?_, ?_, ?_⟩
    · rw [addspot_accepted E s call freq node h1 h2, hun, drop_neighbours_split, hP1, hQ1,
        List.map_append, List.map_cons, map_data_map_other, map_data_map_other]
      rfl
    · exact fun p hp => hpre p (hPs.subset hp)
    · refine hPd hs1.1 ha1.1 ?_
      intro p hp
      have e1 := hs1.2.2 p hp old (List.mem_cons_self _ _)
      have e2 := ha1.2.2 p hp old (List.mem_cons_self _ _)
      rw [far_iff] at hd
      unfold DISTANCE TOLERANCE at e2
      split_ifs at e2 <;> omega
    · refine hQd hs2.2 ha2.2 ?_
      intro q hq
      have e1 := hs2.1 q hq
      have e2 := ha2.1 q hq
      rw [far_iff] at hd
      unfold DISTANCE TOLERANCE at e2
      split_ifs at e2 <;> omega
    · rw [hx]
      exact hd

theorem touched_again (E : Env) (P Q : List spot) (x : spot) (call : String) (freq : freq_t)
    (band mode : Int) (node : Char)
    (hf : find_spot call band mode (P ++ x :: Q) = some (P, x, Q))
    (hd : ¬ freq_t.DISTANCE (freq_t.ofNat x.freq) freq > freq_t.ofNat TOLERANCE)
    (ht : x.timeout = E.SPOT_NEW) (hn : x.node = node) :
    touched E (P ++ x :: Q) call freq band mode node = x := by
  unfold touched
  rw [hf]
  simp only [hd, if_false]
  rw [← ht, ← hn]

/-- C25, idempotence as the specification words it, refuted.  In a store that is
frequency-sorted and 100 Hz apart but holds W1ABC twice (same band and mode, at
14020000 Hz and 14030000 Hz), the spot W1ABC at 14040000 Hz first moves the first
record, and announced again moves the second one onto it.  In the store of K1A at
14025000 Hz and N5X at 14025100 Hz the call W1ABC coming in at 14025000.5 Hz first
replaces K1A, and announced again also removes N5X.  Both times the store after
two calls differs from the store after one. -/
theorem reannounce_counterexample :
    sortedByFreq [scenarioSpot "W1ABC" 14020000 5, scenarioSpot "W1ABC" 14030000 5] ∧
    apart [scenarioSpot "W1ABC" 14020000 5, scenarioSpot "W1ABC" 14030000 5] ∧
    bandmap_addspot scenarioEnv
        [scenarioSpot "W1ABC" 14020000 5, scenarioSpot "W1ABC" 14030000 5] "W1ABC" 14040000 ' '
      = [scenarioSpot "W1ABC" 14030000 5, scenarioSpot "W1ABC" 14040000 900] ∧
    bandmap_addspot scenarioEnv
        (bandmap_addspot scenarioEnv
          [scenarioSpot "W1ABC" 14020000 5, scenarioSpot "W1ABC" 14030000 5]
          "W1ABC" 14040000 ' ') "W1ABC" 14040000 ' '
      = [scenarioSpot "W1ABC" 14040000 900] ∧
    sortedByFreq [scenarioSpot "K1A" 14025000 7, scenarioSpot "N5X" 14025100 7] ∧
    apart [scenarioSpot "K1A" 14025000 7, scenarioSpot "N5X" 14025100 7] ∧
    uniqueKey [scenarioSpot "K1A" 14025000 7, scenarioSpot "N5X" 14025100 7] ∧
    bandmap_addspot scenarioEnv
        [scenarioSpot "K1A" 14025000 7, scenarioSpot "N5X" 14025100 7]
        "W1ABC" (freq_t.half 14025000) ' '
      = [scenarioSpot "W1ABC" 14025000 900, scenarioSpot "N5X" 14025100 7] ∧
    bandmap_addspot scenarioEnv
        (bandmap_addspot scenarioEnv
          [scenarioSpot "K1A" 14025000 7, scenarioSpot "N5X" 14025100 7]
          "W1ABC" (freq_t.half 14025000) ' ') "W1ABC" (freq_t.half 14025000) ' '
      = [scenarioSpot "W1ABC" 14025000 900] := by
  decide

/-- C25, idempotence as the code has it: for every store that is frequency-sorted,
pairwise at least 100 Hz apart and without two records sharing (call, band,
mode), and every call, node and frequency of a whole number of Hertz, applying
`bandmap_addspot` twice in a row with the same arguments (in the same setting)
yields exactly the store that applying it once yields. -/
theorem reannounce_idempotent (E : Env) (s : List spot) (call : String) (n : Nat)
    (node : Char) (hs : sortedByFreq s) (ha : apart s) (hu : uniqueKey s) :
    bandmap_addspot E (bandmap_addspot E s call (freq_t.ofNat n) node) call
        (freq_t.ofNat n) node
      = bandmap_addspot E s call (freq_t.ofNat n) node := by
  have hw : (freq_t.ofNat n).ceil = (freq_t.ofNat n).toNat := by
    rw [ceil_ofNat, toNat_ofNat]
  generalize freq_t.ofNat n = freq at hw
  by_cases h1 : freq ≤ freq_t.ofNat 30000000
  · by_cases h2 : E.freq2band freq = E.BANDINDEX_OOB
    · unfold bandmap_addspot
      rw [if_neg ((freq_not_lt _ _).2 h1), if_pos h2]
    · obtain ⟨P1, Q1, hres, hkey, hP, hQ, hd⟩ := addspot_far E s call freq node hs ha hu h1 h2
      obtain ⟨k1, k2, k3, ht, hn⟩ := touched_fields E s call freq (E.freq2band freq)
        (freq2mode E freq (E.freq2band freq)) node
      have hf := find_spot_split call (E.freq2band freq) (freq2mode E freq (E.freq2band freq))
        (touched E s call freq (E.freq2band freq) (freq2mode E freq (E.freq2band freq)) node)
        Q1 ⟨k1, k2, k3⟩ P1 hkey
      have hP2 : ∀ p ∈ P1,
          ¬ freq_t.DISTANCE (freq_t.ofNat p.freq) freq < freq_t.ofNat TOLERANCE := by
        intro p hp
        rw [near_whole _ _ hw]
        exact Nat.not_lt.2 (hP p hp)
      have hQ2 : ∀ q ∈ Q1,
          ¬ freq_t.DISTANCE (freq_t.ofNat q.freq) freq < freq_t.ofNat TOLERANCE := by
        intro q hq
        rw [near_whole _ _ hw]
        exact Nat.not_lt.2 (hQ q hq)
      rw [hres, addspot_accepted E _ call freq node h1 h2,
        touch_unmoved E _ call freq _ _ node P1 _ Q1 hf hd,
        touched_again E P1 Q1 _ call freq _ _ node hf hd ht hn,
        cleanup_stable freq P1 Q1 _ hP2 hQ2]
  · unfold bandmap_addspot
    rw [if_pos ((freq_not_le _ _).1 h1)]

theorem reannounce_idempotent_witness :
    bandmap_addspot scenarioEnv
        (bandmap_addspot scenarioEnv
          [scenarioSpot "K1A" 14024900 7, scenarioSpot "W1ABC" 14025000 450,
            scenarioSpot "N5X" 14025100 3] "W1ABC" (freq_t.ofNat 14024950) ' ')
        "W1ABC" (freq_t.ofNat 14024950) ' '
      = bandmap_addspot scenarioEnv
          [scenarioSpot "K1A" 14024900 7, scenarioSpot "W1ABC" 14025000 450,
            scenarioSpot "N5X" 14025100 3] "W1ABC" (freq_t.ofNat 14024950) ' ' :=
  reannounce_idempotent scenarioEnv
    [scenarioSpot "K1A" 14024900 7, scenarioSpot "W1ABC" 14025000 450,
      scenarioSpot "N5X" 14025100 3] "W1ABC" 14024950 ' ' (by decide) (by decide) (by decide)

/-! ## Printing and scanning numbers -/

theorem digitChar_spec (k : Nat) (hk : k < 10) :
    (Nat.digitChar k).isDigit = true ∧ (Nat.digitChar k).toNat - 48 = k := by
  interval_cases k <;> exact ⟨by decide, by decide⟩

theorem digits_value_append (ds : List Char) (c : Char) :
    digits_value (ds ++ [c]) = digits_value ds * 10 + (c.toNat - 48) := by
  unfold digits_value
  rw [List.foldl_append]
  rfl

theorem toDigitsCore_spec :
    ∀ (fuel n : Nat) (acc : List Char), n < fuel →
      ∃ ds : List Char, Nat.toDigitsCore 10 fuel n acc = ds ++ acc ∧ ds ≠ [] ∧
        (∀ c ∈ ds, c.isDigit = true) ∧ digits_value ds = n
  | 0, n, acc, h => absurd h (Nat.not_lt_zero n)
  | fuel + 1, n, acc, h => by
    obtain ⟨hd1, hd2⟩ := digitChar_spec (n % 10) (Nat.mod_lt n (by decide))
    unfold Nat.toDigitsCore
    simp only
    split_ifs with h0
    · refine ⟨[Nat.digitChar (n % 10)], rfl, by simp, ?_, ?_⟩
      · intro c hc
        rw [List.mem_singleton] at hc
        rw [hc]; exact hd1
      · show (0 * 10 + ((Nat.digitChar (n % 10)).toNat - 48)) = n
        rw [hd2]
        omega
    · obtain ⟨ds, h1, h2, h3, h4⟩ := toDigitsCore_spec fuel (n / 10)
        (Nat.digitChar (n % 10) :: acc) (by omega)
      refine ⟨ds ++ [Nat.digitChar (n % 10)], ?_, by simp, ?_, ?_⟩
      · rw [h1, List.append_assoc]; rfl
      · intro c hc
        rcases List.mem_append.1 hc with hc | hc
        · exact h3 c hc
        · rw [List.mem_singleton] at hc
          rw [hc]; exact hd1
      · rw [digits_value_append, h4, hd2]
        omega

theorem print_nat_spec (n : Nat) :
    print_nat n ≠ [] ∧ (∀ c ∈ print_nat n, c.isDigit = true) ∧ digits_value (print_nat n) = n := by
  obtain ⟨ds, h1, h2, h3, h4⟩ := toDigitsCore_spec (n + 1) n [] (Nat.lt_succ_self n)
  rw [List.append_nil] at h1
  unfold print_nat Nat.toDigits
  rw [h1]
  exact ⟨h2, h3, h4⟩

theorem digit_not_special (c : Char) (h : c.isDigit = true) :
    isspace c = false ∧ c ≠ '-' ∧ c ≠ '+' ∧ c ≠ ';' ∧ c ≠ '\n' := by
  have e : ∀ d : Char, d.isDigit = false → c ≠ d := fun d hd hcd => by
    rw [hcd, hd] at h
    exact absurd h (by decide)
  have h1 := e ' ' (by decide)
  have h2 := e '\t' (by decide)
  have h3 := e '\n' (by decide)
  have h4 := e '\x0b' (by decide)
  have h5 := e '\x0c' (by decide)
  have h6 := e '\r' (by decide)
  refine ⟨?_, e '-' (by decide), e '+' (by decide), e ';' (by decide), h3⟩
  unfold isspace
  simp [h1, h2, h3, h4, h5, h6]

theorem takeWhile_digits (ds suf : List Char) (hds : ∀ c ∈ ds, c.isDigit = true)
    (hsuf : ∀ c, suf.head? = some c → c.isDigit = false) :
    (ds ++ suf).takeWhile Char.isDigit = ds := by
  induction ds with
  | nil =>
    cases suf with
    | nil => rfl
    | cons c rest =>
      have := hsuf c rfl
      rw [List.nil_append, List.takeWhile_cons, this]
      rfl
  | cons d ds ih =>
    have hd := hds d (List.mem_cons_self _ _)
    rw [List.cons_append, List.takeWhile_cons, if_pos hd,
      ih (fun c hc => hds c (List.mem_cons_of_mem _ hc))]

theorem scan_int_digits (ds suf : List Char) (hne : ds ≠ [])
    (hds : ∀ c ∈ ds, c.isDigit = true)
    (hsuf : ∀ c, suf.head? = some c → c.isDigit = false) :
    scan_int (ds ++ suf) = some (digits_value ds : Int) := by
  cases ds with
  | nil => exact absurd rfl hne
  | cons d rest =>
    obtain ⟨s1, s2, s3, -, -⟩ := digit_not_special d (hds d (List.mem_cons_self _ _))
    have htw := takeWhile_digits (d :: rest) suf hds hsuf
    have hdw : List.dropWhile isspace (d :: rest ++ suf) = d :: rest ++ suf := by
      rw [List.cons_append, List.dropWhile_cons, s1]
      rfl
    unfold scan_int
    simp only [hdw]
    have hh : (d :: rest ++ suf).head? = some d := rfl
    rw [hh]
    simp only [Option.some.injEq, s2, s3, or_self, if_false]
    rw [htw]
    simp

theorem scan_int_minus (ds suf : List Char) (hne : ds ≠ [])
    (hds : ∀ c ∈ ds, c.isDigit = true)
    (hsuf : ∀ c, suf.head? = some c → c.isDigit = false) :
    scan_int ('-' :: (ds ++ suf)) = some (-(digits_value ds : Int)) := by
  have htw := takeWhile_digits ds suf hds hsuf
  have hsp : isspace '-' = false := by decide
  have hdw : List.dropWhile isspace ('-' :: (ds ++ suf)) = '-' :: (ds ++ suf) := by
    rw [List.dropWhile_cons, hsp]
    rfl
  unfold scan_int
  simp only [hdw, List.head?_cons, true_or, if_true, List.tail_cons]
  rw [htw]
  simp [hne]

theorem scan_print_nat (n : Nat) (suf : List Char)
    (hsuf : ∀ c, suf.head? = some c → c.isDigit = false) :
    scan_int (print_nat n ++ suf) = some (n : Int) := by
  obtain ⟨h1, h2, h3⟩ := print_nat_spec n
  rw [scan_int_digits _ suf h1 h2 hsuf, h3]

theorem scan_print_int (v : Int) (suf : List Char)
    (hsuf : ∀ c, suf.head? = some c → c.isDigit = false) :
    scan_int (print_int v ++ suf) = some v := by
  obtain ⟨h1, h2, h3⟩ := print_nat_spec v.natAbs
  unfold print_int
  unfold print_nat at h1 h2 h3
  split_ifs with hv
  · rw [List.cons_append, scan_int_minus _ suf h1 h2 hsuf, h3]
    congr 1
    omega
  · rw [scan_int_digits _ suf h1 h2 hsuf, h3]
    congr 1
    omega

theorem print_int_chars (v : Int) :
    print_int v ≠ [] ∧ ∀ c ∈ print_int v, c ≠ ';' ∧ c ≠ '\n' := by
  obtain ⟨h1, h2, -⟩ := print_nat_spec v.natAbs
  unfold print_nat at h1 h2
  unfold print_int
  split_ifs
  · refine ⟨by simp, ?_⟩
    intro c hc
    rcases List.mem_cons.1 hc with rfl | hc
    · exact ⟨by decide, by decide⟩
    · exact (digit_not_special c (h2 c hc)).2.2.2
  · exact ⟨h1, fun c hc => (digit_not_special c (h2 c hc)).2.2.2⟩

theorem print_nat_chars (n : Nat) :
    print_nat n ≠ [] ∧ ∀ c ∈ print_nat n, c ≠ ';' ∧ c ≠ '\n' := by
  obtain ⟨h1, h2, -⟩ := print_nat_spec n
  exact ⟨h1, fun c hc => (digit_not_special c (h2 c hc)).2.2.2⟩

theorem to_signed_8 (v : Int) (h1 : -128 ≤ v) (h2 : v < 128) : to_signed 8 v = v := by
  unfold to_signed
  norm_num
  split_ifs <;> omega

theorem to_signed_16 (v : Int) (h1 : -32768 ≤ v) (h2 : v < 32768) : to_signed 16 v = v := by
  unfold to_signed
  norm_num
  split_ifs <;> omega

theorem to_signed_32 (v : Int) (h1 : -2147483648 ≤ v) (h2 : v < 2147483648) :
    to_signed 32 v = v := by
  unfold to_signed
  norm_num
  split_ifs <;> omega

theorem to_unsigned_32 (n : Nat) (h : n < 4294967296) : to_unsigned 32 (n : Int) = n := by
  unfold to_unsigned
  norm_num
  omega

theorem to_unsigned_signed_32 (n : Nat) (h : n < 4294967296) :
    to_unsigned 32 (to_signed 32 (n : Int)) = n := by
  unfold to_unsigned to_signed
  norm_num
  split_ifs <;> omega

/-! ## Tokens of a written line -/

theorem strtok_field (d : Char) (rest : List Char) :
    ∀ (a cur : List Char), d ∉ a → cur ++ a ≠ [] →
      strtok_all d (a ++ d :: rest) cur = (cur ++ a) :: strtok_all d rest []
  | [], cur, _, hne => by
    rw [List.append_nil] at hne
    rw [List.nil_append, List.append_nil, strtok_all, if_pos rfl, if_neg hne]
  | c :: a, cur, hd, _ => by
    have hc : c ≠ d := fun h => hd (by rw [h]; exact List.mem_cons_self _ _)
    have ih := strtok_field d rest a (cur ++ [c])
      (fun h => hd (List.mem_cons_of_mem _ h)) (by simp)
    rw [List.cons_append, strtok_all, if_neg hc, ih, List.append_assoc]
    rfl

theorem strtok_last (d : Char) :
    ∀ (a cur : List Char), d ∉ a → cur ++ a ≠ [] → strtok_all d a cur = [cur ++ a]
  | [], cur, _, hne => by
    rw [List.append_nil] at hne ⊢
    rw [strtok_all, if_neg hne]
  | c :: a, cur, hd, _ => by
    have hc : c ≠ d := fun h => hd (by rw [h]; exact List.mem_cons_self _ _)
    have ih := strtok_last d a (cur ++ [c])
      (fun h => hd (List.mem_cons_of_mem _ h)) (by simp)
    rw [strtok_all, if_neg hc, ih, List.append_assoc]
    rfl

theorem strtok_join :
    ∀ fs : List (List Char), (∀ f ∈ fs, f ≠ [] ∧ ';' ∉ f) →
      strtok_all ';' (join_fields fs) [] = fs
  | [], _ => rfl
  | [f], h => by
    have hf := h f (List.mem_cons_self _ _)
    show strtok_all ';' f [] = [f]
    rw [strtok_last ';' f [] hf.2 (by simpa using hf.1)]
    rfl
  | f :: g :: rest, h => by
    have hf := h f (List.mem_cons_self _ _)
    have ih := strtok_join (g :: rest) (fun x hx => h x (List.mem_cons_of_mem _ hx))
    show strtok_all ';' (f ++ ';' :: join_fields (g :: rest)) [] = f :: g :: rest
    rw [strtok_field ';' _ f [] hf.2 (by simpa using hf.1), ih]
    rfl

theorem mem_g_strchomp (s : List Char) (c : Char) (h : c ∈ g_strchomp s) : c ∈ s := by
  unfold g_strchomp at h
  rw [List.mem_reverse] at h
  exact List.mem_reverse.1 ((List.dropWhile_sublist _).subset h)

theorem join_fields_snoc :
    ∀ (fs : List (List Char)) (f suf : List Char),
      join_fields (fs ++ [f]) ++ suf = join_fields (fs ++ [f ++ suf])
  | [], f, suf => rfl
  | [g], f, suf => by
    show (g ++ ';' :: f) ++ suf = g ++ ';' :: (f ++ suf)
    rw [List.append_assoc]
    rfl
  | g :: h :: rest, f, suf => by
    have ih := join_fields_snoc (h :: rest) f suf
    show (g ++ ';' :: join_fields (h :: rest ++ [f])) ++ suf
      = g ++ ';' :: join_fields (h :: rest ++ [f ++ suf])
    rw [List.append_assoc, List.cons_append, ih]

theorem write_line_fields (sp : spot) :
    write_line sp
      = join_fields [sp.call.data, print_int (to_signed 32 (sp.freq : Int)), print_int sp.mode,
          print_int sp.band, [sp.node], print_nat sp.timeout, print_int sp.dupe,
          print_int sp.cqzone, print_int sp.ctynr, g_strchomp sp.pfx.data ++ ['\n']] := by
  unfold write_line
  exact join_fields_snoc [sp.call.data, print_int (to_signed 32 (sp.freq : Int)),
    print_int sp.mode, print_int sp.band, [sp.node], print_nat sp.timeout, print_int sp.dupe,
    print_int sp.cqzone, print_int sp.ctynr] (g_strchomp sp.pfx.data) ['\n']


theorem strtok_write_line (sp : spot) (h : storable sp) :
    strtok_all ';' (write_line sp) []
      = [sp.call.data, print_int (to_signed 32 (sp.freq : Int)), print_int sp.mode,
          print_int sp.band, [sp.node], print_nat sp.timeout, print_int sp.dupe,
          print_int sp.cqzone, print_int sp.ctynr, g_strchomp sp.pfx.data ++ ['\n']] := by
  obtain ⟨c1, c2, -, n1, -, p1, -, -⟩ := h
  rw [write_line_fields]
  apply strtok_join
  have hi : ∀ v : Int, print_int v ≠ [] ∧ ';' ∉ print_int v := fun v =>
    ⟨(print_int_chars v).1, fun hm => ((print_int_chars v).2 _ hm).1 rfl⟩
  have hn : ∀ n : Nat, print_nat n ≠ [] ∧ ';' ∉ print_nat n := fun n =>
    ⟨(print_nat_chars n).1, fun hm => ((print_nat_chars n).2 _ hm).1 rfl⟩
  have hp : g_strchomp sp.pfx.data ++ ['\n'] ≠ [] ∧ ';' ∉ g_strchomp sp.pfx.data ++ ['\n'] := by
    refine ⟨by simp, ?_⟩
    intro hm
    rcases List.mem_append.1 hm with hm | hm
    · exact p1 (mem_g_strchomp _ _ hm)
    · rw [List.mem_singleton] at hm
      exact absurd hm (by decide)
  have hnode : [sp.node] ≠ [] ∧ ';' ∉ [sp.node] :=
    ⟨List.cons_ne_nil _ _, fun hm => n1 (List.mem_singleton.1 hm).symm⟩
  intro f hf
  rcases List.mem_cons.1 hf with h0 | hf
  · rw [h0]; exact ⟨c1, c2⟩
  rcases List.mem_cons.1 hf with h0 | hf
  · rw [h0]; exact hi _
  rcases List.mem_cons.1 hf with h0 | hf
  · rw [h0]; exact hi _
  rcases List.mem_cons.1 hf with h0 | hf
  · rw [h0]; exact hi _
  rcases List.mem_cons.1 hf with h0 | hf
  · rw [h0]; exact hnode
  rcases List.mem_cons.1 hf with h0 | hf
  · rw [h0]; exact hn _
  rcases List.mem_cons.1 hf with h0 | hf
  · rw [h0]; exact hi _
  rcases List.mem_cons.1 hf with h0 | hf
  · rw [h0]; exact hi _
  rcases List.mem_cons.1 hf with h0 | hf
  · rw [h0]; exact hi _
  rcases List.mem_cons.1 hf with h0 | hf
  · rw [h0]; exact hp
  · exact absurd hf (List.not_mem_nil _)

theorem parse_tokens_ten (e : spot) (t0 t1 t2 t3 t4 t5 t6 t7 t8 t9 : List Char) :
    parse_tokens e 0 [t0, t1, t2, t3, t4, t5, t6, t7, t8, t9]
      = store_token (store_token (store_token (store_token (store_token (store_token
          (store_token (store_token (store_token (store_token e 0 t0) 1 t1) 2 t2) 3 t3) 4 t4)
          5 t5) 6 t6) 7 t7) 8 t8) 9 t9 := rfl

theorem scan_print_int_exact (v : Int) : scan_int (print_int v) = some v := by
  have h := scan_print_int v [] (fun c hc => by simp at hc)
  rwa [List.append_nil] at h

theorem scan_print_nat_exact (n : Nat) : scan_int (print_nat n) = some (n : Int) := by
  have h := scan_print_nat n [] (fun c hc => by simp at hc)
  rwa [List.append_nil] at h

theorem store_token_call (e : spot) (t : List Char) :
    store_token e 0 t = { e with call := String.mk t } := rfl

theorem store_token_freq (e : spot) (v : Int) :
    store_token e 1 (print_int v) = { e with freq := to_unsigned 32 v } := by
  simp only [store_token, scan_print_int_exact]

theorem store_token_mode (e : spot) (v : Int) :
    store_token e 2 (print_int v) = { e with mode := to_signed 8 v } := by
  simp only [store_token, scan_print_int_exact]

theorem store_token_band (e : spot) (v : Int) :
    store_token e 3 (print_int v) = { e with band := to_signed 16 v } := by
  simp only [store_token, scan_print_int_exact]

theorem store_token_node (e : spot) (c : Char) :
    store_token e 4 [c] = { e with node := c } := rfl

theorem store_token_timeout (e : spot) (n : Nat) :
    store_token e 5 (print_nat n) = { e with timeout := to_unsigned 32 (n : Int) } := by
  simp only [store_token, scan_print_nat_exact]

theorem store_token_dupe (e : spot) (v : Int) :
    store_token e 6 (print_int v) = { e with dupe := to_signed 8 v } := by
  simp only [store_token, scan_print_int_exact]

theorem store_token_cqzone (e : spot) (v : Int) :
    store_token e 7 (print_int v) = { e with cqzone := to_signed 32 v } := by
  simp only [store_token, scan_print_int_exact]

theorem store_token_ctynr (e : spot) (v : Int) :
    store_token e 8 (print_int v) = { e with ctynr := to_signed 32 v } := by
  simp only [store_token, scan_print_int_exact]

theorem store_token_pfx (e : spot) (t : List Char) :
    store_token e 9 t = { e with pfx := String.mk t } := rfl

/-- The entry the reader builds from the line the writer wrote for a storable
record: every field of the record, and as prefix the written prefix followed by
the newline that ends the line. -/
theorem parse_write_line (sp : spot) (h : storable sp) :
    parse_line (write_line sp)
      = { sp with pfx := String.mk (g_strchomp sp.pfx.data ++ ['\n']) } := by
  have htok := strtok_write_line sp h
  obtain ⟨-, -, -, -, -, -, -, f1, ⟨m1, m2⟩, ⟨b1, b2⟩, t1, ⟨d1, d2⟩, ⟨q1, q2⟩, ⟨y1, y2⟩, -⟩ := h
  unfold parse_line
  rw [htok]
  simp only [parse_tokens_ten, store_token_call, store_token_freq, store_token_mode,
    store_token_band, store_token_node, store_token_timeout, store_token_dupe,
    store_token_cqzone, store_token_ctynr, store_token_pfx,
    to_unsigned_signed_32 sp.freq f1, to_signed_8 sp.mode m1 m2, to_signed_16 sp.band b1 b2,
    to_unsigned_32 sp.timeout t1, to_signed_8 sp.dupe d1 d2, to_signed_32 sp.cqzone q1 q2,
    to_signed_32 sp.ctynr y1 y2]

theorem mem_join_fields (c : Char) :
    ∀ fs : List (List Char), c ∈ join_fields fs → c = ';' ∨ ∃ f ∈ fs, c ∈ f
  | [], h => absurd h (List.not_mem_nil _)
  | [f], h => Or.inr ⟨f, List.mem_cons_self _ _, h⟩
  | f :: g :: rest, h => by
    have h1 : c ∈ f ++ ';' :: join_fields (g :: rest) := h
    rcases List.mem_append.1 h1 with h2 | h2
    · exact Or.inr ⟨f, List.mem_cons_self _ _, h2⟩
    · rcases List.mem_cons.1 h2 with h3 | h3
      · exact Or.inl h3
      · rcases mem_join_fields c (g :: rest) h3 with h4 | ⟨k, hk, hc⟩
        · exact Or.inl h4
        · exact Or.inr ⟨k, List.mem_cons_of_mem _ hk, hc⟩

/-- The line written for a storable record has no newline before its last
character. -/
theorem write_line_body (sp : spot) (h : storable sp) :
    '\n' ∉ join_fields [sp.call.data, print_int (to_signed 32 (sp.freq : Int)),
      print_int sp.mode, print_int sp.band, [sp.node], print_nat sp.timeout, print_int sp.dupe,
      print_int sp.cqzone, print_int sp.ctynr, g_strchomp sp.pfx.data] := by
  obtain ⟨-, -, c3, -, n2, -, p2, -⟩ := h
  intro hm
  have hi : ∀ v : Int, '\n' ∉ print_int v := fun v hv => ((print_int_chars v).2 _ hv).2 rfl
  have hn : ∀ n : Nat, '\n' ∉ print_nat n := fun n hv => ((print_nat_chars n).2 _ hv).2 rfl
  rcases mem_join_fields _ _ hm with h0 | ⟨f, hf, hc⟩
  · exact absurd h0 (by decide)
  rcases List.mem_cons.1 hf with h0 | hf
  · rw [h0] at hc; exact c3 hc
  rcases List.mem_cons.1 hf with h0 | hf
  · rw [h0] at hc; exact hi _ hc
  rcases List.mem_cons.1 hf with h0 | hf
  · rw [h0] at hc; exact hi _ hc
  rcases List.mem_cons.1 hf with h0 | hf
  · rw [h0] at hc; exact hi _ hc
  rcases List.mem_cons.1 hf with h0 | hf
  · rw [h0] at hc; exact n2 (List.mem_singleton.1 hc).symm
  rcases List.mem_cons.1 hf with h0 | hf
  · rw [h0] at hc; exact hn _ hc
  rcases List.mem_cons.1 hf with h0 | hf
  · rw [h0] at hc; exact hi _ hc
  rcases List.mem_cons.1 hf with h0 | hf
  · rw [h0] at hc; exact hi _ hc
  rcases List.mem_cons.1 hf with h0 | hf
  · rw [h0] at hc; exact hi _ hc
  rcases List.mem_cons.1 hf with h0 | hf
  · rw [h0] at hc; exact p2 (mem_g_strchomp _ _ hc)
  · exact absurd hf (List.not_mem_nil _)

/-- One call of `fgets` returns a whole line when the line, its newline and the
terminating byte fit the buffer. -/
theorem fgets_line (size : Nat) (rest : List Char) :
    ∀ (body cur : List Char), '\n' ∉ body → (cur ++ body).length + 2 ≤ size →
      fgets_all size (body ++ '\n' :: rest) cur
        = (cur ++ body ++ ['\n']) :: fgets_all size rest []
  | [], cur, _, _ => by
    rw [List.nil_append, fgets_all, if_pos (Or.inl rfl), List.append_nil]
  | c :: body, cur, hb, hl => by
    have hc : ¬ (c = '\n' ∨ (cur ++ [c]).length + 1 ≥ size) := by
      rintro (e | e)
      · exact hb (e ▸ List.mem_cons_self _ _)
      · simp only [List.length_append, List.length_cons, List.length_nil] at hl e
        omega
    rw [List.cons_append, fgets_all, if_neg hc,
      fgets_line size rest body (cur ++ [c]) (fun hm => hb (List.mem_cons_of_mem _ hm))
        (by simp only [List.length_append, List.length_cons, List.length_nil] at hl ⊢; omega)]
    simp only [List.append_assoc, List.singleton_append]

theorem fgets_write_lines :
    ∀ l : List spot, (∀ sp ∈ l, storable sp) →
      fgets_all 50 (write_lines l) [] = l.map write_line
  | [], _ => rfl
  | sp :: l, h => by
    have hs := h sp (List.mem_cons_self _ _)
    have hb := write_line_body sp hs
    have hl : (write_line sp).length ≤ 49 := hs.2.2.2.2.2.2.2.2.2.2.2.2.2.2.1
    have e : write_line sp
        = join_fields [sp.call.data, print_int (to_signed 32 (sp.freq : Int)),
            print_int sp.mode, print_int sp.band, [sp.node], print_nat sp.timeout,
            print_int sp.dupe, print_int sp.cqzone, print_int sp.ctynr,
            g_strchomp sp.pfx.data] ++ ['\n'] := rfl
    rw [e, List.length_append] at hl
    have key := fgets_line 50 (write_lines l) _ [] hb
      (by rw [List.nil_append]; exact Nat.succ_le_succ hl)
    rw [write_lines, List.map_cons, ← fgets_write_lines l (fun x hx => h x (List.mem_cons_of_mem _ hx))]
    rw [List.nil_append] at key
    rw [e, List.append_assoc]
    exact key

theorem print_int_length (v : Int) (h1 : -2147483648 ≤ v) (h2 : v < 2147483648) :
    (print_int v).length ≤ 11 := by
  have h : (Nat.toDigits 10 v.natAbs).length ≤ 10 :=
    Nat.toDigitsCore_length 10 (by decide) (v.natAbs + 1) v.natAbs 10 (by omega) (by decide)
  unfold print_int
  split_ifs
  · exact Nat.succ_le_succ h
  · exact Nat.le_succ_of_le h

/-- The lines that the reader obtains from the text that the writer produced. -/
theorem fgets_written (store : List spot) (now : Int)
    (hst : ∀ sp ∈ store, storable sp)
    (h1 : -2147483648 ≤ now) (h2 : now < 2147483648) :
    fgets_all 50 (print_int now ++ ('\n' :: write_lines store)) []
      = (print_int now ++ ['\n']) :: store.map write_line := by
  have hlen := print_int_length now h1 h2
  rw [fgets_line 50 (write_lines store) (print_int now) []
      (fun hm => ((print_int_chars now).2 _ hm).2 rfl)
      (by rw [List.nil_append]; omega),
    fgets_write_lines store hst, List.nil_append]

theorem saved_time_written (now stack : Int)
    (h1 : -2147483648 ≤ now) (h2 : now < 2147483648) :
    saved_time (print_int now ++ ['\n']) stack = now := by
  unfold saved_time
  rw [scan_print_int now ['\n'] (fun c hc => by
    simp only [List.head?_cons, Option.some.injEq] at hc
    rw [← hc]; decide)]
  exact to_signed_32 now h1 h2

theorem insert_sorted_last (x : spot) :
    ∀ acc : List spot, (∀ y ∈ acc, y.freq < x.freq) →
      g_list_insert_sorted cmp_freq acc x = acc ++ [x]
  | [], _ => rfl
  | y :: acc, h => by
    rw [g_list_insert_sorted, if_pos ((cmp_freq_pos x y).2 (h y (List.mem_cons_self _ _))),
      insert_sorted_last x acc (fun z hz => h z (List.mem_cons_of_mem _ hz))]
    rfl

/-- Reading back, with no time elapsed, the lines written for storable records
with strictly increasing frequencies appends the rebuilt records in order. -/
theorem read_entries_written :
    ∀ (l acc : List spot),
      ((acc ++ l).map spot.freq).Pairwise (fun a b => a < b) →
      (∀ sp ∈ l, storable sp ∧ 1 ≤ sp.timeout) →
      read_entries 0 (l.map write_line) acc = acc ++ l.map reloaded
  | [], acc, _, _ => by
    rw [List.map_nil, List.map_nil, List.append_nil]
    rfl
  | sp :: l, acc, hp, hs => by
    obtain ⟨h1, h2⟩ := hs sp (List.mem_cons_self _ _)
    have e : parse_line (write_line sp) = reloaded sp := parse_write_line sp h1
    have ht : (reloaded sp).timeout > 0 := h2
    have hlast : ∀ y ∈ acc, y.freq < (reloaded sp).freq := by
      intro y hy
      rw [List.map_append, List.map_cons, List.pairwise_append] at hp
      exact hp.2.2 y.freq (List.mem_map_of_mem _ hy) sp.freq (List.mem_cons_self _ _)
    have hp2 : (((acc ++ [reloaded sp]) ++ l).map spot.freq).Pairwise (fun a b => a < b) := by
      simp only [List.append_assoc, List.map_append, List.map_cons, List.map_nil,
        List.singleton_append] at hp ⊢
      exact hp
    rw [List.map_cons, read_entries, e, if_pos ht]
    have e2 : ({ reloaded sp with timeout := (reloaded sp).timeout - 0 } : spot) = reloaded sp :=
      rfl
    rw [e2, insert_sorted_last _ acc hlast,
      read_entries_written l (acc ++ [reloaded sp]) hp2
        (fun x hx => hs x (List.mem_cons_of_mem _ hx)),
      List.append_assoc, List.map_cons]
    rfl

/-! ## Saving and loading again -/

/-- C21, the round trip as the specification words it, refuted with the save and
the load both at second 1700000000.  A store with one record as `bandmap_addspot`
creates it comes back with the newline of its line as prefix; two records on
one frequency come back in the opposite order; a record whose line has 55
characters comes back from the first 49 of them, without its last fields; a
record with an empty call is lost. -/
theorem round_trip_counterexample :
    (sortedByFreq [scenarioSpot "W1ABC" 14025000 900] ∧
      (∀ sp ∈ [scenarioSpot "W1ABC" 14025000 900],
        1 ≤ sp.timeout ∧ ';' ∉ sp.call.data ∧ ';' ∉ sp.pfx.data) ∧
      (bmdata_read_file ⟨[], false⟩
          (bmdata_write_file [scenarioSpot "W1ABC" 14025000 900] true 1700000000).1
          1700000000 0).allspots
        = [{ scenarioSpot "W1ABC" 14025000 900 with pfx := "\n" }] ∧
      (bmdata_read_file ⟨[], false⟩
          (bmdata_write_file [scenarioSpot "W1ABC" 14025000 900] true 1700000000).1
          1700000000 0).allspots
        ≠ [scenarioSpot "W1ABC" 14025000 900]) ∧
    (sortedByFreq [scenarioSpot "K1A" 14020000 900, scenarioSpot "K1B" 14020000 900] ∧
      (bmdata_read_file ⟨[], false⟩
          (bmdata_write_file [scenarioSpot "K1A" 14020000 900, scenarioSpot "K1B" 14020000 900]
            true 1700000000).1 1700000000 0).allspots.map without_pfx
        = [scenarioSpot "K1B" 14020000 900, scenarioSpot "K1A" 14020000 900]) ∧
    ((write_line { scenarioSpot "VP8/SOUTHORKNEY/DL1ABC/MM" 14020000 900 with
          cqzone := 13, ctynr := 291 }).length = 55 ∧
      (bmdata_read_file ⟨[], false⟩
          (bmdata_write_file [{ scenarioSpot "VP8/SOUTHORKNEY/DL1ABC/MM" 14020000 900 with
            cqzone := 13, ctynr := 291 }] true 1700000000).1 1700000000 0).allspots
        = [{ scenarioSpot "VP8/SOUTHORKNEY/DL1ABC/MM" 14020000 900 with
            cqzone := 13, ctynr := 0 }]) ∧
    (bmdata_read_file ⟨[], false⟩
        (bmdata_write_file [scenarioSpot "" 14020000 900] true 1700000000).1
        1700000000 0).allspots = [] := by
  decide

/-- C21, the round trip as the code has it: for every store whose frequencies
strictly increase and whose records are storable (non-empty call; no `;` and no
newline in call, node and prefix; a node other than the zero byte; every number
within the range of its C type; a line of at most 49 characters) and have ttl at
least 1, loading into an empty store the text that `bmdata_write_file` wrote at
second `now` (an `int`), with zero elapsed time, gives the same sequence of
records with call, frequency, mode, band, node, ttl, dupe, cqzone and country
index identical. -/
theorem round_trip_persistence (store : List spot) (now now1 stack : Int)
    (hfreq : store.Pairwise (fun a b => a.freq < b.freq))
    (hst : ∀ sp ∈ store, storable sp ∧ 1 ≤ sp.timeout)
    (hnow : -2147483648 ≤ now ∧ now < 2147483648) (hzero : elapsed now1 now = 0) :
    (bmdata_read_file ⟨[], false⟩ (bmdata_write_file store true now).1 now1 stack).allspots.map
        without_pfx
      = store.map without_pfx := by
  have hlines := fgets_written store now (fun sp hsp => (hst sp hsp).1) hnow.1 hnow.2
  have hread := read_entries_written store []
    (by rw [List.nil_append]; exact (List.pairwise_map).2 hfreq) hst
  have hload : (bmdata_read_file ⟨[], false⟩ (bmdata_write_file store true now).1 now1
      stack).allspots = store.map reloaded := by
    unfold bmdata_write_file bmdata_read_file
    simp only [if_true, Bool.false_eq_true, if_false]
    rw [hlines]
    simp only
    rw [saved_time_written now stack hnow.1 hnow.2, hzero, hread, List.nil_append]
  rw [hload, List.map_map]
  rfl

theorem round_trip_persistence_witness :
    (bmdata_read_file ⟨[], false⟩
        (bmdata_write_file
          [{ scenarioSpot "K1A" 14020000 7 with cqzone := 5, ctynr := 291, pfx := "K" },
            { scenarioSpot "EA8/DL1ABC/P" 14025000 900 with
              node := 'A', dupe := 1, cqzone := 33, ctynr := 100, pfx := "EA8 " }]
          true 1700000000).1 1700000000 0).allspots.map without_pfx
      = [{ scenarioSpot "K1A" 14020000 7 with cqzone := 5, ctynr := 291, pfx := "K" },
          { scenarioSpot "EA8/DL1ABC/P" 14025000 900 with
            node := 'A', dupe := 1, cqzone := 33, ctynr := 100, pfx := "EA8 " }].map
          without_pfx :=
  round_trip_persistence
    [{ scenarioSpot "K1A" 14020000 7 with cqzone := 5, ctynr := 291, pfx := "K" },
      { scenarioSpot "EA8/DL1ABC/P" 14025000 900 with
        node := 'A', dupe := 1, cqzone := 33, ctynr := 100, pfx := "EA8 " }]
    1700000000 1700000000 0 (by decide) (by unfold storable; decide) ⟨by decide, by decide⟩
    (by decide)

end Bandmap
